import Mathlib

/-!
# Flow network explorator

A shallow embedding of `flow_network_explorator.cpp` (ipa_room_exploration):
the two linear programs handed to the solver (`solveMultiStageOptimizationProblem`,
`solveThreeStageOptimizationProblem`), `pointClose`, and `getExplorationPath`.

Conventions of the embedding
* `double` and `float` values are rationals and arithmetic on them is exact; a
  literal such as `0.01`, `0.1` or `1.1` stands for the decimal fraction it shows.
* `size_t`, `uint` and `int` values are natural numbers or integers; where the
  source compares a `size_t` with an `int`, the conversion of the `int` is made
  explicit with `size_t`.  Container sizes are taken to fit their index types.
* The solver, the path planner and the distance matrix builder are external;
  they appear as parameters.  `QSnew_col` and `QSadd_row` are taken to succeed
  (`rval = 0`), so a program is the list of its columns and the list of its rows.
* Reads outside a container are undefined in the source; the embedding returns a
  default value (`0`, the empty list) for them.  A negative `double` converted to
  `size_t` wraps around like a negative `int`.
* A `std::vector<double>` asked for more than `max_size()` elements throws; the function
  is then left by the exception and has no result.  Memory is taken to suffice for every
  vector of at most `max_size()` elements.
-/

namespace flowNetworkExplorator

/-! ## Basic types -/

/-- Value of a C++ `int` after its conversion to the 64 bit `size_t`, as in the
comparisons `r<stages` and `r<stages-1` with `size_t r`. -/
def size_t (i : Int) : Nat := (i % 18446744073709551616).toNat

/-- Conversion of a `double` to an integer type: the fractional part is dropped. -/
def truncate (q : ℚ) : Int := if 0 ≤ q then ⌊q⌋ else ⌈q⌉

/-- The matrix `cv::Mat` of type `CV_8U`: number of rows, number of columns and the
entries, row by row. -/
structure Mat where
  rows : Nat
  cols : Nat
  data : List (List Nat)
deriving DecidableEq

/-- The read `V.at<uchar>(row, col)`. -/
def Mat.atUchar (V : Mat) (row col : Nat) : Nat := (V.data.getD row []).getD col 0

/-- The read `room_map.at<uchar>(row, col)` with indices that may have left the matrix on
the low side. -/
def Mat.atInt (V : Mat) (row col : Int) : Nat :=
  if 0 ≤ row ∧ 0 ≤ col then V.atUchar row.toNat col.toNat else 0

/-- The integer point `cv::Point`. -/
structure Point where
  x : Int
  y : Int
deriving DecidableEq

/-- A point of a `geometry_msgs::Polygon` (`Point32`; the coordinate `z` is not used). -/
structure Point32 where
  x : ℚ
  y : ℚ
deriving DecidableEq

/-- The pose `geometry_msgs::Pose2D`. -/
structure Pose2D where
  x : ℚ
  y : ℚ
  theta : ℚ
deriving DecidableEq

/-- The struct `arcStruct` of the flow network, as the source uses it: start point, end
point, weight and the points of the planned path. -/
structure arcStruct where
  start_point : Point
  end_point : Point
  weight : ℚ
  edge_points : List Point
deriving DecidableEq

/-- The matrix `distance_matrix` of type `double`. -/
structure DistanceMatrix where
  rows : Nat
  cols : Nat
  data : List (List ℚ)
deriving DecidableEq

/-- The read `distance_matrix.at<double>(row, col)`. -/
def DistanceMatrix.atDouble (D : DistanceMatrix) (row col : Nat) : ℚ :=
  (D.data.getD row []).getD col 0

/-- The difference `p - q` of two `cv::Point`. -/
def Point.sub (p q : Point) : Point := { x := p.x - q.x, y := p.y - q.y }

/-- The squared Euclidean length of a `cv::Point`, the square of `cv::norm`. -/
def Point.normSq (p : Point) : Int := p.x * p.x + p.y * p.y

/-- Modelled from the spec: the helper `contains` is declared outside the given
sources; it reports whether the vector holds the element, as its use as the guard of
a `std::find` on the same vector shows. -/
def contains {α : Type} [DecidableEq α] (v : List α) (a : α) : Bool := decide (a ∈ v)

/-! ## The program handed to the solver -/

/-- Sense of a row given to `QSadd_row`: `'G'` (greater or equal) or `'E'` (equal). -/
inductive Sense where
  | G : Sense
  | E : Sense
deriving DecidableEq

/-- A row given to `QSadd_row`: the entries of `variable_indices` paired with the
entries of `variable_coefficients`, the right-hand side and the sense. -/
structure Row where
  terms : List (Nat × ℚ)
  rhs : ℚ
  sense : Sense
deriving DecidableEq

/-- A column created by `QSnew_col(problem, obj, 0.0, 1.0, NULL)`.  Besides the
objective coefficient and the bounds the record keeps which entry of `weights` was
read for the coefficient (`arc`) and in which stage of the creation loops the column
was made (`stage`; in the three stage program `0` is the initial, `1` the coverage
and `2` the final stage). -/
structure Column where
  obj : ℚ
  lower : ℚ
  upper : ℚ
  arc : Nat
  stage : Nat
deriving DecidableEq

/-- The program handed to the solver: columns in creation order, rows in the order of
the `QSadd_row` calls, and whether the variables were redeclared as integers. -/
structure Problem where
  columns : List Column
  rows : List Row
  integer : Bool
deriving DecidableEq

/-- Left-hand side of a row under the assignment `x`. -/
def Row.lhs (row : Row) (x : Nat → ℚ) : ℚ := (row.terms.map fun t => t.2 * x t.1).sum

/-- The assignment `x` satisfies the row. -/
def Row.holds (row : Row) (x : Nat → ℚ) : Prop :=
  match row.sense with
  | Sense.G => row.rhs ≤ row.lhs x
  | Sense.E => row.lhs x = row.rhs

instance Row.decidableHolds (row : Row) (x : Nat → ℚ) : Decidable (row.holds x) :=
  match h : row.sense with
  | Sense.G => decidable_of_iff (row.rhs ≤ row.lhs x) (by simp [Row.holds, h])
  | Sense.E => decidable_of_iff (row.lhs x = row.rhs) (by simp [Row.holds, h])

/-- The assignment `x` satisfies the program: every row holds and every variable lies
within the bounds of its column. -/
def Problem.satisfiedBy (p : Problem) (x : Nat → ℚ) : Prop :=
  (∀ row ∈ p.rows, row.holds x) ∧
  ∀ k c, p.columns[k]? = some c → c.lower ≤ x k ∧ x k ≤ c.upper

/-- The call `QSnew_col` of the variable loops: the objective coefficient is
`W->operator[](k)*weights[arc]` when a relaxation vector is given and `weights[arc]`
otherwise; the bounds are `0.0` and `1.0`. -/
def newColumn (W : Option (List ℚ)) (weights : List ℚ) (k arc stage : Nat) : Column :=
  { obj := match W with
      | some w => w.getD k 0 * weights.getD arc 0
      | none => weights.getD arc 0
    lower := 0
    upper := 1
    arc := arc
    stage := stage }

/-- The row built from `variable_indices` with all coefficients `1.0`, right-hand side
`1.0` and sense `'G'`; it is added only `if(variable_indices.size()>0)`. -/
def coverageRow (variable_indices : List Nat) : Option Row :=
  if variable_indices.length > 0 then
    some { terms := variable_indices.map fun i => (i, 1), rhs := 1, sense := Sense.G }
  else none

/-- The row built from `variable_indices` with all coefficients `1.0`, right-hand side
`1.0` and sense `'E'`. -/
def cardinalityRow (variable_indices : List Nat) : Row :=
  { terms := variable_indices.map fun i => (i, 1), rhs := 1, sense := Sense.E }

/-- The copy of the solver result into `C` (lines 245-252): the first
`number_of_variables` entries of `C` are overwritten. -/
def retrieveSolution (C result : List ℚ) (number_of_variables : Nat) : List ℚ :=
  (List.range C.length).map fun var =>
    if var < number_of_variables then result.getD var 0 else C.getD var 0

/-! ## `solveMultiStageOptimizationProblem` -/

/-- Columns of the multi stage program (source lines 24-50). -/
def multiStageColumns (cols : Nat) (weights : List ℚ) (stages : Int)
    (start_arcs : List Nat) (W : Option (List ℚ)) : List Column :=
  (List.range (size_t stages)).flatMap fun r =>
    if r = 0 then
      (List.range start_arcs.length).map fun arc =>
        newColumn W weights arc (start_arcs.getD arc 0) r
    else
      (List.range cols).map fun var =>
        newColumn W weights (var + start_arcs.length + cols * (r - 1)) var r

/-- The vector `variable_indices` of the coverage loop for one `row` (lines 58-69). -/
def multiStageCoverageIndices (V : Mat) (stages : Int) (start_arcs : List Nat)
    (row : Nat) : List Nat :=
  ((List.range start_arcs.length).filter fun col =>
      V.atUchar row (start_arcs.getD col 0) = 1) ++
  ((List.range V.cols).filter fun col => V.atUchar row col = 1).flatMap fun col =>
    (List.range' 1 (size_t stages - 1)).map fun r =>
      col + start_arcs.length + V.cols * (r - 1)

/-- The coverage row of one `row` of `V`, when one is added (lines 71-76). -/
def multiStageCoverageRow (V : Mat) (stages : Int) (start_arcs : List Nat)
    (row : Nat) : Option Row :=
  coverageRow (multiStageCoverageIndices V stages start_arcs row)

/-- The vector `variable_indices` of the stage loop for stage `r` (lines 85-92). -/
def multiStageStageIndices (cols : Nat) (start_arcs : List Nat) (r : Nat) : List Nat :=
  if r = 0 then List.range start_arcs.length
  else (List.range cols).map fun var => var + start_arcs.length + cols * (r - 1)

/-- The rows of the stage loop (lines 83-106). -/
def multiStageStageRows (cols : Nat) (stages : Int) (start_arcs : List Nat) : List Row :=
  (List.range (size_t stages)).map fun r =>
    cardinalityRow (multiStageStageIndices cols start_arcs r)

/-- The inflow part of the flow row of stage `r` and `node` (lines 120-135). -/
def multiStageInflowTerms (cols : Nat) (flows_into_nodes : List (List Nat))
    (start_arcs : List Nat) (r node : Nat) : List (Nat × ℚ) :=
  (flows_into_nodes.getD node []).flatMap fun inflow =>
    if r = 1 ∧ contains start_arcs inflow = true then
      [(start_arcs.indexOf inflow, 1)]
    else if r > 1 then
      [(inflow + start_arcs.length + cols * (r - 2), 1)]
    else []

/-- The outflow part of the flow row of stage `r` and `node` (lines 143-147). -/
def multiStageOutflowTerms (cols : Nat) (flows_out_of_nodes : List (List Nat))
    (start_arcs : List Nat) (r node : Nat) : List (Nat × ℚ) :=
  (flows_out_of_nodes.getD node []).map fun outflow =>
    (outflow + start_arcs.length + cols * (r - 1), -1)

/-- The flow row of stage `r` and `node`; none is added when no inflow term was
gathered (`continue`, lines 139-140). -/
def multiStageFlowRow (cols : Nat) (flows_into_nodes flows_out_of_nodes : List (List Nat))
    (start_arcs : List Nat) (r node : Nat) : Option Row :=
  let inflow := multiStageInflowTerms cols flows_into_nodes start_arcs r node
  if inflow.length = 0 then none
  else some { terms := inflow ++ multiStageOutflowTerms cols flows_out_of_nodes start_arcs r node
              rhs := 0
              sense := Sense.E }

/-- The rows of the flow loop, `for(size_t r=1; r<stages-1; ++r)` over all nodes
(lines 112-160). -/
def multiStageFlowRows (cols : Nat) (flows_into_nodes flows_out_of_nodes : List (List Nat))
    (stages : Int) (start_arcs : List Nat) : List Row :=
  (List.range' 1 (size_t (stages - 1) - 1)).flatMap fun r =>
    (List.range flows_into_nodes.length).filterMap fun node =>
      multiStageFlowRow cols flows_into_nodes flows_out_of_nodes start_arcs r node

/-- The program built by `solveMultiStageOptimizationProblem` before the solver is
called. -/
def multiStageProblem (V : Mat) (weights : List ℚ)
    (flows_into_nodes flows_out_of_nodes : List (List Nat)) (stages : Int)
    (start_arcs : List Nat) (W : Option (List ℚ)) : Problem :=
  { columns := multiStageColumns V.cols weights stages start_arcs W
    rows := (List.range V.rows).filterMap (multiStageCoverageRow V stages start_arcs) ++
      multiStageStageRows V.cols stages start_arcs ++
      multiStageFlowRows V.cols flows_into_nodes flows_out_of_nodes stages start_arcs
    integer := W.isNone }

/-- The function `solveMultiStageOptimizationProblem`: builds the program, has it solved by
`solver` and copies the result into `C`. -/
def solveMultiStageOptimizationProblem (solver : Problem → List ℚ) (C : List ℚ) (V : Mat)
    (weights : List ℚ) (flows_into_nodes flows_out_of_nodes : List (List Nat)) (stages : Int)
    (start_arcs : List Nat) (W : Option (List ℚ)) : List ℚ :=
  let problem := multiStageProblem V weights flows_into_nodes flows_out_of_nodes stages start_arcs W
  retrieveSolution C (solver problem) problem.columns.length

/-! ## `solveThreeStageOptimizationProblem` -/

/-- The arcs visited by the nested loop over `flows_out_of_nodes` (node by node, flow by
flow); the position in this list is the counter `number_of_final_arcs` at creation and
`flow_counter` in the coverage loop. -/
def finalArcs (flows_out_of_nodes : List (List Nat)) : List Nat := flows_out_of_nodes.flatten

/-- Columns of the three stage program (lines 278-313). -/
def threeStageColumns (cols : Nat) (weights : List ℚ) (flows_out_of_nodes : List (List Nat))
    (start_arcs : List Nat) (W : Option (List ℚ)) : List Column :=
  ((List.range start_arcs.length).map fun arc =>
      newColumn W weights arc (start_arcs.getD arc 0) 0) ++
  ((List.range cols).map fun var =>
      newColumn W weights (var + start_arcs.length) var 1) ++
  ((finalArcs flows_out_of_nodes).enum.map fun p =>
      newColumn W weights (p.1 + start_arcs.length + cols) p.2 2)

/-- The vector `variable_indices` of the coverage loop for one `row` (lines 322-347). -/
def threeStageCoverageIndices (V : Mat) (flows_out_of_nodes : List (List Nat))
    (start_arcs : List Nat) (row : Nat) : List Nat :=
  ((List.range start_arcs.length).filter fun col =>
      V.atUchar row (start_arcs.getD col 0) = 1) ++
  (((List.range V.cols).filter fun col => V.atUchar row col = 1).map fun col =>
      col + start_arcs.length) ++
  (((finalArcs flows_out_of_nodes).enum.filter fun p => V.atUchar row p.2 = 1).map fun p =>
      p.1 + start_arcs.length + V.cols)

/-- The coverage row of one `row` of `V`, when one is added (lines 349-354). -/
def threeStageCoverageRow (V : Mat) (flows_out_of_nodes : List (List Nat))
    (start_arcs : List Nat) (row : Nat) : Option Row :=
  coverageRow (threeStageCoverageIndices V flows_out_of_nodes start_arcs row)

/-- The row of the initial stage (lines 366-373). -/
def threeStageStartRow (start_arcs : List Nat) : Row :=
  cardinalityRow (List.range start_arcs.length)

/-- The flow row of `node` in the coverage stage (lines 381-413). -/
def threeStageFlowRow (cols : Nat) (flows_into_nodes flows_out_of_nodes : List (List Nat))
    (start_arcs : List Nat) (node : Nat) : Row :=
  { terms :=
      ((flows_into_nodes.getD node []).flatMap fun inflow =>
        (if contains start_arcs inflow = true then [(start_arcs.indexOf inflow, (1 : ℚ))] else []) ++
          [(inflow + start_arcs.length, 1)]) ++
      ((flows_out_of_nodes.getD node []).flatMap fun outflow =>
        [(outflow + start_arcs.length, -1), (outflow + start_arcs.length + cols, -1)])
    rhs := 0
    sense := Sense.E }

/-- The row of the final stage (lines 420-429). -/
def threeStageFinalRow (cols : Nat) (flows_out_of_nodes : List (List Nat))
    (start_arcs : List Nat) : Row :=
  cardinalityRow ((List.range (finalArcs flows_out_of_nodes).length).map fun node =>
    node + start_arcs.length + cols)

/-- The program built by `solveThreeStageOptimizationProblem` before the solver is
called. -/
def threeStageProblem (V : Mat) (weights : List ℚ)
    (flows_into_nodes flows_out_of_nodes : List (List Nat))
    (start_arcs : List Nat) (W : Option (List ℚ)) : Problem :=
  { columns := threeStageColumns V.cols weights flows_out_of_nodes start_arcs W
    rows := (List.range V.rows).filterMap (threeStageCoverageRow V flows_out_of_nodes start_arcs) ++
      [threeStageStartRow start_arcs] ++
      ((List.range flows_into_nodes.length).map
        (threeStageFlowRow V.cols flows_into_nodes flows_out_of_nodes start_arcs)) ++
      [threeStageFinalRow V.cols flows_out_of_nodes start_arcs]
    integer := W.isNone }

/-- The function `solveThreeStageOptimizationProblem`: builds the program, has it solved by
`solver` and copies the result into `C`. -/
def solveThreeStageOptimizationProblem (solver : Problem → List ℚ) (C : List ℚ) (V : Mat)
    (weights : List ℚ) (flows_into_nodes flows_out_of_nodes : List (List Nat))
    (start_arcs : List Nat) (W : Option (List ℚ)) : List ℚ :=
  let problem := threeStageProblem V weights flows_into_nodes flows_out_of_nodes start_arcs W
  retrieveSolution C (solver problem) problem.columns.length

/-! ## `pointClose` -/

/-- The function `pointClose`. -/
def pointClose (points : List Point) (point : Point) (min_distance : ℚ) : Bool :=
  let square_distance := min_distance * min_distance
  points.any fun current_point =>
    let dx : ℚ := current_point.x - point.x
    let dy : ℚ := current_point.y - point.y
    decide (dx * dx + dy * dy ≤ square_distance)

/-! ## `getExplorationPath`: discretisation and flow network -/

/-- A loop `for(size_t i = start; cond(i); i = incr(i)) body`, where the body may change
the loop variable; at most `fuel` passes, `none` when the fuel does not suffice. -/
def forLoop {σ : Type} (cond : Nat → Bool) (body : Nat → σ → Option (Nat × σ))
    (incr : Nat → Nat) : Nat → Nat → σ → Option σ
  | 0, _, _ => none
  | fuel + 1, i, s =>
    if cond i then
      match body i s with
      | none => none
      | some (i', s') => forLoop cond body incr fuel (incr i') s'
    else some s

/-- The cell centers found by the loops of lines 577-581. -/
def sampleCellCenters (fuel : Nat) (room_map : Mat) (cell_size : Int)
    (room_min_max_coordinates : List Point32) : Option (List Point) :=
  let pmin := room_min_max_coordinates.getD 0 ⟨0, 0⟩
  let pmax := room_min_max_coordinates.getD 1 ⟨0, 0⟩
  forLoop (fun y => decide ((y : ℚ) ≤ pmax.y))
    (fun y cell_centers =>
      (forLoop (fun x => decide ((x : ℚ) ≤ pmax.x))
        (fun x cell_centers =>
          some (x, if room_map.atUchar y x = 255 then cell_centers ++ [⟨x, y⟩] else cell_centers))
        (fun x => size_t ((x : Int) + cell_size))
        fuel (size_t (truncate (pmin.x + (1 / 2) * cell_size))) cell_centers).map
        fun cell_centers => (y, cell_centers))
    (fun y => size_t ((y : Int) + cell_size))
    fuel (size_t (truncate (pmin.y + (1 / 2) * cell_size))) []

/-- The body of the inner sweep loop (lines 592-604) at row `y` and column `x`: the new
column and the new vector `edges`. -/
def sweepStep (room_map : Mat) (coverage_int : Int) (y x : Nat) (edges : List Point) :
    Nat × List Point :=
  if room_map.atUchar y x = 0 ∧
      (room_map.atInt ((y : Int) - 1) x = 255 ∨ room_map.atUchar (y + 1) x = 255) then
    let edges :=
      if room_map.atInt ((y : Int) - coverage_int) x = 255 then
        edges ++ [⟨x, (y : Int) - coverage_int⟩]
      else if room_map.atInt ((y : Int) + coverage_int) x = 255 ∧
          size_t ((y : Int) + coverage_int) < room_map.rows then
        edges ++ [⟨x, (y : Int) + coverage_int⟩]
      else edges
    (size_t (truncate ((x : ℚ) + (2 * (coverage_int : ℚ) - 1))), edges)
  else (x, edges)

/-- The vector `edges` found by the sweep along the y-axis (lines 584-608). -/
def sweepEdges (fuel : Nat) (room_map : Mat) (room_min_max_coordinates : List Point32)
    (coverage_radius : ℚ) : Option (List Point) :=
  let pmin := room_min_max_coordinates.getD 0 ⟨0, 0⟩
  let pmax := room_min_max_coordinates.getD 1 ⟨0, 0⟩
  let coverage_int : Int := ⌊coverage_radius⌋
  forLoop (fun y => decide ((y : ℚ) ≤ pmax.y))
    (fun y edges =>
      (forLoop (fun x => decide (x < room_map.cols))
        (fun x edges => some (sweepStep room_map coverage_int y x edges))
        (fun x => size_t ((x : Int) + 1)) fuel 0 edges).map fun edges => (y, edges))
    (fun y => size_t ((y : Int) + 1))
    fuel (size_t (truncate (pmin.y + coverage_int))) []

/-- The test `weight <= 1.1*cv::norm(vector)`, written without the square root: a weight
that is not positive passes, a positive one passes when its square is at most
`1.21 * (x² + y²)`. -/
def leScaledNorm (weight : ℚ) (vector : Point) : Prop :=
  weight ≤ 0 ∨ 100 * (weight * weight) ≤ 121 * (vector.normSq : ℚ)

instance leScaledNorm.decidable (weight : ℚ) (vector : Point) :
    Decidable (leScaledNorm weight vector) := by
  unfold leScaledNorm; infer_instance

/-- The value of `max_distance` (line 643). -/
def max_distance (room_min_max_coordinates : List Point32) : ℚ :=
  (room_min_max_coordinates.getD 1 ⟨0, 0⟩).y - (room_min_max_coordinates.getD 0 ⟨0, 0⟩).y

/-- A freshly declared `arcStruct` (`arcStruct current_forward_arc;`): the points and the
path are default constructed, the weight holds whatever value `weight` the declaration
leaves in it. -/
def freshArc (weight : ℚ) : arcStruct :=
  { start_point := ⟨0, 0⟩, end_point := ⟨0, 0⟩, weight := weight, edge_points := [] }

/-- The arcs pushed for the pair `(start, end)` of the loops of lines 644-677.
`planPath p q` is the path `astar_path` written by `path_planner_.planPath` for the two
points, and `unset start end` the value found in the weight of an `arcStruct` declared in
this pass and never assigned. -/
def arcsOfPair (edges : List Point) (distance_matrix : DistanceMatrix) (max_distance : ℚ)
    (planPath : Point → Point → List Point) (unset : Nat → Nat → ℚ)
    (start end_ : Nat) : List arcStruct :=
  if start ≠ end_ ∧ end_ > start then
    let current_forward_arc := freshArc (unset start end_)
    let current_forward_arc := { current_forward_arc with start_point := edges.getD start ⟨0, 0⟩ }
    let current_forward_arc := { current_forward_arc with end_point := edges.getD end_ ⟨0, 0⟩ }
    let current_forward_arc :=
      { current_forward_arc with weight := distance_matrix.atDouble start end_ }
    let current_backward_arc := freshArc (unset start end_)
    let current_backward_arc := { current_backward_arc with start_point := edges.getD end_ ⟨0, 0⟩ }
    let current_backward_arc := { current_backward_arc with end_point := edges.getD start ⟨0, 0⟩ }
    let current_forward_arc :=
      { current_forward_arc with weight := distance_matrix.atDouble end_ start }
    let vector := current_forward_arc.start_point.sub current_forward_arc.end_point
    if current_forward_arc.weight ≤ max_distance ∧
        leScaledNorm current_forward_arc.weight vector then
      let astar_path := planPath current_forward_arc.start_point current_forward_arc.end_point
      let current_forward_arc := { current_forward_arc with edge_points := astar_path }
      let current_backward_arc := { current_backward_arc with edge_points := astar_path.reverse }
      [current_forward_arc, current_backward_arc]
    else []
  else []

/-- The vector `arcs` after the loops of lines 644-677. -/
def createArcs (edges : List Point) (distance_matrix : DistanceMatrix) (max_distance : ℚ)
    (planPath : Point → Point → List Point) (unset : Nat → Nat → ℚ) : List arcStruct :=
  (List.range distance_matrix.rows).flatMap fun start =>
    (List.range distance_matrix.cols).flatMap fun end_ =>
      arcsOfPair edges distance_matrix max_distance planPath unset start end_

/-! ## `getExplorationPath`: matrices and vectors of the optimisation -/

/-- The visibility matrix `V` (lines 690-701). -/
def visibilityMatrix (cell_centers : List Point) (arcs : List arcStruct)
    (coverage_radius : ℚ) : Mat :=
  { rows := cell_centers.length
    cols := arcs.length
    data := cell_centers.map fun cell =>
      arcs.map fun arc =>
        if pointClose arc.edge_points cell ((11 / 10) * coverage_radius) = true then 1 else 0 }

/-- The vector `flows_into_nodes` (lines 704-721): for every edge the indices of the arcs
whose start point is the edge. -/
def flowsIntoNodes (edges : List Point) (arcs : List arcStruct) : List (List Nat) :=
  edges.map fun edge =>
    (List.range arcs.length).filter fun arc =>
      (arcs.getD arc (freshArc 0)).start_point = edge

/-- The vector `flows_out_of_nodes` (lines 704-721): for every edge the indices of the arcs
whose start point is not the edge and whose end point is the edge. -/
def flowsOutOfNodes (edges : List Point) (arcs : List arcStruct) : List (List Nat) :=
  edges.map fun edge =>
    (List.range arcs.length).filter fun arc =>
      ¬ (arcs.getD arc (freshArc 0)).start_point = edge ∧
        (arcs.getD arc (freshArc 0)).end_point = edge

/-- The counter `number_of_outflows` (lines 706-721): it is raised with every push to a
list of `flows_into_nodes`. -/
def numberOfOutflows (edges : List Point) (arcs : List arcStruct) : Nat :=
  ((flowsIntoNodes edges arcs).map List.length).sum

/-- The search of the start node (lines 756-767).  The distances `cv::norm` are compared by
their squares; the state is the square of `min_distance` and `start_index`. -/
def findStartIndex (edges : List Point) (starting_position : Point) : Nat :=
  ((List.range edges.length).foldl
    (fun (state : ℚ × Nat) edge =>
      let difference_vector := (edges.getD edge ⟨0, 0⟩).sub starting_position
      if (difference_vector.normSq : ℚ) < state.1 then (difference_vector.normSq, edge)
      else state)
    ((100000 : ℚ) * 100000, 0)).2

/-! ## `getExplorationPath`: the reweighting loop -/

/-- The variables of the `do ... while` loop (lines 783-787) together with the vectors
`C_small` and `W_small`. -/
structure LoopState where
  C_small : List ℚ
  W_small : List ℚ
  sparsity_converged : Bool
  weight_epsilon : ℚ
  number_of_iterations : Nat
  sparsity_measures : List Nat

/-- The declaration `int exponent = 1 + (number_of_iterations - 1)*0.1;` (line 798): the
product is a `double`, the initialisation of the `int` truncates it. -/
def exponent (number_of_iterations : Nat) : Int :=
  truncate ((1 : ℚ) + ((number_of_iterations - 1 : Nat) : ℚ) * (1 / 10))

/-- The count `|{i: c[i] <= eps}|` of lines 804-807. -/
def sparsityMeasure (C_small : List ℚ) : Nat :=
  C_small.countP fun c => c ≤ 1 / 100

/-- The terminal condition of lines 812-821, giving the new value of `sparsity_converged`:
when the history holds at least `sparsity_check_range` measures, the measures reached from
`rbegin()` before `rbegin()+sparsity_check_range` that are `>=` the last one are counted,
and the flag is set when the count equals `sparsity_check_range`. -/
def terminalCondition (sparsity_measures : List Nat) (sparsity_check_range : Int)
    (sparsity_converged : Bool) : Bool :=
  if size_t sparsity_check_range ≤ sparsity_measures.length then
    let number_of_last_measure :=
      (sparsity_measures.reverse.take sparsity_check_range.toNat).countP fun measure =>
        measure ≥ sparsity_measures.getLastD 0
    if (number_of_last_measure : Int) = sparsity_check_range then true else sparsity_converged
  else sparsity_converged

/-- One pass through the body of the `do ... while` loop (lines 790-823).  `solve n C W` is
the vector left in `C_small` by the `n`-th call of `solveThreeStageOptimizationProblem`
with relaxation vector `W`; `euler_constant` is the value of `std::exp(1.0)`. -/
def loopBody (solve : Nat → List ℚ → List ℚ → List ℚ) (euler_constant : ℚ)
    (sparsity_check_range : Int) (s : LoopState) : LoopState :=
  let number_of_iterations := s.number_of_iterations + 1
  let C_small := solve number_of_iterations s.C_small s.W_small
  let weight_epsilon := (1 / (euler_constant - 1)) ^ exponent number_of_iterations
  let W_small := (List.range s.W_small.length).map fun weight =>
    weight_epsilon / (weight_epsilon + C_small.getD weight 0)
  let sparsity_measures := s.sparsity_measures ++ [sparsityMeasure C_small]
  { C_small := C_small
    W_small := W_small
    sparsity_converged :=
      terminalCondition sparsity_measures sparsity_check_range s.sparsity_converged
    weight_epsilon := weight_epsilon
    number_of_iterations := number_of_iterations
    sparsity_measures := sparsity_measures }

/-- The `do ... while(sparsity_converged == false && number_of_iterations <= 50)` loop, run
for at most `fuel` passes; `none` when the fuel does not suffice. -/
def reweightingLoop (solve : Nat → List ℚ → List ℚ → List ℚ) (euler_constant : ℚ)
    (sparsity_check_range : Int) : Nat → LoopState → Option LoopState
  | 0, _ => none
  | fuel + 1, s =>
    let s' := loopBody solve euler_constant sparsity_check_range s
    if s'.sparsity_converged = false ∧ s'.number_of_iterations ≤ 50 then
      reweightingLoop solve euler_constant sparsity_check_range fuel s'
    else some s'

/-- The state in which the loop is entered (lines 770-771, 783-786). -/
def initialLoopState (number_of_variables : Nat) : LoopState :=
  { C_small := List.replicate number_of_variables 0
    W_small := List.replicate number_of_variables 1
    sparsity_converged := false
    weight_epsilon := 0
    number_of_iterations := 0
    sparsity_measures := [] }

/-! ## `getExplorationPath`: reduction of the network -/

/-- Insertion into the ordered `std::set<uint>`. -/
def setInsert (a : Nat) : List Nat → List Nat
  | [] => [a]
  | b :: t => if a < b then a :: b :: t else if a = b then b :: t else b :: setInsert a t

/-- The set `used_arcs` (lines 829-883): the start arcs, the coverage arcs and the final
arcs whose tested entry of `C_small` is not zero.  In the final part `flow_counter` stays 0
and the offset is the number of nodes. -/
def usedArcs (C_small : List ℚ) (flows_out_of_nodes : List (List Nat)) (start_index : Nat)
    (number_of_arcs : Nat) : List Nat :=
  let start_arcs := flows_out_of_nodes.getD start_index []
  let used_arcs := (List.range start_arcs.length).foldl
    (fun used_arcs start_arc =>
      if C_small.getD start_arc 0 ≠ 0 then setInsert (start_arcs.getD start_arc 0) used_arcs
      else used_arcs) []
  let used_arcs := (List.range' start_arcs.length number_of_arcs).foldl
    (fun used_arcs arc =>
      if C_small.getD arc 0 ≠ 0 then setInsert (arc - start_arcs.length) used_arcs
      else used_arcs) used_arcs
  let flow_counter := 0
  (finalArcs flows_out_of_nodes).foldl
    (fun used_arcs flow =>
      if C_small.getD (flow_counter + start_arcs.length + flows_out_of_nodes.length) 0 ≠ 0 then
        setInsert flow used_arcs
      else used_arcs) used_arcs

/-- The vector `reduced_edges` (lines 890-903): start and end points of the used arcs, each
pushed when it is not yet contained. -/
def reducedEdges (reduced_arc_candidates : List arcStruct) : List Point :=
  reduced_arc_candidates.foldl
    (fun reduced_edges current_arc =>
      let reduced_edges :=
        if contains reduced_edges current_arc.start_point = false then
          reduced_edges ++ [current_arc.start_point]
        else reduced_edges
      if contains reduced_edges current_arc.end_point = false then
        reduced_edges ++ [current_arc.end_point]
      else reduced_edges) []

/-- The value of `reduced_start_index` after the loops of lines 908-929. -/
def reducedStartIndex (reduced_edges : List Point) (reduced_arc_candidates : List arcStruct)
    (start_edge : Point) : Nat :=
  (List.range reduced_edges.length).foldl
    (fun reduced_start_index edge =>
      reduced_arc_candidates.foldl
        (fun reduced_start_index arc =>
          if arc.start_point = reduced_edges.getD edge ⟨0, 0⟩ ∧
              reduced_edges.getD edge ⟨0, 0⟩ = start_edge then edge
          else reduced_start_index)
        reduced_start_index) 0

/-- The call `cv::hconcat(A, B, A)` for matrices with the same number of rows. -/
def Mat.hconcat (A B : Mat) : Mat :=
  { rows := A.rows
    cols := A.cols + B.cols
    data := (List.range A.rows).map fun row => A.data.getD row [] ++ B.data.getD row [] }

/-- The column `V.col(col)`. -/
def Mat.col (V : Mat) (col : Nat) : Mat :=
  { rows := V.rows, cols := 1, data := (List.range V.rows).map fun row => [V.atUchar row col] }

/-- The column range `V.colRange(first, last)`. -/
def Mat.colRange (V : Mat) (first last : Nat) : Mat :=
  { rows := V.rows
    cols := last - first
    data := V.data.map fun row => (row.take last).drop first }

/-- The matrix `V_reduced` (lines 936-944): one column to start with (its entries, which
the source leaves unset, are 0 here), then the columns of the used arcs appended, then the
first column cut off. -/
def reducedVisibilityMatrix (V : Mat) (number_of_cells : Nat) (used_arcs : List Nat) : Mat :=
  let V_reduced : Mat :=
    { rows := number_of_cells, cols := 1, data := List.replicate number_of_cells [0] }
  let V_reduced := used_arcs.foldl (fun V_reduced var => V_reduced.hconcat (V.col var)) V_reduced
  V_reduced.colRange 1 V_reduced.cols

/-- The collaborators of `getExplorationPath` outside the source file: the distance matrix
builder, the path planner (both for a given map and map resolution), the solver (its
`n`-th call in the reweighting loop), the value of `std::exp(1.0)`, the value found in
the never assigned weight of an `arcStruct`, and the value `max_size()` of a
`std::vector<double>` of the standard library in use. -/
structure Collaborators where
  constructDistanceMatrix : Mat → List Point → ℚ → DistanceMatrix
  planPath : Mat → ℚ → Point → Point → List Point
  solver : Nat → Problem → List ℚ
  euler_constant : ℚ
  unset : Nat → Nat → ℚ
  max_size : Nat

/-- The number of elements asked for the vector `C` of the multi stage program
(lines 776-777): `number_of_stages` is the `int` `edges.size()/4`, the product
`number_of_candidates*(number_of_stages-1)` is an `int`, and its sum with the `size_t`
`flows_out_of_nodes[start_index].size()` is a `size_t`. -/
def stageVectorSize (number_of_nodes number_of_start_arcs number_of_candidates : Nat) : Nat :=
  let number_of_stages : Int := ((number_of_nodes / 4 : Nat) : Int)
  size_t ((number_of_start_arcs : Int) + (number_of_candidates : Int) * (number_of_stages - 1))

/-- The argument `path` and the local variables of `getExplorationPath` when it returns. -/
structure ExplorationResult where
  path : List Pose2D
  cell_centers : List Point
  edges : List Point
  arcs : List arcStruct
  V : Mat
  flows_into_nodes : List (List Nat)
  flows_out_of_nodes : List (List Nat)
  start_index : Nat
  loop : LoopState
  used_arcs : List Nat
  reduced_arc_candidates : List arcStruct
  reduced_edges : List Point
  reduced_flows_into_nodes : List (List Nat)
  reduced_flows_out_of_nodes : List (List Nat)
  reduced_start_index : Nat
  V_reduced : Mat

/-- The function `getExplorationPath`.  Every loop gets `fuel` passes; the result is `none`
when that does not suffice, and also when the constructor of the vector `C` (line 777)
throws because more than `max_size()` elements are asked for: the function is then left
before the reweighting loop.  Output to the console and to windows is left out, and so are
the arguments the body never reads (`map_origin`, `robot_to_fow_middlepoint_vector`,
`plan_for_footprint`). -/
def getExplorationPath (ext : Collaborators) (fuel : Nat) (room_map : Mat)
    (path : List Pose2D) (map_resolution : ℚ) (starting_position : Point)
    (cell_size : Int) (room_min_max_coordinates : List Point32) (coverage_radius : ℚ)
    (sparsity_check_range : Int) : Option ExplorationResult :=
  match sampleCellCenters fuel room_map cell_size room_min_max_coordinates with
  | none => none
  | some cell_centers =>
  match sweepEdges fuel room_map room_min_max_coordinates coverage_radius with
  | none => none
  | some edges =>
  let distance_matrix := ext.constructDistanceMatrix room_map edges map_resolution
  let arcs := createArcs edges distance_matrix (max_distance room_min_max_coordinates)
    (ext.planPath room_map map_resolution) ext.unset
  let number_of_candidates := arcs.length
  let w := arcs.map arcStruct.weight
  let V := visibilityMatrix cell_centers arcs coverage_radius
  let flows_into_nodes := flowsIntoNodes edges arcs
  let flows_out_of_nodes := flowsOutOfNodes edges arcs
  let number_of_outflows := numberOfOutflows edges arcs
  let start_index := findStartIndex edges starting_position
  let start_arcs := flows_out_of_nodes.getD start_index []
  if ext.max_size < stageVectorSize edges.length start_arcs.length number_of_candidates then none
  else
  match reweightingLoop
      (fun n C_small W_small =>
        solveThreeStageOptimizationProblem (ext.solver n) C_small V w flows_into_nodes
          flows_out_of_nodes start_arcs (some W_small))
      ext.euler_constant sparsity_check_range fuel
      (initialLoopState (start_arcs.length + number_of_candidates + number_of_outflows)) with
  | none => none
  | some loop =>
  let used_arcs := usedArcs loop.C_small flows_out_of_nodes start_index arcs.length
  let reduced_arc_candidates := used_arcs.map fun candidate => arcs.getD candidate (freshArc 0)
  let reduced_edges := reducedEdges reduced_arc_candidates
  some
    { path := path
      cell_centers := cell_centers
      edges := edges
      arcs := arcs
      V := V
      flows_into_nodes := flows_into_nodes
      flows_out_of_nodes := flows_out_of_nodes
      start_index := start_index
      loop := loop
      used_arcs := used_arcs
      reduced_arc_candidates := reduced_arc_candidates
      reduced_edges := reduced_edges
      reduced_flows_into_nodes := flowsIntoNodes reduced_edges reduced_arc_candidates
      reduced_flows_out_of_nodes := flowsOutOfNodes reduced_edges reduced_arc_candidates
      reduced_start_index :=
        reducedStartIndex reduced_edges reduced_arc_candidates (edges.getD start_index ⟨0, 0⟩)
      V_reduced := reducedVisibilityMatrix V cell_centers.length used_arcs }

/-! ## Notions of the specification -/

/-- What the coverage paragraph of the specification asks of the row `generated` for the
cell `row`: a row is generated exactly when some column has an underlying arc covering
the cell; it then has sense `'G'`, right-hand side `1`, mentions no variable twice, has
all coefficients `1`, and mentions exactly the columns whose underlying arc covers the
cell. -/
def CoversExactly (columns : List Column) (V : Mat) (row : Nat) (generated : Option Row) : Prop :=
  (generated.isSome = true ↔
    ∃ (k : Nat) (c : Column), columns[k]? = some c ∧ V.atUchar row c.arc = 1) ∧
  ∀ cr, generated = some cr →
    cr.sense = Sense.G ∧ cr.rhs = 1 ∧ (cr.terms.map Prod.fst).Nodup ∧
    (∀ t ∈ cr.terms, t.2 = 1) ∧
    ∀ k, k ∈ cr.terms.map Prod.fst ↔
      ∃ c : Column, columns[k]? = some c ∧ V.atUchar row c.arc = 1

/-- What the cardinality paragraph of the specification asks of a row for the group of
columns created in `stage`: sense `'E'`, right-hand side `1`, no variable twice, all
coefficients `1`, and exactly the columns of that stage as its variables. -/
def IsCardinalityRowOf (columns : List Column) (stage : Nat) (row : Row) : Prop :=
  row.sense = Sense.E ∧ row.rhs = 1 ∧ (row.terms.map Prod.fst).Nodup ∧
  (∀ t ∈ row.terms, t.2 = 1) ∧
  ∀ k, k ∈ row.terms.map Prod.fst ↔ ∃ c : Column, columns[k]? = some c ∧ c.stage = stage

/-- Exactly one column of `stage` has value 1 under `x`. -/
def ExactlyOneSelected (columns : List Column) (stage : Nat) (x : Nat → ℚ) : Prop :=
  ∃! k, (∃ c : Column, columns[k]? = some c ∧ c.stage = stage) ∧ x k = 1

/-- The assignment gives every column the value 0 or 1. -/
def ZeroOne (columns : List Column) (x : Nat → ℚ) : Prop :=
  ∀ k, (∃ c : Column, columns[k]? = some c) → x k = 0 ∨ x k = 1

/-- Value under `x` of the column of arc `a` in stage `r ≥ 1` of the multi stage program. -/
def stageValue (cols : Nat) (start_arcs : List Nat) (x : Nat → ℚ) (r a : Nat) : ℚ :=
  x (a + start_arcs.length + cols * (r - 1))

/-- Value under `x` of the start column of arc `a`, and 0 when `a` is no start arc. -/
def startValue (start_arcs : List Nat) (x : Nat → ℚ) (a : Nat) : ℚ :=
  if a ∈ start_arcs then x (start_arcs.indexOf a) else 0

/-- Summed inflow into `node` before stage `r`: over the arcs of `flows_into_nodes[node]`,
the value of the arc in stage `r-1` (for `r = 1` the value of its start column). -/
def inflowSum (cols : Nat) (flows_into_nodes : List (List Nat)) (start_arcs : List Nat)
    (x : Nat → ℚ) (r node : Nat) : ℚ :=
  ((flows_into_nodes.getD node []).map fun a =>
    if r = 1 then startValue start_arcs x a else stageValue cols start_arcs x (r - 1) a).sum

/-- Summed outflow out of `node` in stage `r`: over the arcs of `flows_out_of_nodes[node]`,
the value of the arc in stage `r`. -/
def outflowSum (cols : Nat) (flows_out_of_nodes : List (List Nat)) (start_arcs : List Nat)
    (x : Nat → ℚ) (r node : Nat) : ℚ :=
  ((flows_out_of_nodes.getD node []).map fun a => stageValue cols start_arcs x r a).sum

/-- The flow loop gathers at least one inflow term for `node` at stage `r`: for `r = 1`
some arc flowing into the node is a start arc, for `r > 1` some arc flows into the node. -/
def HasInflowTerm (flows_into_nodes : List (List Nat)) (start_arcs : List Nat)
    (r node : Nat) : Prop :=
  (r = 1 ∧ ∃ a ∈ flows_into_nodes.getD node [], a ∈ start_arcs) ∨
  (1 < r ∧ flows_into_nodes.getD node [] ≠ [])

/-- The final column created for arc `a`: final columns are created in the order of
`finalArcs`, after the start and the coverage columns. -/
def finalVariableOf (cols : Nat) (flows_out_of_nodes : List (List Nat))
    (start_arcs : List Nat) (a : Nat) : Nat :=
  (finalArcs flows_out_of_nodes).indexOf a + start_arcs.length + cols

/-- The columns made by the first `n` rounds of the stage loop of the multi stage program. -/
def multiStageColumnsUpTo (cols : Nat) (weights : List ℚ) (n : Nat)
    (start_arcs : List Nat) (W : Option (List ℚ)) : List Column :=
  (List.range n).flatMap fun r =>
    if r = 0 then
      (List.range start_arcs.length).map fun arc =>
        newColumn W weights arc (start_arcs.getD arc 0) r
    else
      (List.range cols).map fun var =>
        newColumn W weights (var + start_arcs.length + cols * (r - 1)) var r

/-- The test of line 664 for the pair `(start, end)`: it is made on the weight the forward
arc holds at that point, `distance_matrix.at<double>(end, start)`, and on the vector between
the two nodes. -/
def pairAdmitted (edges : List Point) (distance_matrix : DistanceMatrix) (max_distance : ℚ)
    (start end_ : Nat) : Prop :=
  distance_matrix.atDouble end_ start ≤ max_distance ∧
    leScaledNorm (distance_matrix.atDouble end_ start)
      ((edges.getD start ⟨0, 0⟩).sub (edges.getD end_ ⟨0, 0⟩))

instance pairAdmitted.decidable (edges : List Point) (distance_matrix : DistanceMatrix)
    (max_distance : ℚ) (start end_ : Nat) :
    Decidable (pairAdmitted edges distance_matrix max_distance start end_) := by
  unfold pairAdmitted; infer_instance

/-- A list of arcs made of adjacent forward/backward pairs: the second arc of each pair
joins the end point of the first to its start point along the reversed path. -/
def PairedArcs : List arcStruct → Prop
  | [] => True
  | [_] => False
  | a :: b :: t =>
    b.start_point = a.end_point ∧ b.end_point = a.start_point ∧
      b.edge_points = a.edge_points.reverse ∧ PairedArcs t

/-- Some variable of arc `a` is not zero in the solution `C_small` of the three stage
program: its start variable, its coverage variable, or a final variable whose underlying
arc it is (the final variables follow the order of `finalArcs`). -/
def arcHasNonzeroVariable (C_small : List ℚ) (flows_out_of_nodes : List (List Nat))
    (start_arcs : List Nat) (number_of_arcs : Nat) (a : Nat) : Bool :=
  ((List.range start_arcs.length).any fun k =>
      decide (start_arcs.getD k 0 = a ∧ C_small.getD k 0 ≠ 0)) ||
    decide (C_small.getD (a + start_arcs.length) 0 ≠ 0) ||
    ((finalArcs flows_out_of_nodes).enum.any fun p =>
      decide (p.2 = a ∧ C_small.getD (p.1 + start_arcs.length + number_of_arcs) 0 ≠ 0))

/-- The test of line 593 at column `x` of scan line `y`: the cell is an obstacle and the cell
above or below it is free. -/
def boundaryObstacle (room_map : Mat) (y x : Nat) : Prop :=
  room_map.atUchar y x = 0 ∧
    (room_map.atInt ((y : Int) - 1) x = 255 ∨ room_map.atUchar (y + 1) x = 255)

instance boundaryObstacle.decidable (room_map : Mat) (y x : Nat) :
    Decidable (boundaryObstacle room_map y x) := by
  unfold boundaryObstacle; infer_instance

/-- The point `p` is a node the sweep can emit for the cell at column `x` of scan line `y`:
the cell is a boundary obstacle, `p` is a free cell in the same column `x`, and it lies
`coverage_int` rows above the cell or, when the cell `coverage_int` rows above is not free
and the row is inside the map, `coverage_int` rows below it. -/
def NodeOfCell (room_map : Mat) (coverage_int : Int) (y x : Nat) (p : Point) : Prop :=
  boundaryObstacle room_map y x ∧ p.x = x ∧ room_map.atInt p.y p.x = 255 ∧
    (p.y = (y : Int) - coverage_int ∨
      (p.y = (y : Int) + coverage_int ∧ room_map.atInt ((y : Int) - coverage_int) x ≠ 255 ∧
        (y : Int) + coverage_int < room_map.rows))

/-- The place the specification gives a node emitted for the cell at column `x` of scan
line `y`: on the scan line, `coverage_int` columns to one side of the cell. -/
def AlongScanLine (coverage_int : Int) (y x : Nat) (p : Point) : Prop :=
  p.y = y ∧ (p.x = (x : Int) - coverage_int ∨ p.x = (x : Int) + coverage_int)

instance AlongScanLine.decidable (coverage_int : Int) (y x : Nat) (p : Point) :
    Decidable (AlongScanLine coverage_int y x p) := by
  unfold AlongScanLine; infer_instance

/-- The rows of the map cells read by one pass of the body of the inner sweep loop
(lines 593-599) at column `x` of scan line `y`, in the order of the reads: `&&` and `||`
read their right operand only when the left one does not decide, and in the two tests of
the look-ahead the read of the map is the left operand. -/
def sweepStepRows (room_map : Mat) (coverage_int : Int) (y x : Nat) : List Int :=
  [(y : Int)] ++
    if room_map.atUchar y x = 0 then
      [(y : Int) - 1] ++
        (if room_map.atInt ((y : Int) - 1) x = 255 then [] else [(y : Int) + 1]) ++
        if room_map.atInt ((y : Int) - 1) x = 255 ∨ room_map.atUchar (y + 1) x = 255 then
          [(y : Int) - coverage_int] ++
            if room_map.atInt ((y : Int) - coverage_int) x = 255 then []
            else [(y : Int) + coverage_int]
        else []
    else []

/-- The rows of all map cells read by the sweep (lines 584-608), in the order of the reads:
the loops of `sweepEdges`, with the rows read by each pass collected next to `edges`. -/
def sweepRows (fuel : Nat) (room_map : Mat) (room_min_max_coordinates : List Point32)
    (coverage_radius : ℚ) : Option (List Int) :=
  let pmin := room_min_max_coordinates.getD 0 ⟨0, 0⟩
  let pmax := room_min_max_coordinates.getD 1 ⟨0, 0⟩
  let coverage_int : Int := ⌊coverage_radius⌋
  (forLoop (fun y => decide ((y : ℚ) ≤ pmax.y))
    (fun y (state : List Point × List Int) =>
      (forLoop (fun x => decide (x < room_map.cols))
        (fun x (state : List Point × List Int) =>
          some ((sweepStep room_map coverage_int y x state.1).1,
            ((sweepStep room_map coverage_int y x state.1).2,
              state.2 ++ sweepStepRows room_map coverage_int y x)))
        (fun x => size_t ((x : Int) + 1)) fuel 0 state).map fun state => (y, state))
    (fun y => size_t ((y : Int) + 1))
    fuel (size_t (truncate (pmin.y + coverage_int))) ([], [])).map Prod.snd

/-! ## Inputs used in the examples -/

/-- The assignment of the walk arc 0, arc 1, arc 0 on the network of two nodes joined by
one arc pair: columns 0 (start, arc 0), 2 (stage 1, arc 1) and 3 (stage 2, arc 0) are 1. -/
def walkAssignment : Nat → ℚ := fun k => if k = 0 ∨ k = 2 ∨ k = 3 then 1 else 0

/-- A solver whose `n`-th result has exactly `n` zero entries, the other entries being 1:
the sparsity measure grows with every call. -/
def eversparserSolve : Nat → List ℚ → List ℚ → List ℚ := fun n C _ =>
  (List.range C.length).map fun i => if i < n then 0 else 1

/-- A map of three rows and seven columns: a free row, a row of obstacles, a free row.
With coverage radius 1 the sweep finds the four nodes (0,0), (2,0), (4,0), (6,0). -/
def wideCorridorMap : Mat :=
  { rows := 3
    cols := 7
    data := [[255, 255, 255, 255, 255, 255, 255], [0, 0, 0, 0, 0, 0, 0],
      [255, 255, 255, 255, 255, 255, 255]] }

/-- Collaborators for `wideCorridorMap`: the four nodes lie on a line at distances 2, the
planner joins two points through their middle, and `max_size()` is `2^60 - 1`.  The arcs
admitted are 0: (0,0) to (2,0), 1: back, 2: (2,0) to (4,0), 3: back, 4: (4,0) to (6,0),
5: back.  With start node (0,0) the three stage program has the start variable 0 (arc 1),
the coverage variables 1..6 (arcs 0..5) and the final variables 7..12 (arcs 1, 0, 3, 2, 5,
4).  The solver returns the point with the variables 0, 5, 6 and 7 at 1, which satisfies
every row of the program. -/
def wideCorridorCollaborators : Collaborators :=
  { constructDistanceMatrix := fun _ _ _ =>
      ⟨4, 4, [[0, 2, 4, 6], [2, 0, 2, 4], [4, 2, 0, 2], [6, 4, 2, 0]]⟩
    planPath := fun _ _ p q => [p, ⟨(p.x + q.x) / 2, (p.y + q.y) / 2⟩, q]
    solver := fun _ _ => [1, 0, 0, 0, 0, 1, 1, 1, 0, 0, 0, 0, 0]
    euler_constant := 2718281828 / 1000000000
    unset := fun _ _ => 2
    max_size := 1152921504606846975 }

/-- Collaborators for `wideCorridorMap` as `wideCorridorCollaborators`, with another solver
result: the point with the variables 0 (start variable of arc 1), 4 (coverage variable of
arc 3) and 12 (final variable of arc 4) at 1, which satisfies every row of the program. -/
def wideCorridorReturnCollaborators : Collaborators :=
  { wideCorridorCollaborators with
    solver := fun _ _ => [1, 0, 0, 0, 1, 0, 0, 0, 0, 0, 0, 0, 1] }

/-- A map of four rows and one column: two obstacle cells, a free cell, an obstacle cell. -/
def gapMap : Mat := { rows := 4, cols := 1, data := [[0], [0], [255], [0]] }

/-- A map of two rows and one column, both cells obstacles. -/
def wallMap : Mat := { rows := 2, cols := 1, data := [[0], [0]] }

/-- A map of three rows and one column: an obstacle cell, a free cell, an obstacle cell. -/
def pillarMap : Mat := { rows := 3, cols := 1, data := [[0], [255], [0]] }

/-! ## Theorems -/

theorem getElem?_map_range {α : Type} (f : Nat → α) (n k : Nat) (c : α) :
    ((List.range n).map f)[k]? = some c ↔ k < n ∧ c = f k := by
  rw [List.getElem?_map]
  by_cases h : k < n
  · rw [List.getElem?_range h]
    simp [h, eq_comm]
  · have : (List.range n)[k]? = none := by
      rw [List.getElem?_eq_none_iff]; simpa using h
    simp [this, h]

theorem threeStageColumns_getElem?_iff (cols : Nat) (weights : List ℚ)
    (flows_out_of_nodes : List (List Nat)) (start_arcs : List Nat) (W : Option (List ℚ))
    (k : Nat) (c : Column) :
    (threeStageColumns cols weights flows_out_of_nodes start_arcs W)[k]? = some c ↔
      (k < start_arcs.length ∧ c = newColumn W weights k (start_arcs.getD k 0) 0) ∨
      (∃ v, v < cols ∧ k = v + start_arcs.length ∧ c = newColumn W weights k v 1) ∨
      (∃ j a, (finalArcs flows_out_of_nodes)[j]? = some a ∧
        k = j + start_arcs.length + cols ∧ c = newColumn W weights k a 2) := by
  unfold threeStageColumns
  by_cases h1 : k < start_arcs.length
  · rw [List.append_assoc, List.getElem?_append_left (by simpa using h1), getElem?_map_range]
    constructor
    · intro h; exact Or.inl h
    · rintro (h | ⟨v, _, hk, _⟩ | ⟨j, a, _, hk, _⟩)
      · exact h
      · omega
      · omega
  · by_cases h2 : k < start_arcs.length + cols
    · rw [List.getElem?_append_left (by simp; omega),
        List.getElem?_append_right (by simp; omega), getElem?_map_range]
      simp only [List.length_map, List.length_range]
      constructor
      · rintro ⟨h, rfl⟩
        refine Or.inr (Or.inl ⟨k - start_arcs.length, h, by omega, ?_⟩)
        congr 1; omega
      · rintro (h | ⟨v, hv, hk, hc⟩ | ⟨j, a, _, hk, _⟩)
        · omega
        · subst hk
          refine ⟨by omega, ?_⟩
          rw [hc]; simp
        · omega
    · rw [List.getElem?_append_right (by simp; omega), List.getElem?_map, List.getElem?_enum]
      simp only [List.length_append, List.length_map, List.length_range]
      constructor
      · intro h
        cases hj : (finalArcs flows_out_of_nodes)[k - (start_arcs.length + cols)]? with
        | none => simp [hj] at h
        | some a =>
          simp only [hj, Option.map_some', Option.some.injEq] at h
          refine Or.inr (Or.inr ⟨k - (start_arcs.length + cols), a, hj, by omega, ?_⟩)
          rw [← h]; congr 1; omega
      · rintro (h | ⟨v, hv, hk, hc⟩ | ⟨j, a, hj, hk, hc⟩)
        · omega
        · omega
        · have : k - (start_arcs.length + cols) = j := by omega
          rw [this, hj, hc]
          simp only [Option.map_some', Option.some.injEq]
          congr 1; omega

theorem multiStageColumnsUpTo_succ (cols : Nat) (weights : List ℚ) (n : Nat)
    (start_arcs : List Nat) (W : Option (List ℚ)) :
    multiStageColumnsUpTo cols weights (n + 1) start_arcs W =
      multiStageColumnsUpTo cols weights n start_arcs W ++
        (if n = 0 then
          (List.range start_arcs.length).map fun arc =>
            newColumn W weights arc (start_arcs.getD arc 0) n
        else
          (List.range cols).map fun var =>
            newColumn W weights (var + start_arcs.length + cols * (n - 1)) var n) := by
  unfold multiStageColumnsUpTo
  rw [List.range_succ, List.flatMap_append, List.flatMap_singleton]

theorem multiStageColumnsUpTo_length (cols : Nat) (weights : List ℚ) (n : Nat)
    (start_arcs : List Nat) (W : Option (List ℚ)) :
    (multiStageColumnsUpTo cols weights n start_arcs W).length =
      if n = 0 then 0 else start_arcs.length + cols * (n - 1) := by
  induction n with
  | zero => simp [multiStageColumnsUpTo]
  | succ n ih =>
    rw [multiStageColumnsUpTo_succ, List.length_append, ih]
    by_cases hn : n = 0
    · subst hn; simp
    · have : cols * (n - 1) + cols = cols * n := by
        have h : n = (n - 1) + 1 := by omega
        conv_rhs => rw [h, Nat.mul_succ]
      simp [hn]
      omega

theorem multiStageColumnsUpTo_getElem?_iff (cols : Nat) (weights : List ℚ) (n : Nat)
    (start_arcs : List Nat) (W : Option (List ℚ)) (k : Nat) (c : Column) :
    (multiStageColumnsUpTo cols weights n start_arcs W)[k]? = some c ↔
      (0 < n ∧ k < start_arcs.length ∧ c = newColumn W weights k (start_arcs.getD k 0) 0) ∨
      (∃ r v, 1 ≤ r ∧ r < n ∧ v < cols ∧ k = v + start_arcs.length + cols * (r - 1) ∧
        c = newColumn W weights k v r) := by
  induction n with
  | zero =>
    simp [multiStageColumnsUpTo]
  | succ n ih =>
    have hlen := multiStageColumnsUpTo_length cols weights n start_arcs W
    rw [multiStageColumnsUpTo_succ]
    by_cases hk : k < (multiStageColumnsUpTo cols weights n start_arcs W).length
    · rw [List.getElem?_append_left hk, ih]
      have hn : n ≠ 0 := by
        intro h0; subst h0; simp [multiStageColumnsUpTo] at hk
      rw [if_neg hn] at hlen
      constructor
      · rintro (⟨h0, h⟩ | ⟨r, v, h1, h2, h⟩)
        · exact Or.inl ⟨by omega, h⟩
        · exact Or.inr ⟨r, v, h1, by omega, h⟩
      · rintro (⟨_, h⟩ | ⟨r, v, h1, h2, hv, hkr, hc⟩)
        · exact Or.inl ⟨by omega, h⟩
        · by_cases hr : r < n
          · exact Or.inr ⟨r, v, h1, hr, hv, hkr, hc⟩
          · have : r = n := by omega
            subst this
            omega
    · rw [List.getElem?_append_right (by omega)]
      by_cases hn : n = 0
      · subst hn
        simp only [if_true] at hlen ⊢
        rw [hlen, getElem?_map_range]
        constructor
        · rintro ⟨h1, h2⟩
          exact Or.inl ⟨by omega, h1, h2⟩
        · rintro (⟨_, h1, h2⟩ | ⟨r, v, h1, h2, _⟩)
          · exact ⟨h1, h2⟩
          · omega
      · rw [if_neg hn] at hlen ⊢
        rw [getElem?_map_range, hlen]
        constructor
        · rintro ⟨h1, h2⟩
          refine Or.inr ⟨n, k - (start_arcs.length + cols * (n - 1)), by omega, by omega, h1,
            by omega, ?_⟩
          rw [h2]; congr 1; omega
        · rintro (⟨_, h1, _⟩ | ⟨r, v, h1, h2, hv, hkr, hc⟩)
          · omega
          · by_cases hr : r < n
            · exfalso
              have hle : cols * r ≤ cols * (n - 1) := Nat.mul_le_mul_left cols (by omega)
              have hmul : cols * (r - 1) + cols = cols * r := by
                have h : r = (r - 1) + 1 := by omega
                conv_rhs => rw [h, Nat.mul_succ]
              omega
            · have : r = n := by omega
              subst this
              refine ⟨by omega, ?_⟩
              rw [hc]; congr 1 <;> omega

theorem multiStageColumns_eq (cols : Nat) (weights : List ℚ) (stages : Int)
    (start_arcs : List Nat) (W : Option (List ℚ)) :
    multiStageColumns cols weights stages start_arcs W =
      multiStageColumnsUpTo cols weights (size_t stages) start_arcs W := rfl

theorem size_t_of_nonneg (i : Int) (h0 : 0 ≤ i) (h1 : i < 2147483648) :
    size_t i = i.toNat := by
  unfold size_t
  congr 1
  omega

theorem coversExactly_coverageRow (columns : List Column) (V : Mat) (row : Nat)
    (idx : List Nat) (hnd : idx.Nodup)
    (hmem : ∀ k, k ∈ idx ↔ ∃ c, columns[k]? = some c ∧ V.atUchar row c.arc = 1) :
    CoversExactly columns V row (coverageRow idx) := by
  have hfst : (idx.map fun i => (i, (1 : ℚ))).map Prod.fst = idx := by
    rw [List.map_map]; simp [Function.comp_def]
  unfold CoversExactly coverageRow
  constructor
  · by_cases h : idx.length > 0
    · rw [if_pos h]
      simp only [Option.isSome_some, true_iff]
      obtain ⟨k, hk⟩ := List.exists_mem_of_length_pos h
      exact ⟨k, (hmem k).mp hk⟩
    · rw [if_neg h]
      simp only [Option.isSome_none, Bool.false_eq_true, false_iff]
      rintro ⟨k, hk⟩
      have := (hmem k).mpr hk
      have : 0 < idx.length := List.length_pos_of_mem this
      omega
  · intro cr hcr
    by_cases h : idx.length > 0
    · rw [if_pos h] at hcr
      simp only [Option.some.injEq] at hcr
      subst hcr
      refine ⟨rfl, rfl, ?_, ?_, ?_⟩
      · simpa only [hfst] using hnd
      · intro t ht
        simp only [List.mem_map] at ht
        obtain ⟨i, _, rfl⟩ := ht
        rfl
      · intro k
        simp only [hfst]
        exact hmem k
    · rw [if_neg h] at hcr
      exact absurd hcr (by simp)

theorem newColumn_arc (W : Option (List ℚ)) (weights : List ℚ) (k arc stage : Nat) :
    (newColumn W weights k arc stage).arc = arc := rfl

theorem newColumn_stage (W : Option (List ℚ)) (weights : List ℚ) (k arc stage : Nat) :
    (newColumn W weights k arc stage).stage = stage := rfl

theorem mem_threeStageCoverageIndices (V : Mat) (flows_out_of_nodes : List (List Nat))
    (start_arcs : List Nat) (row k : Nat) :
    k ∈ threeStageCoverageIndices V flows_out_of_nodes start_arcs row ↔
      (k < start_arcs.length ∧ V.atUchar row (start_arcs.getD k 0) = 1) ∨
      (∃ v, v < V.cols ∧ k = v + start_arcs.length ∧ V.atUchar row v = 1) ∨
      (∃ j a, (finalArcs flows_out_of_nodes)[j]? = some a ∧
        k = j + start_arcs.length + V.cols ∧ V.atUchar row a = 1) := by
  unfold threeStageCoverageIndices
  simp only [List.mem_append, List.mem_filter, List.mem_range, List.mem_map,
    decide_eq_true_eq, Prod.exists, List.mk_mem_enum_iff_getElem?, or_assoc]
  constructor
  · rintro (h | ⟨v, ⟨hv, hV⟩, rfl⟩ | ⟨j, a, ⟨hj, hV⟩, rfl⟩)
    · exact Or.inl h
    · exact Or.inr (Or.inl ⟨v, hv, rfl, hV⟩)
    · exact Or.inr (Or.inr ⟨j, a, hj, rfl, hV⟩)
  · rintro (h | ⟨v, hv, rfl, hV⟩ | ⟨j, a, hj, rfl, hV⟩)
    · exact Or.inl h
    · exact Or.inr (Or.inl ⟨v, ⟨hv, hV⟩, rfl⟩)
    · exact Or.inr (Or.inr ⟨j, a, ⟨hj, hV⟩, rfl⟩)

theorem threeStageCoverageIndices_covers (V : Mat) (weights : List ℚ)
    (flows_out_of_nodes : List (List Nat)) (start_arcs : List Nat) (W : Option (List ℚ))
    (row k : Nat) :
    k ∈ threeStageCoverageIndices V flows_out_of_nodes start_arcs row ↔
      ∃ c, (threeStageColumns V.cols weights flows_out_of_nodes start_arcs W)[k]? = some c ∧
        V.atUchar row c.arc = 1 := by
  rw [mem_threeStageCoverageIndices]
  constructor
  · rintro (⟨h, hV⟩ | ⟨v, hv, hk, hV⟩ | ⟨j, a, hj, hk, hV⟩)
    · exact ⟨_, (threeStageColumns_getElem?_iff ..).mpr (Or.inl ⟨h, rfl⟩), hV⟩
    · exact ⟨_, (threeStageColumns_getElem?_iff ..).mpr (Or.inr (Or.inl ⟨v, hv, hk, rfl⟩)), hV⟩
    · exact ⟨_, (threeStageColumns_getElem?_iff ..).mpr (Or.inr (Or.inr ⟨j, a, hj, hk, rfl⟩)), hV⟩
  · rintro ⟨c, hc, hV⟩
    rcases (threeStageColumns_getElem?_iff ..).mp hc with
      ⟨h, rfl⟩ | ⟨v, hv, hk, rfl⟩ | ⟨j, a, hj, hk, rfl⟩
    · exact Or.inl ⟨h, hV⟩
    · exact Or.inr (Or.inl ⟨v, hv, hk, hV⟩)
    · exact Or.inr (Or.inr ⟨j, a, hj, hk, hV⟩)

theorem nodup_enum_filter_map_fst {α : Type} (l : List α) (p : Nat × α → Bool)
    (f : Nat → Nat) (hf : Function.Injective f) :
    ((l.enum.filter p).map fun q => f q.1).Nodup := by
  have h1 : ((l.enum.filter p).map Prod.fst).Nodup := by
    have hsub : ((l.enum.filter p).map Prod.fst).Sublist (l.enum.map Prod.fst) :=
      (List.filter_sublist _).map _
    rw [List.enum_map_fst] at hsub
    exact hsub.nodup (List.nodup_range _)
  have h2 : ((l.enum.filter p).map fun q => f q.1) =
      ((l.enum.filter p).map Prod.fst).map f := by
    rw [List.map_map]; rfl
  rw [h2]
  exact h1.map hf

theorem threeStageCoverageIndices_nodup (V : Mat) (flows_out_of_nodes : List (List Nat))
    (start_arcs : List Nat) (row : Nat) :
    (threeStageCoverageIndices V flows_out_of_nodes start_arcs row).Nodup := by
  unfold threeStageCoverageIndices
  rw [List.nodup_append, List.nodup_append]
  refine ⟨⟨(List.nodup_range _).filter _, ?_, ?_⟩,
    nodup_enum_filter_map_fst _ _ (fun j => j + start_arcs.length + V.cols)
      (fun a b hab => by simp only at hab; omega), ?_⟩
  · exact ((List.nodup_range _).filter _).map (fun a b hab => by simpa using hab)
  · intro k h1 h2
    simp only [List.mem_filter, List.mem_range, List.mem_map] at h1 h2
    obtain ⟨v, _, rfl⟩ := h2
    omega
  · intro k h1 h2
    simp only [List.mem_append, List.mem_filter, List.mem_range, List.mem_map] at h1 h2
    obtain ⟨q, _, rfl⟩ := h2
    rcases h1 with h1 | ⟨v, ⟨hv, _⟩, hk⟩
    · omega
    · omega

theorem mem_multiStageCoverageIndices (V : Mat) (stages : Int) (start_arcs : List Nat)
    (row k : Nat) :
    k ∈ multiStageCoverageIndices V stages start_arcs row ↔
      (k < start_arcs.length ∧ V.atUchar row (start_arcs.getD k 0) = 1) ∨
      (∃ r v, 1 ≤ r ∧ r < size_t stages ∧ v < V.cols ∧
        k = v + start_arcs.length + V.cols * (r - 1) ∧ V.atUchar row v = 1) := by
  unfold multiStageCoverageIndices
  simp only [List.mem_append, List.mem_filter, List.mem_range, List.mem_map, List.mem_flatMap,
    decide_eq_true_eq, List.mem_range'_1]
  constructor
  · rintro (h | ⟨v, ⟨hv, hV⟩, r, ⟨hr1, hr2⟩, rfl⟩)
    · exact Or.inl h
    · exact Or.inr ⟨r, v, hr1, by omega, hv, rfl, hV⟩
  · rintro (h | ⟨r, v, hr1, hr2, hv, rfl, hV⟩)
    · exact Or.inl h
    · exact Or.inr ⟨v, ⟨hv, hV⟩, r, ⟨hr1, by omega⟩, rfl⟩

theorem multiStageCoverageIndices_covers (V : Mat) (weights : List ℚ) (stages : Int)
    (start_arcs : List Nat) (W : Option (List ℚ)) (hstages : 0 < size_t stages)
    (row k : Nat) :
    k ∈ multiStageCoverageIndices V stages start_arcs row ↔
      ∃ c, (multiStageColumns V.cols weights stages start_arcs W)[k]? = some c ∧
        V.atUchar row c.arc = 1 := by
  rw [mem_multiStageCoverageIndices, multiStageColumns_eq]
  constructor
  · rintro (⟨h, hV⟩ | ⟨r, v, hr1, hr2, hv, hk, hV⟩)
    · exact ⟨_, (multiStageColumnsUpTo_getElem?_iff ..).mpr (Or.inl ⟨hstages, h, rfl⟩), hV⟩
    · exact ⟨_, (multiStageColumnsUpTo_getElem?_iff ..).mpr
        (Or.inr ⟨r, v, hr1, hr2, hv, hk, rfl⟩), hV⟩
  · rintro ⟨c, hc, hV⟩
    rcases (multiStageColumnsUpTo_getElem?_iff ..).mp hc with
      ⟨_, h, rfl⟩ | ⟨r, v, hr1, hr2, hv, hk, rfl⟩
    · exact Or.inl ⟨h, hV⟩
    · exact Or.inr ⟨r, v, hr1, hr2, hv, hk, hV⟩

theorem stage_offset_injective (cols S v r w q : Nat) (hv : v < cols) (hw : w < cols)
    (h : v + S + cols * r = w + S + cols * q) : v = w ∧ r = q := by
  have hv' : (v + cols * r) % cols = v := by
    rw [Nat.add_mul_mod_self_left, Nat.mod_eq_of_lt hv]
  have hw' : (w + cols * q) % cols = w := by
    rw [Nat.add_mul_mod_self_left, Nat.mod_eq_of_lt hw]
  have h' : v + cols * r = w + cols * q := by omega
  have hvw : v = w := by rw [← hv', ← hw', h']
  subst hvw
  refine ⟨rfl, ?_⟩
  have hpos : 0 < cols := by omega
  have : cols * r = cols * q := by omega
  exact Nat.eq_of_mul_eq_mul_left hpos this

theorem multiStageCoverageIndices_nodup (V : Mat) (stages : Int) (start_arcs : List Nat)
    (row : Nat) : (multiStageCoverageIndices V stages start_arcs row).Nodup := by
  unfold multiStageCoverageIndices
  rw [List.nodup_append]
  refine ⟨(List.nodup_range _).filter _, ?_, ?_⟩
  · rw [List.nodup_flatMap]
    constructor
    · intro v hv
      simp only [List.mem_filter, List.mem_range] at hv
      refine (List.nodup_range' 1 _).map_on ?_
      intro r hr q hq hrq
      simp only [List.mem_range'_1] at hr hq
      have := (stage_offset_injective V.cols start_arcs.length v (r - 1) v (q - 1)
        hv.1 hv.1 hrq).2
      omega
    · have hnd : ((List.range V.cols).filter fun col => V.atUchar row col = 1).Nodup :=
        (List.nodup_range _).filter _
      refine List.Pairwise.imp_of_mem ?_ hnd
      intro v w hv hw hne k hk1 hk2
      simp only [List.mem_filter, List.mem_range, List.mem_map] at hv hw hk1 hk2
      obtain ⟨r, _, rfl⟩ := hk1
      obtain ⟨q, _, hq⟩ := hk2
      exact hne (stage_offset_injective V.cols start_arcs.length v (r - 1) w (q - 1)
        hv.1 hw.1 hq.symm).1
  · intro k h1 h2
    simp only [List.mem_filter, List.mem_range, List.mem_map, List.mem_flatMap] at h1 h2
    obtain ⟨v, _, r, _, rfl⟩ := h2
    omega

theorem coverageRow_sense (idx : List Nat) (cr : Row) (h : coverageRow idx = some cr) :
    cr.sense = Sense.G := by
  unfold coverageRow at h
  split at h
  · simp only [Option.some.injEq] at h
    rw [← h]
  · exact absurd h (by simp)

theorem filter_G_coverage (f : Nat → List Nat) (n : Nat) :
    ((List.range n).filterMap fun row => coverageRow (f row)).filter
        (fun r => decide (r.sense = Sense.G)) =
      (List.range n).filterMap fun row => coverageRow (f row) := by
  rw [List.filter_eq_self]
  intro r hr
  simp only [List.mem_filterMap] at hr
  obtain ⟨row, _, hrow⟩ := hr
  simp [coverageRow_sense _ _ hrow]

theorem filter_G_of_E (l : List Row) (h : ∀ r ∈ l, r.sense = Sense.E) :
    l.filter (fun r => decide (r.sense = Sense.G)) = [] := by
  rw [List.filter_eq_nil_iff]
  intro r hr
  simp [h r hr]

theorem multiStageFlowRows_sense (cols : Nat) (flows_into_nodes flows_out_of_nodes : List (List Nat))
    (stages : Int) (start_arcs : List Nat) :
    ∀ r ∈ multiStageFlowRows cols flows_into_nodes flows_out_of_nodes stages start_arcs,
      r.sense = Sense.E ∧ r.rhs = 0 := by
  intro r hr
  unfold multiStageFlowRows at hr
  simp only [List.mem_flatMap, List.mem_filterMap] at hr
  obtain ⟨s, _, node, _, h⟩ := hr
  unfold multiStageFlowRow at h
  simp only at h
  split at h
  · exact absurd h (by simp)
  · simp only [Option.some.injEq] at h
    rw [← h]
    exact ⟨rfl, rfl⟩

theorem threeStage_rows_G (V : Mat) (weights : List ℚ)
    (flows_into_nodes flows_out_of_nodes : List (List Nat)) (start_arcs : List Nat)
    (W : Option (List ℚ)) :
    (threeStageProblem V weights flows_into_nodes flows_out_of_nodes start_arcs W).rows.filter
        (fun r => decide (r.sense = Sense.G)) =
      (List.range V.rows).filterMap (threeStageCoverageRow V flows_out_of_nodes start_arcs) := by
  unfold threeStageProblem
  simp only [List.filter_append]
  have h1 := filter_G_coverage (threeStageCoverageIndices V flows_out_of_nodes start_arcs) V.rows
  have h2 : ((List.range flows_into_nodes.length).map
      (threeStageFlowRow V.cols flows_into_nodes flows_out_of_nodes start_arcs)).filter
        (fun r => decide (r.sense = Sense.G)) = [] := by
    apply filter_G_of_E
    intro r hr
    simp only [List.mem_map] at hr
    obtain ⟨node, _, rfl⟩ := hr
    rfl
  have h3 : [threeStageStartRow start_arcs].filter (fun r => decide (r.sense = Sense.G)) = [] :=
    filter_G_of_E _ (by intro r hr; simp only [List.mem_singleton] at hr; rw [hr]; rfl)
  have h4 : [threeStageFinalRow V.cols flows_out_of_nodes start_arcs].filter
      (fun r => decide (r.sense = Sense.G)) = [] :=
    filter_G_of_E _ (by intro r hr; simp only [List.mem_singleton] at hr; rw [hr]; rfl)
  rw [h2, h3, h4]
  simpa [threeStageCoverageRow] using h1

theorem multiStage_rows_G (V : Mat) (weights : List ℚ)
    (flows_into_nodes flows_out_of_nodes : List (List Nat)) (stages : Int)
    (start_arcs : List Nat) (W : Option (List ℚ)) :
    (multiStageProblem V weights flows_into_nodes flows_out_of_nodes stages start_arcs W).rows.filter
        (fun r => decide (r.sense = Sense.G)) =
      (List.range V.rows).filterMap (multiStageCoverageRow V stages start_arcs) := by
  unfold multiStageProblem
  simp only [List.filter_append]
  have h1 := filter_G_coverage (multiStageCoverageIndices V stages start_arcs) V.rows
  have h2 : (multiStageStageRows V.cols stages start_arcs).filter
      (fun r => decide (r.sense = Sense.G)) = [] := by
    apply filter_G_of_E
    intro r hr
    unfold multiStageStageRows at hr
    simp only [List.mem_map] at hr
    obtain ⟨s, _, rfl⟩ := hr
    rfl
  have h3 : (multiStageFlowRows V.cols flows_into_nodes flows_out_of_nodes stages start_arcs).filter
      (fun r => decide (r.sense = Sense.G)) = [] :=
    filter_G_of_E _ (fun r hr => (multiStageFlowRows_sense _ _ _ _ _ r hr).1)
  rw [h2, h3]
  simpa [multiStageCoverageRow] using h1

/-- C2 (amended): in the three stage program, and in the multi stage program with at least
one stage, the coverage row of a cell `row` is generated exactly when some column has an
underlying arc covering the cell, and it then is a `'G'` row with right-hand side 1 whose
terms are exactly the columns (of all stages) whose underlying arc `a` has
`V[row][a] = 1`, each once with coefficient 1; the `'G'` rows of either program are exactly
these coverage rows. -/
theorem coverage_rows_cover_exactly (V : Mat) (weights : List ℚ)
    (flows_into_nodes flows_out_of_nodes : List (List Nat)) (stages : Int)
    (start_arcs : List Nat) (W : Option (List ℚ))
    (h0 : 1 ≤ stages) (h1 : stages < 2147483648) (row : Nat) :
    CoversExactly
        (threeStageProblem V weights flows_into_nodes flows_out_of_nodes start_arcs W).columns
        V row (threeStageCoverageRow V flows_out_of_nodes start_arcs row) ∧
    CoversExactly
        (multiStageProblem V weights flows_into_nodes flows_out_of_nodes stages start_arcs W).columns
        V row (multiStageCoverageRow V stages start_arcs row) ∧
    (threeStageProblem V weights flows_into_nodes flows_out_of_nodes start_arcs W).rows.filter
        (fun r => decide (r.sense = Sense.G)) =
      (List.range V.rows).filterMap (threeStageCoverageRow V flows_out_of_nodes start_arcs) ∧
    (multiStageProblem V weights flows_into_nodes flows_out_of_nodes stages start_arcs W).rows.filter
        (fun r => decide (r.sense = Sense.G)) =
      (List.range V.rows).filterMap (multiStageCoverageRow V stages start_arcs) := by
  have hs : 0 < size_t stages := by
    rw [size_t_of_nonneg stages (by omega) h1]; omega
  refine ⟨?_, ?_, threeStage_rows_G .., multiStage_rows_G ..⟩
  · exact coversExactly_coverageRow _ V row _ (threeStageCoverageIndices_nodup ..)
      (threeStageCoverageIndices_covers V weights flows_out_of_nodes start_arcs W row)
  · exact coversExactly_coverageRow _ V row _ (multiStageCoverageIndices_nodup ..)
      (multiStageCoverageIndices_covers V weights stages start_arcs W hs row)

/-- Witness for C2: the amended statement at a network of two nodes joined by one arc pair,
one cell covered by both arcs, and two stages. -/
theorem coverage_rows_cover_exactly_witness :
    (1 : Int) ≤ 2 ∧ (2 : Int) < 2147483648 ∧
    CoversExactly
        (threeStageProblem ⟨1, 2, [[1, 1]]⟩ [5, 5] [[0], [1]] [[1], [0]] [1] none).columns
        ⟨1, 2, [[1, 1]]⟩ 0 (threeStageCoverageRow ⟨1, 2, [[1, 1]]⟩ [[1], [0]] [1] 0) ∧
    CoversExactly
        (multiStageProblem ⟨1, 2, [[1, 1]]⟩ [5, 5] [[0], [1]] [[1], [0]] 2 [1] none).columns
        ⟨1, 2, [[1, 1]]⟩ 0 (multiStageCoverageRow ⟨1, 2, [[1, 1]]⟩ 2 [1] 0) :=
  ⟨by decide, by decide,
    (coverage_rows_cover_exactly ⟨1, 2, [[1, 1]]⟩ [5, 5] [[0], [1]] [[1], [0]] 2 [1] none
      (by decide) (by decide) 0).1,
    (coverage_rows_cover_exactly ⟨1, 2, [[1, 1]]⟩ [5, 5] [[0], [1]] [[1], [0]] 2 [1] none
      (by decide) (by decide) 0).2.1⟩

/-- Counterexample for C2 as stated: with `stages = 0` the multi stage program has no column
at all, yet the coverage loop still gathers the start arc that covers cell 0 and adds a row
for it. -/
theorem coverage_row_without_columns :
    (multiStageProblem ⟨1, 2, [[1, 1]]⟩ [5, 5] [[0], [1]] [[1], [0]] 0 [1] none).columns = [] ∧
    (multiStageCoverageRow ⟨1, 2, [[1, 1]]⟩ 0 [1] 0).isSome = true ∧
    ¬ CoversExactly
        (multiStageProblem ⟨1, 2, [[1, 1]]⟩ [5, 5] [[0], [1]] [[1], [0]] 0 [1] none).columns
        ⟨1, 2, [[1, 1]]⟩ 0 (multiStageCoverageRow ⟨1, 2, [[1, 1]]⟩ 0 [1] 0) := by
  have hcols :
      (multiStageProblem ⟨1, 2, [[1, 1]]⟩ [5, 5] [[0], [1]] [[1], [0]] 0 [1] none).columns = [] := by
    rfl
  have hrow : (multiStageCoverageRow ⟨1, 2, [[1, 1]]⟩ 0 [1] 0).isSome = true := by decide
  refine ⟨hcols, hrow, ?_⟩
  intro h
  obtain ⟨k, c, hk, _⟩ := h.1.mp hrow
  rw [hcols] at hk
  simp at hk

theorem isCardinalityRowOf_cardinalityRow (columns : List Column) (stage : Nat)
    (idx : List Nat) (hnd : idx.Nodup)
    (hmem : ∀ k, k ∈ idx ↔ ∃ c : Column, columns[k]? = some c ∧ c.stage = stage) :
    IsCardinalityRowOf columns stage (cardinalityRow idx) := by
  have hfst : (idx.map fun i => (i, (1 : ℚ))).map Prod.fst = idx := by
    rw [List.map_map]; simp [Function.comp_def]
  unfold IsCardinalityRowOf cardinalityRow
  refine ⟨rfl, rfl, ?_, ?_, ?_⟩
  · simpa only [hfst] using hnd
  · intro t ht
    simp only [List.mem_map] at ht
    obtain ⟨i, _, rfl⟩ := ht
    rfl
  · intro k
    simp only [hfst]
    exact hmem k

theorem sum_zero_of_zero_one (x : Nat → ℚ) (l : List Nat)
    (h01 : ∀ k ∈ l, x k = 0 ∨ x k = 1) (hsum : (l.map x).sum = 0) : ∀ k ∈ l, x k = 0 := by
  induction l with
  | nil => intro k hk; simp at hk
  | cons a t ih =>
    have hnonneg : 0 ≤ (t.map x).sum := by
      apply List.sum_nonneg
      intro y hy
      simp only [List.mem_map] at hy
      obtain ⟨k, hk, rfl⟩ := hy
      rcases h01 k (List.mem_cons_of_mem _ hk) with h | h <;> simp [h]
    simp only [List.map_cons, List.sum_cons] at hsum
    have ha : x a = 0 := by
      rcases h01 a (List.mem_cons_self _ _) with h | h
      · exact h
      · rw [h] at hsum; linarith
    rw [ha, zero_add] at hsum
    intro k hk
    rcases List.mem_cons.mp hk with rfl | hk
    · exact ha
    · exact ih (fun k hk => h01 k (List.mem_cons_of_mem _ hk)) hsum k hk

theorem exactly_one_of_sum_one (x : Nat → ℚ) (l : List Nat) (hnd : l.Nodup)
    (h01 : ∀ k ∈ l, x k = 0 ∨ x k = 1) (hsum : (l.map x).sum = 1) :
    ∃! k, k ∈ l ∧ x k = 1 := by
  induction l with
  | nil => simp at hsum
  | cons a t ih =>
    simp only [List.map_cons, List.sum_cons] at hsum
    have hnd' := List.nodup_cons.mp hnd
    have h01' : ∀ k ∈ t, x k = 0 ∨ x k = 1 := fun k hk => h01 k (List.mem_cons_of_mem _ hk)
    rcases h01 a (List.mem_cons_self _ _) with ha | ha
    · rw [ha, zero_add] at hsum
      obtain ⟨k, ⟨hk, hxk⟩, huniq⟩ := ih hnd'.2 h01' hsum
      refine ⟨k, ⟨List.mem_cons_of_mem _ hk, hxk⟩, ?_⟩
      rintro j ⟨hj, hxj⟩
      rcases List.mem_cons.mp hj with rfl | hj
      · rw [ha] at hxj; norm_num at hxj
      · exact huniq j ⟨hj, hxj⟩
    · rw [ha] at hsum
      have hzero : (t.map x).sum = 0 := by linarith
      have hall := sum_zero_of_zero_one x t h01' hzero
      refine ⟨a, ⟨List.mem_cons_self _ _, ha⟩, ?_⟩
      rintro j ⟨hj, hxj⟩
      rcases List.mem_cons.mp hj with rfl | hj
      · rfl
      · rw [hall j hj] at hxj; norm_num at hxj

theorem cardinalityRow_lhs (idx : List Nat) (x : Nat → ℚ) :
    (cardinalityRow idx).lhs x = (idx.map x).sum := by
  unfold Row.lhs cardinalityRow
  simp only [List.map_map]
  congr 1
  apply List.map_congr_left
  intro k _
  simp

theorem exactlyOneSelected_of_row (columns : List Column) (stage : Nat) (idx : List Nat)
    (hnd : idx.Nodup)
    (hmem : ∀ k, k ∈ idx ↔ ∃ c : Column, columns[k]? = some c ∧ c.stage = stage)
    (x : Nat → ℚ) (h01 : ZeroOne columns x) (hrow : (cardinalityRow idx).holds x) :
    ExactlyOneSelected columns stage x := by
  have hsum : (idx.map x).sum = 1 := by
    rw [← cardinalityRow_lhs]
    exact hrow
  have h01' : ∀ k ∈ idx, x k = 0 ∨ x k = 1 := by
    intro k hk
    obtain ⟨c, hc, _⟩ := (hmem k).mp hk
    exact h01 k ⟨c, hc⟩
  obtain ⟨k, ⟨hk, hxk⟩, huniq⟩ := exactly_one_of_sum_one x idx hnd h01' hsum
  refine ⟨k, ⟨(hmem k).mp hk, hxk⟩, ?_⟩
  rintro j ⟨hj, hxj⟩
  exact huniq j ⟨(hmem j).mpr hj, hxj⟩

theorem multiStageStageIndices_nodup (cols : Nat) (start_arcs : List Nat) (r : Nat) :
    (multiStageStageIndices cols start_arcs r).Nodup := by
  unfold multiStageStageIndices
  split
  · exact List.nodup_range _
  · exact (List.nodup_range _).map (fun a b hab => by omega)

theorem mem_multiStageStageIndices (cols : Nat) (weights : List ℚ) (stages : Int)
    (start_arcs : List Nat) (W : Option (List ℚ)) (r : Nat) (hr : r < size_t stages) (k : Nat) :
    k ∈ multiStageStageIndices cols start_arcs r ↔
      ∃ c : Column, (multiStageColumns cols weights stages start_arcs W)[k]? = some c ∧
        c.stage = r := by
  rw [multiStageColumns_eq]
  unfold multiStageStageIndices
  constructor
  · intro hk
    by_cases h0 : r = 0
    · rw [if_pos h0] at hk
      simp only [List.mem_range] at hk
      exact ⟨_, (multiStageColumnsUpTo_getElem?_iff ..).mpr (Or.inl ⟨by omega, hk, rfl⟩),
        h0.symm⟩
    · rw [if_neg h0] at hk
      simp only [List.mem_map, List.mem_range] at hk
      obtain ⟨v, hv, rfl⟩ := hk
      exact ⟨_, (multiStageColumnsUpTo_getElem?_iff ..).mpr
        (Or.inr ⟨r, v, by omega, hr, hv, rfl, rfl⟩), rfl⟩
  · rintro ⟨c, hc, hstage⟩
    rcases (multiStageColumnsUpTo_getElem?_iff ..).mp hc with
      ⟨_, h, rfl⟩ | ⟨q, v, hq1, hq2, hv, hk, rfl⟩
    · rw [newColumn_stage] at hstage
      rw [if_pos hstage.symm]
      simpa using h
    · rw [newColumn_stage] at hstage
      subst hstage
      rw [if_neg (by omega)]
      simp only [List.mem_map, List.mem_range]
      exact ⟨v, hv, hk.symm⟩

theorem mem_threeStageStartIndices (cols : Nat) (weights : List ℚ)
    (flows_out_of_nodes : List (List Nat)) (start_arcs : List Nat) (W : Option (List ℚ))
    (k : Nat) :
    k ∈ List.range start_arcs.length ↔
      ∃ c : Column, (threeStageColumns cols weights flows_out_of_nodes start_arcs W)[k]? = some c ∧
        c.stage = 0 := by
  simp only [List.mem_range]
  constructor
  · intro hk
    exact ⟨_, (threeStageColumns_getElem?_iff ..).mpr (Or.inl ⟨hk, rfl⟩), rfl⟩
  · rintro ⟨c, hc, hstage⟩
    rcases (threeStageColumns_getElem?_iff ..).mp hc with
      ⟨h, rfl⟩ | ⟨v, hv, hk, rfl⟩ | ⟨j, a, hj, hk, rfl⟩
    · exact h
    · rw [newColumn_stage] at hstage; omega
    · rw [newColumn_stage] at hstage; omega

theorem mem_threeStageFinalIndices (cols : Nat) (weights : List ℚ)
    (flows_out_of_nodes : List (List Nat)) (start_arcs : List Nat) (W : Option (List ℚ))
    (k : Nat) :
    k ∈ ((List.range (finalArcs flows_out_of_nodes).length).map fun node =>
        node + start_arcs.length + cols) ↔
      ∃ c : Column, (threeStageColumns cols weights flows_out_of_nodes start_arcs W)[k]? = some c ∧
        c.stage = 2 := by
  simp only [List.mem_map, List.mem_range]
  constructor
  · rintro ⟨j, hj, rfl⟩
    exact ⟨_, (threeStageColumns_getElem?_iff ..).mpr
      (Or.inr (Or.inr ⟨j, _, List.getElem?_eq_getElem hj, rfl, rfl⟩)), rfl⟩
  · rintro ⟨c, hc, hstage⟩
    rcases (threeStageColumns_getElem?_iff ..).mp hc with
      ⟨h, rfl⟩ | ⟨v, hv, hk, rfl⟩ | ⟨j, a, hj, hk, rfl⟩
    · rw [newColumn_stage] at hstage; omega
    · rw [newColumn_stage] at hstage; omega
    · obtain ⟨hlt, _⟩ := List.getElem?_eq_some_iff.mp hj
      exact ⟨j, hlt, hk.symm⟩

theorem filter_E1_of_G (l : List Row) (h : ∀ r ∈ l, r.sense = Sense.G) :
    l.filter (fun r => decide (r.sense = Sense.E ∧ r.rhs = 1)) = [] := by
  rw [List.filter_eq_nil_iff]
  intro r hr
  simp [h r hr]

theorem filter_E1_of_rhs_zero (l : List Row) (h : ∀ r ∈ l, r.rhs = 0) :
    l.filter (fun r => decide (r.sense = Sense.E ∧ r.rhs = 1)) = [] := by
  rw [List.filter_eq_nil_iff]
  intro r hr
  simp [h r hr]

theorem filter_E1_cardinality (l : List (List Nat)) :
    (l.map cardinalityRow).filter (fun r => decide (r.sense = Sense.E ∧ r.rhs = 1)) =
      l.map cardinalityRow := by
  rw [List.filter_eq_self]
  intro r hr
  simp only [List.mem_map] at hr
  obtain ⟨idx, _, rfl⟩ := hr
  simp [cardinalityRow]

theorem coverage_rows_G (f : Nat → List Nat) (n : Nat) :
    ∀ r ∈ (List.range n).filterMap (fun row => coverageRow (f row)), r.sense = Sense.G := by
  intro r hr
  simp only [List.mem_filterMap] at hr
  obtain ⟨row, _, hrow⟩ := hr
  exact coverageRow_sense _ _ hrow

theorem multiStage_rows_E1 (V : Mat) (weights : List ℚ)
    (flows_into_nodes flows_out_of_nodes : List (List Nat)) (stages : Int)
    (start_arcs : List Nat) (W : Option (List ℚ)) :
    (multiStageProblem V weights flows_into_nodes flows_out_of_nodes stages start_arcs W).rows.filter
        (fun r => decide (r.sense = Sense.E ∧ r.rhs = 1)) =
      (List.range (size_t stages)).map fun r =>
        cardinalityRow (multiStageStageIndices V.cols start_arcs r) := by
  unfold multiStageProblem
  simp only [List.filter_append]
  have h1 : ((List.range V.rows).filterMap (multiStageCoverageRow V stages start_arcs)).filter
      (fun r => decide (r.sense = Sense.E ∧ r.rhs = 1)) = [] :=
    filter_E1_of_G _ (coverage_rows_G (multiStageCoverageIndices V stages start_arcs) V.rows)
  have h2 : (multiStageFlowRows V.cols flows_into_nodes flows_out_of_nodes stages start_arcs).filter
      (fun r => decide (r.sense = Sense.E ∧ r.rhs = 1)) = [] :=
    filter_E1_of_rhs_zero _ (fun r hr => (multiStageFlowRows_sense _ _ _ _ _ r hr).2)
  have h3 := filter_E1_cardinality
    ((List.range (size_t stages)).map (multiStageStageIndices V.cols start_arcs))
  rw [List.map_map] at h3
  rw [h1, h2]
  simpa [multiStageStageRows, Function.comp_def] using h3

theorem threeStage_rows_E1 (V : Mat) (weights : List ℚ)
    (flows_into_nodes flows_out_of_nodes : List (List Nat))
    (start_arcs : List Nat) (W : Option (List ℚ)) :
    (threeStageProblem V weights flows_into_nodes flows_out_of_nodes start_arcs W).rows.filter
        (fun r => decide (r.sense = Sense.E ∧ r.rhs = 1)) =
      [threeStageStartRow start_arcs, threeStageFinalRow V.cols flows_out_of_nodes start_arcs] := by
  unfold threeStageProblem
  simp only [List.filter_append]
  have h1 : ((List.range V.rows).filterMap
      (threeStageCoverageRow V flows_out_of_nodes start_arcs)).filter
      (fun r => decide (r.sense = Sense.E ∧ r.rhs = 1)) = [] :=
    filter_E1_of_G _
      (coverage_rows_G (threeStageCoverageIndices V flows_out_of_nodes start_arcs) V.rows)
  have h2 : ((List.range flows_into_nodes.length).map
      (threeStageFlowRow V.cols flows_into_nodes flows_out_of_nodes start_arcs)).filter
        (fun r => decide (r.sense = Sense.E ∧ r.rhs = 1)) = [] := by
    apply filter_E1_of_rhs_zero
    intro r hr
    simp only [List.mem_map] at hr
    obtain ⟨node, _, rfl⟩ := hr
    rfl
  have h3 := filter_E1_cardinality [List.range start_arcs.length]
  have h4 := filter_E1_cardinality [(List.range (finalArcs flows_out_of_nodes).length).map
    fun node => node + start_arcs.length + V.cols]
  rw [h1, h2]
  simp only [List.map_cons, List.map_nil] at h3 h4
  unfold threeStageStartRow threeStageFinalRow
  rw [h3, h4]
  rfl

theorem multiStageColumns_bounds (cols : Nat) (weights : List ℚ) (stages : Int)
    (start_arcs : List Nat) (W : Option (List ℚ)) (k : Nat) (c : Column)
    (h : (multiStageColumns cols weights stages start_arcs W)[k]? = some c) :
    c.lower = 0 ∧ c.upper = 1 := by
  rw [multiStageColumns_eq] at h
  rcases (multiStageColumnsUpTo_getElem?_iff ..).mp h with ⟨_, _, rfl⟩ | ⟨_, _, _, _, _, _, rfl⟩
  · exact ⟨rfl, rfl⟩
  · exact ⟨rfl, rfl⟩

theorem walkAssignment_satisfies :
    (multiStageProblem ⟨1, 2, [[1, 1]]⟩ [5, 5] [[1], [0]] [[0], [1]] 3 [0] none).satisfiedBy
      walkAssignment := by
  constructor
  · decide!
  · intro k c hc
    have hb := multiStageColumns_bounds 2 [5, 5] 3 [0] none k c hc
    rw [hb.1, hb.2]
    unfold walkAssignment
    split <;> norm_num

theorem walkAssignment_zeroOne (columns : List Column) : ZeroOne columns walkAssignment := by
  intro k _
  unfold walkAssignment
  split
  · exact Or.inr rfl
  · exact Or.inl rfl

/-- C3: the rows with sense `'E'` and right-hand side 1 of the multi stage program are, in
order, one per stage `r = 0 .. stages-1`, each over exactly the columns of stage `r` with
coefficient 1; those of the three stage program are the row over exactly the start columns
and the row over exactly the final columns; hence every 0/1 assignment satisfying the
program has exactly one column of value 1 in each stage (in the start group and in the
final group). -/
theorem cardinality_rows (V : Mat) (weights : List ℚ)
    (flows_into_nodes flows_out_of_nodes : List (List Nat)) (stages : Int)
    (start_arcs : List Nat) (W : Option (List ℚ))
    (h0 : 0 ≤ stages) (h1 : stages < 2147483648) :
    ((multiStageProblem V weights flows_into_nodes flows_out_of_nodes stages start_arcs W).rows.filter
        (fun r => decide (r.sense = Sense.E ∧ r.rhs = 1)) =
      (List.range stages.toNat).map fun r =>
        cardinalityRow (multiStageStageIndices V.cols start_arcs r)) ∧
    (∀ r, r < stages.toNat →
      IsCardinalityRowOf
        (multiStageProblem V weights flows_into_nodes flows_out_of_nodes stages start_arcs W).columns
        r (cardinalityRow (multiStageStageIndices V.cols start_arcs r))) ∧
    ((threeStageProblem V weights flows_into_nodes flows_out_of_nodes start_arcs W).rows.filter
        (fun r => decide (r.sense = Sense.E ∧ r.rhs = 1)) =
      [threeStageStartRow start_arcs, threeStageFinalRow V.cols flows_out_of_nodes start_arcs]) ∧
    IsCardinalityRowOf
      (threeStageProblem V weights flows_into_nodes flows_out_of_nodes start_arcs W).columns
      0 (threeStageStartRow start_arcs) ∧
    IsCardinalityRowOf
      (threeStageProblem V weights flows_into_nodes flows_out_of_nodes start_arcs W).columns
      2 (threeStageFinalRow V.cols flows_out_of_nodes start_arcs) ∧
    (∀ x : Nat → ℚ,
      (multiStageProblem V weights flows_into_nodes flows_out_of_nodes stages start_arcs
        W).satisfiedBy x →
      ZeroOne
        (multiStageProblem V weights flows_into_nodes flows_out_of_nodes stages start_arcs W).columns
        x →
      ∀ r, r < stages.toNat →
        ExactlyOneSelected
          (multiStageProblem V weights flows_into_nodes flows_out_of_nodes stages start_arcs
            W).columns r x) ∧
    (∀ x : Nat → ℚ,
      (threeStageProblem V weights flows_into_nodes flows_out_of_nodes start_arcs W).satisfiedBy x →
      ZeroOne
        (threeStageProblem V weights flows_into_nodes flows_out_of_nodes start_arcs W).columns x →
      ExactlyOneSelected
          (threeStageProblem V weights flows_into_nodes flows_out_of_nodes start_arcs W).columns
          0 x ∧
        ExactlyOneSelected
          (threeStageProblem V weights flows_into_nodes flows_out_of_nodes start_arcs W).columns
          2 x) := by
  have hs : size_t stages = stages.toNat := size_t_of_nonneg stages h0 h1
  have hME1 := multiStage_rows_E1 V weights flows_into_nodes flows_out_of_nodes stages start_arcs W
  have h3E1 := threeStage_rows_E1 V weights flows_into_nodes flows_out_of_nodes start_arcs W
  rw [hs] at hME1
  have hMmem : ∀ r, r < stages.toNat → ∀ k, k ∈ multiStageStageIndices V.cols start_arcs r ↔
      ∃ c : Column, (multiStageColumns V.cols weights stages start_arcs W)[k]? = some c ∧
        c.stage = r :=
    fun r hr k => mem_multiStageStageIndices V.cols weights stages start_arcs W r (by omega) k
  have h3start := mem_threeStageStartIndices V.cols weights flows_out_of_nodes start_arcs W
  have h3final := mem_threeStageFinalIndices V.cols weights flows_out_of_nodes start_arcs W
  have hfinal_nd : ((List.range (finalArcs flows_out_of_nodes).length).map fun node =>
      node + start_arcs.length + V.cols).Nodup :=
    (List.nodup_range _).map (fun a b hab => by omega)
  refine ⟨hME1, ?_, h3E1, ?_, ?_, ?_, ?_⟩
  · intro r hr
    exact isCardinalityRowOf_cardinalityRow _ r _ (multiStageStageIndices_nodup ..) (hMmem r hr)
  · exact isCardinalityRowOf_cardinalityRow _ 0 _ (List.nodup_range _) h3start
  · exact isCardinalityRowOf_cardinalityRow _ 2 _ hfinal_nd h3final
  · intro x hx h01 r hr
    apply exactlyOneSelected_of_row _ r _ (multiStageStageIndices_nodup ..) (hMmem r hr) x h01
    apply hx.1
    have hmem : cardinalityRow (multiStageStageIndices V.cols start_arcs r) ∈
        (multiStageProblem V weights flows_into_nodes flows_out_of_nodes stages start_arcs
          W).rows.filter (fun r => decide (r.sense = Sense.E ∧ r.rhs = 1)) := by
      rw [hME1]
      exact List.mem_map.mpr ⟨r, List.mem_range.mpr hr, rfl⟩
    exact (List.mem_filter.mp hmem).1
  · intro x hx h01
    have hmem : ∀ row ∈ [threeStageStartRow start_arcs,
        threeStageFinalRow V.cols flows_out_of_nodes start_arcs], row.holds x := by
      intro row hrow
      rw [← h3E1] at hrow
      exact hx.1 row (List.mem_filter.mp hrow).1
    constructor
    · exact exactlyOneSelected_of_row _ 0 _ (List.nodup_range _) h3start x h01
        (hmem (threeStageStartRow start_arcs) (List.mem_cons_self _ _))
    · exact exactlyOneSelected_of_row _ 2 _ hfinal_nd h3final x h01
        (hmem (threeStageFinalRow V.cols flows_out_of_nodes start_arcs)
          (List.mem_cons_of_mem _ (List.mem_cons_self _ _)))

/-- Witness for C3: the statement at the network of two nodes joined by one arc pair with
three stages; the walk arc 0, arc 1, arc 0 is a 0/1 assignment satisfying the program, and
exactly one column of stage 1 has value 1 under it. -/
theorem cardinality_rows_witness :
    (0 : Int) ≤ 3 ∧ (3 : Int) < 2147483648 ∧
    ((multiStageProblem ⟨1, 2, [[1, 1]]⟩ [5, 5] [[1], [0]] [[0], [1]] 3 [0] none).rows.filter
        (fun r => decide (r.sense = Sense.E ∧ r.rhs = 1)) =
      (List.range (3 : Int).toNat).map fun r =>
        cardinalityRow (multiStageStageIndices 2 [0] r)) ∧
    ExactlyOneSelected
      (multiStageProblem ⟨1, 2, [[1, 1]]⟩ [5, 5] [[1], [0]] [[0], [1]] 3 [0] none).columns 1
      walkAssignment :=
  ⟨by decide, by decide,
    (cardinality_rows ⟨1, 2, [[1, 1]]⟩ [5, 5] [[1], [0]] [[0], [1]] 3 [0] none
      (by decide) (by decide)).1,
    (cardinality_rows ⟨1, 2, [[1, 1]]⟩ [5, 5] [[1], [0]] [[0], [1]] 3 [0] none
      (by decide) (by decide)).2.2.2.2.2.1 walkAssignment walkAssignment_satisfies
      (walkAssignment_zeroOne _) 1 (by decide)⟩

theorem sum_flatMap_terms {α : Type} (l : List α) (f : α → List (Nat × ℚ)) (g : α → ℚ)
    (x : Nat → ℚ) (h : ∀ a ∈ l, ((f a).map fun t => t.2 * x t.1).sum = g a) :
    ((l.flatMap f).map fun t => t.2 * x t.1).sum = (l.map g).sum := by
  induction l with
  | nil => simp
  | cons a t ih =>
    rw [List.flatMap_cons, List.map_append, List.sum_append, List.map_cons, List.sum_cons,
      h a (List.mem_cons_self _ _), ih (fun b hb => h b (List.mem_cons_of_mem _ hb))]

theorem multiStageInflowTerms_sum (cols : Nat) (flows_into_nodes : List (List Nat))
    (start_arcs : List Nat) (x : Nat → ℚ) (r node : Nat) (hr : 1 ≤ r) :
    ((multiStageInflowTerms cols flows_into_nodes start_arcs r node).map
        fun t => t.2 * x t.1).sum =
      inflowSum cols flows_into_nodes start_arcs x r node := by
  unfold multiStageInflowTerms inflowSum
  apply sum_flatMap_terms
  intro a _
  by_cases h1 : r = 1
  · subst h1
    by_cases hc : a ∈ start_arcs
    · simp [contains, startValue, hc]
    · simp [contains, startValue, hc]
  · have h2 : r > 1 := by omega
    have h3 : r - 1 - 1 = r - 2 := by omega
    simp [h1, h2, stageValue, h3]

theorem multiStageOutflowTerms_sum (cols : Nat) (flows_out_of_nodes : List (List Nat))
    (start_arcs : List Nat) (x : Nat → ℚ) (r node : Nat) :
    ((multiStageOutflowTerms cols flows_out_of_nodes start_arcs r node).map
        fun t => t.2 * x t.1).sum =
      - outflowSum cols flows_out_of_nodes start_arcs x r node := by
  unfold multiStageOutflowTerms outflowSum
  generalize flows_out_of_nodes.getD node [] = l
  induction l with
  | nil => simp
  | cons a t ih =>
    simp only [List.map_cons, List.sum_cons] at ih ⊢
    rw [ih]
    simp only [stageValue]
    ring

theorem multiStageInflowTerms_ne_nil (cols : Nat) (flows_into_nodes : List (List Nat))
    (start_arcs : List Nat) (r node : Nat)
    (h : HasInflowTerm flows_into_nodes start_arcs r node) :
    (multiStageInflowTerms cols flows_into_nodes start_arcs r node).length ≠ 0 := by
  unfold multiStageInflowTerms
  intro hlen
  have hnil := List.eq_nil_of_length_eq_zero hlen
  rw [List.flatMap_eq_nil_iff] at hnil
  rcases h with ⟨h1, a, ha, hs⟩ | ⟨h1, hne⟩
  · have := hnil a ha
    simp [h1, contains, hs] at this
  · obtain ⟨a, ha⟩ := List.exists_mem_of_ne_nil _ hne
    have := hnil a ha
    have h2 : ¬ r = 1 := by omega
    simp [h1, h2] at this

/-- C4 (amended): for `stages ≥ 3` and every assignment `x` satisfying the multi stage
program, for every interior stage `r` (`1 ≤ r ≤ stages-2`) and every node for which the
flow loop gathers at least one inflow term, the summed inflow of stage `r-1` into the node
(for `r = 1`: of the start columns) equals the summed outflow of stage `r` out of it. -/
theorem multiStage_flow_conservation (V : Mat) (weights : List ℚ)
    (flows_into_nodes flows_out_of_nodes : List (List Nat)) (stages : Int)
    (start_arcs : List Nat) (W : Option (List ℚ))
    (h3 : 3 ≤ stages) (h31 : stages < 2147483648) (x : Nat → ℚ)
    (hx : (multiStageProblem V weights flows_into_nodes flows_out_of_nodes stages start_arcs
      W).satisfiedBy x)
    (r node : Nat) (hr1 : 1 ≤ r) (hr2 : (r : Int) ≤ stages - 2)
    (hnode : node < flows_into_nodes.length)
    (hin : HasInflowTerm flows_into_nodes start_arcs r node) :
    inflowSum V.cols flows_into_nodes start_arcs x r node =
      outflowSum V.cols flows_out_of_nodes start_arcs x r node := by
  have hs : size_t (stages - 1) = (stages - 1).toNat :=
    size_t_of_nonneg (stages - 1) (by omega) (by omega)
  have hne := multiStageInflowTerms_ne_nil V.cols flows_into_nodes start_arcs r node hin
  have hrow : multiStageFlowRow V.cols flows_into_nodes flows_out_of_nodes start_arcs r node =
      some { terms := multiStageInflowTerms V.cols flows_into_nodes start_arcs r node ++
               multiStageOutflowTerms V.cols flows_out_of_nodes start_arcs r node
             rhs := 0
             sense := Sense.E } := by
    unfold multiStageFlowRow
    simp only [hne, if_false]
  have hmem : ({ terms := multiStageInflowTerms V.cols flows_into_nodes start_arcs r node ++
               multiStageOutflowTerms V.cols flows_out_of_nodes start_arcs r node
                 rhs := 0
                 sense := Sense.E } : Row) ∈
      (multiStageProblem V weights flows_into_nodes flows_out_of_nodes stages start_arcs W).rows := by
    unfold multiStageProblem
    simp only [List.mem_append]
    right
    unfold multiStageFlowRows
    simp only [List.mem_flatMap, List.mem_filterMap, List.mem_range, List.mem_range'_1]
    refine ⟨r, ⟨hr1, ?_⟩, node, hnode, hrow⟩
    rw [hs]
    omega
  have hholds := hx.1 _ hmem
  simp only [Row.holds, Row.lhs, List.map_append, List.sum_append] at hholds
  rw [multiStageInflowTerms_sum V.cols flows_into_nodes start_arcs x r node hr1,
    multiStageOutflowTerms_sum] at hholds
  linarith

theorem threeStageColumns_bounds (cols : Nat) (weights : List ℚ)
    (flows_out_of_nodes : List (List Nat)) (start_arcs : List Nat) (W : Option (List ℚ))
    (k : Nat) (c : Column)
    (h : (threeStageColumns cols weights flows_out_of_nodes start_arcs W)[k]? = some c) :
    c.lower = 0 ∧ c.upper = 1 := by
  rcases (threeStageColumns_getElem?_iff ..).mp h with
    ⟨_, rfl⟩ | ⟨_, _, _, rfl⟩ | ⟨_, _, _, _, rfl⟩
  · exact ⟨rfl, rfl⟩
  · exact ⟨rfl, rfl⟩
  · exact ⟨rfl, rfl⟩

/-- Witness for C4: on the network of two nodes joined by one arc pair, with three stages,
the walk arc 0, arc 1, arc 0 satisfies the program, and at stage 1 the inflow into node 1
equals the outflow out of it. -/
theorem multiStage_flow_conservation_witness :
    inflowSum 2 [[1], [0]] [0] walkAssignment 1 1 =
      outflowSum 2 [[0], [1]] [0] walkAssignment 1 1 :=
  multiStage_flow_conservation ⟨1, 2, [[1, 1]]⟩ [5, 5] [[1], [0]] [[0], [1]] 3 [0] none
    (by decide) (by decide) walkAssignment walkAssignment_satisfies 1 1 (by decide) (by decide)
    (by decide) (Or.inl ⟨rfl, 0, by decide, by decide⟩)

/-- Counterexample for C4 as stated: one node whose only arc is listed as flowing out of
it and into no node.  With three stages the all-ones assignment satisfies every row and
every bound of the program, the flow loop skips the node at stage 1 (no inflow term), and
there the summed inflow is 0 while the summed outflow is 1. -/
theorem multiStage_flow_not_conserved :
    (multiStageProblem ⟨0, 1, []⟩ [5] [[]] [[0]] 3 [0] none).satisfiedBy (fun _ => 1) ∧
    inflowSum 1 [[]] [0] (fun _ => 1) 1 0 = 0 ∧
    outflowSum 1 [[0]] [0] (fun _ => 1) 1 0 = 1 ∧
    inflowSum 1 [[]] [0] (fun _ => 1) 1 0 ≠ outflowSum 1 [[0]] [0] (fun _ => 1) 1 0 := by
  refine ⟨⟨by decide!, ?_⟩, by decide!, by decide!, by decide!⟩
  intro k c hc
  have hb := multiStageColumns_bounds 1 [5] 3 [0] none k c hc
  rw [hb.1, hb.2]
  norm_num

/-- C5 (code defect): network of two nodes and the arc pair 0 (node 0 to node 1) and 1
(node 1 to node 0), adjacency as `getExplorationPath` builds it, start node 0.  The final
column created for arc 1 is column 3 and column 4 is the one created for arc 0, but the
flow row of node 0 takes column 4 for its outflow arc 1. -/
theorem threeStage_flow_row_final_index :
    threeStageFlowRow 2 [[0], [1]] [[1], [0]] [1] 0 =
      { terms := [(1, 1), (2, -1), (4, -1)], rhs := 0, sense := Sense.E } ∧
    finalVariableOf 2 [[1], [0]] [1] 1 = 3 ∧
    ((threeStageColumns 2 [5, 5] [[1], [0]] [1] none)[3]?).map Column.arc = some 1 ∧
    ((threeStageColumns 2 [5, 5] [[1], [0]] [1] none)[4]?).map Column.arc = some 0 ∧
    3 ∈ threeStageCoverageIndices ⟨1, 2, [[0, 1]]⟩ [[1], [0]] [1] 0 ∧
    4 ∉ threeStageCoverageIndices ⟨1, 2, [[0, 1]]⟩ [[1], [0]] [1] 0 := by
  refine ⟨by decide!, by decide, by decide, by decide, by decide, by decide⟩

theorem loopBody_iterations (solve : Nat → List ℚ → List ℚ → List ℚ) (euler_constant : ℚ)
    (sparsity_check_range : Int) (s : LoopState) :
    (loopBody solve euler_constant sparsity_check_range s).number_of_iterations =
      s.number_of_iterations + 1 := rfl

/-- The loop returns whenever the fuel covers the passes left up to the cap, and it never
makes more than 51 passes. -/
theorem reweightingLoop_returns (solve : Nat → List ℚ → List ℚ → List ℚ) (euler_constant : ℚ)
    (sparsity_check_range : Int) (fuel : Nat) (s : LoopState)
    (hfuel : 51 - s.number_of_iterations ≤ fuel) (hs : s.number_of_iterations ≤ 50) :
    ∃ s', reweightingLoop solve euler_constant sparsity_check_range fuel s = some s' ∧
      s.number_of_iterations < s'.number_of_iterations ∧ s'.number_of_iterations ≤ 51 := by
  induction fuel generalizing s with
  | zero => omega
  | succ fuel ih =>
    unfold reweightingLoop
    simp only
    have hn := loopBody_iterations solve euler_constant sparsity_check_range s
    split
    · rename_i hcont
      obtain ⟨s', hs', h1, h2⟩ := ih (loopBody solve euler_constant sparsity_check_range s)
        (by omega) hcont.2
      exact ⟨s', hs', by omega, h2⟩
    · exact ⟨_, rfl, by omega, by omega⟩

/-- C6 (code defect): the counter is raised before the solve and tested with `<= 50` after
it, so a loop that never converges stops only after the 51st call of the three stage
solve.  First input: window 60, which no history of at most 51 measures reaches, and a
solver that always returns the same vector.  Second input: window 2 and a solver whose
results get sparser with every call. -/
theorem reweightingLoop_fiftyone_solves :
    (reweightingLoop (fun _ _ _ => [1, 0, 0, 1, 0]) (2718281828 / 1000000000) 60 100
      (initialLoopState 5)).map
        (fun s => (s.number_of_iterations, s.sparsity_measures.length, s.sparsity_converged)) =
      some (51, 51, false) ∧
    (reweightingLoop eversparserSolve (2718281828 / 1000000000) 2 100
      (initialLoopState 60)).map
        (fun s => (s.number_of_iterations, s.sparsity_measures.length, s.sparsity_converged)) =
      some (51, 51, false) := by
  refine ⟨by decide!, by decide!⟩

theorem terminalCondition_iff (sparsity_measures : List Nat) (sparsity_check_range : Int)
    (h1 : 1 ≤ sparsity_check_range) (h2 : sparsity_check_range < 2147483648) :
    terminalCondition sparsity_measures sparsity_check_range false = true ↔
      sparsity_check_range ≤ sparsity_measures.length ∧
      ∀ m ∈ sparsity_measures.drop (sparsity_measures.length - sparsity_check_range.toNat),
        sparsity_measures.getLastD 0 ≤ m := by
  unfold terminalCondition
  rw [size_t_of_nonneg sparsity_check_range (by omega) h2]
  by_cases hlen : sparsity_check_range.toNat ≤ sparsity_measures.length
  · rw [if_pos hlen]
    have hlen' : sparsity_check_range ≤ sparsity_measures.length := by omega
    have htake : (sparsity_measures.reverse.take sparsity_check_range.toNat).length =
        sparsity_check_range.toNat := by
      rw [List.length_take, List.length_reverse]; omega
    simp only [hlen', true_and]
    constructor
    · intro h
      split at h
      · rename_i hcount
        have hc : (sparsity_measures.reverse.take sparsity_check_range.toNat).countP
            (fun measure => decide (measure ≥ sparsity_measures.getLastD 0)) =
            (sparsity_measures.reverse.take sparsity_check_range.toNat).length := by
          rw [htake]; omega
        rw [List.countP_eq_length] at hc
        intro m hm
        have hm' : m ∈ sparsity_measures.reverse.take sparsity_check_range.toNat := by
          rw [List.take_reverse, List.mem_reverse]; exact hm
        simpa using hc m hm'
      · exact absurd h (by simp)
    · intro h
      have hc : (sparsity_measures.reverse.take sparsity_check_range.toNat).countP
          (fun measure => decide (measure ≥ sparsity_measures.getLastD 0)) =
          (sparsity_measures.reverse.take sparsity_check_range.toNat).length := by
        rw [List.countP_eq_length]
        intro m hm
        rw [List.take_reverse, List.mem_reverse] at hm
        simpa using h m hm
      rw [htake] at hc
      rw [if_pos (by omega)]
  · rw [if_neg hlen]
    constructor
    · intro h; exact absurd h (by simp)
    · rintro ⟨h, _⟩; omega

/-- C7: for `sparsity_check_range ≥ 1` and every history, a pass of the loop entered with
the flag unset records the number of entries `<= 0.01` of the new solution as the most
recent measure, and sets the flag exactly when the history now holds at least
`sparsity_check_range` measures and each of the last `sparsity_check_range` of them (the
most recent included) is `≥` the most recent one. -/
theorem convergence_declared_iff (solve : Nat → List ℚ → List ℚ → List ℚ)
    (euler_constant : ℚ) (sparsity_check_range : Int)
    (h1 : 1 ≤ sparsity_check_range) (h2 : sparsity_check_range < 2147483648)
    (s : LoopState) (hs : s.sparsity_converged = false) :
    (loopBody solve euler_constant sparsity_check_range s).sparsity_measures =
      s.sparsity_measures ++
        [(loopBody solve euler_constant sparsity_check_range s).C_small.countP
          fun c => c ≤ 1 / 100] ∧
    ((loopBody solve euler_constant sparsity_check_range s).sparsity_converged = true ↔
      sparsity_check_range ≤
          (loopBody solve euler_constant sparsity_check_range s).sparsity_measures.length ∧
        ∀ m ∈ (loopBody solve euler_constant sparsity_check_range s).sparsity_measures.drop
            ((loopBody solve euler_constant sparsity_check_range s).sparsity_measures.length -
              sparsity_check_range.toNat),
          (loopBody solve euler_constant sparsity_check_range s).C_small.countP
            (fun c => c ≤ 1 / 100) ≤ m) := by
  refine ⟨rfl, ?_⟩
  have hlast : (loopBody solve euler_constant sparsity_check_range s).sparsity_measures.getLastD 0 =
      (loopBody solve euler_constant sparsity_check_range s).C_small.countP
        (fun c => c ≤ 1 / 100) := by
    simp only [loopBody, sparsityMeasure, List.getLastD_concat]
  rw [← hlast]
  have hflag : (loopBody solve euler_constant sparsity_check_range s).sparsity_converged =
      terminalCondition (loopBody solve euler_constant sparsity_check_range s).sparsity_measures
        sparsity_check_range false := by
    simp only [loopBody, hs]
  rw [hflag]
  exact terminalCondition_iff _ sparsity_check_range h1 h2

/-- Witness for C7: window 2, history `[5]`, and a solution with three entries `<= 0.01`:
both of the last two measures are `≥ 3`, and the pass sets the flag. -/
theorem convergence_declared_iff_witness :
    (loopBody eversparserSolve (27 / 10) 2
      { C_small := List.replicate 6 0, W_small := List.replicate 6 1,
        sparsity_converged := false, weight_epsilon := 0, number_of_iterations := 2,
        sparsity_measures := [5] }).sparsity_converged = true :=
  (convergence_declared_iff eversparserSolve (27 / 10) 2 (by decide) (by decide)
    { C_small := List.replicate 6 0, W_small := List.replicate 6 1,
      sparsity_converged := false, weight_epsilon := 0, number_of_iterations := 2,
      sparsity_measures := [5] } rfl).2.mpr (by decide!)

/-- C8 (code defect): the exponent is an `int`, so `1 + 0.1*(k-1)` is truncated: it is 1 in
each of the iterations 1 to 10 (not 1.1 in iteration 2 nor 1.5 in iteration 6) and 2 in
iteration 11; in the second pass epsilon is `1/(e-1)` itself (here with `27/10` in the
place of `e`). -/
theorem exponent_is_truncated :
    exponent 2 = 1 ∧ exponent 6 = 1 ∧
    (List.range' 1 10).map exponent = List.replicate 10 1 ∧ exponent 11 = 2 ∧
    (loopBody eversparserSolve (27 / 10) 2
      { C_small := List.replicate 6 0, W_small := List.replicate 6 1,
        sparsity_converged := false, weight_epsilon := 0, number_of_iterations := 1,
        sparsity_measures := [6] }).weight_epsilon = 10 / 17 := by
  refine ⟨by decide!, by decide!, by decide!, by decide!, by decide!⟩

/-- The square-root-free test agrees with the test of the source over the reals. -/
theorem leScaledNorm_iff_sqrt (weight : ℚ) (vector : Point) :
    leScaledNorm weight vector ↔
      (weight : ℝ) ≤ 1.1 * Real.sqrt ((vector.x : ℝ) ^ 2 + (vector.y : ℝ) ^ 2) := by
  have hn : ((vector.normSq : ℚ) : ℝ) = (vector.x : ℝ) ^ 2 + (vector.y : ℝ) ^ 2 := by
    unfold Point.normSq; push_cast; ring
  have hnn : (0 : ℝ) ≤ (vector.x : ℝ) ^ 2 + (vector.y : ℝ) ^ 2 := by positivity
  have hsq := Real.sq_sqrt hnn
  have hs0 := Real.sqrt_nonneg ((vector.x : ℝ) ^ 2 + (vector.y : ℝ) ^ 2)
  unfold leScaledNorm
  constructor
  · rintro (h | h)
    · have : (weight : ℝ) ≤ 0 := by exact_mod_cast h
      nlinarith
    · have h' : (100 : ℝ) * ((weight : ℝ) * weight) ≤ 121 * ((vector.normSq : ℚ) : ℝ) := by
        exact_mod_cast h
      rw [hn] at h'
      by_contra hlt
      push_neg at hlt
      nlinarith
  · intro h
    by_cases hw : weight ≤ 0
    · exact Or.inl hw
    · right
      have hw' : (0 : ℝ) < weight := by
        have : (0 : ℚ) < weight := lt_of_not_ge hw
        exact_mod_cast this
      have h' : (100 : ℝ) * ((weight : ℝ) * weight) ≤ 121 * ((vector.normSq : ℚ) : ℝ) := by
        rw [hn]
        nlinarith
      exact_mod_cast h'

/-- C9 (code defect): nodes (0,0) and (3,4), symmetric distance 5, `max_distance = 10`.
The pair is admitted on the weight of the forward arc, 5; the weight of the backward arc
is never assigned (line 659 assigns the forward weight a second time), so the backward arc
is pushed with the value its declaration left in it, here 1000, above `max_distance` and
above 1.1 times the distance 5 of its end points. -/
theorem backward_arc_weight_unset :
    (createArcs [⟨0, 0⟩, ⟨3, 4⟩] ⟨2, 2, [[0, 5], [5, 0]]⟩ 10 (fun p q => [p, q])
      (fun _ _ => 1000)).map (fun a => (a.start_point, a.end_point, a.weight)) =
      [(⟨0, 0⟩, ⟨3, 4⟩, 5), (⟨3, 4⟩, ⟨0, 0⟩, 1000)] ∧
    ¬ ((1000 : ℚ) ≤ 10) ∧ ¬ leScaledNorm 1000 ((⟨3, 4⟩ : Point).sub ⟨0, 0⟩) := by
  refine ⟨by decide!, by decide!, by decide!⟩

/-- C10 (code defect): for the bounding rectangle (0,0)-(10,5) `max_distance` is the extent
in `y`, 5, and not the larger of the two extents, 10. -/
theorem max_distance_is_y_extent :
    max_distance [⟨0, 0⟩, ⟨10, 5⟩] = 5 ∧
    max ((10 : ℚ) - 0) (5 - 0) = 10 ∧
    max_distance [⟨0, 0⟩, ⟨10, 5⟩] ≠ max ((10 : ℚ) - 0) (5 - 0) := by
  refine ⟨by decide!, by decide!, by decide!⟩

/-- Whatever the inputs, the argument `path` comes back as it went in: no statement of
`getExplorationPath` assigns to it. -/
theorem getExplorationPath_path (ext : Collaborators) (fuel : Nat) (room_map : Mat)
    (path : List Pose2D) (map_resolution : ℚ) (starting_position : Point)
    (cell_size : Int) (room_min_max_coordinates : List Point32) (coverage_radius : ℚ)
    (sparsity_check_range : Int) (r : ExplorationResult)
    (h : getExplorationPath ext fuel room_map path map_resolution starting_position cell_size
      room_min_max_coordinates coverage_radius sparsity_check_range = some r) :
    r.path = path := by
  unfold getExplorationPath at h
  split at h
  · exact absurd h (by simp)
  · split at h
    · exact absurd h (by simp)
    · simp only at h
      split at h
      · exact absurd h (by simp)
      · split at h
        · exact absurd h (by simp)
        · simp only [Option.some.injEq] at h
          rw [← h]

/-- C1 (code defect): on `wideCorridorMap` with bounding rectangle (0,0)-(6,2), cell size 1,
coverage radius 1 and convergence window 1, the sweep finds the nodes (0,0), (2,0), (4,0)
and (6,0), the three arc pairs between neighbours are admitted, the vector `C` of line 777
gets one element, and all six arcs survive the reduction; the function returns with the
empty input `path` still empty. -/
theorem path_left_unchanged :
    (getExplorationPath wideCorridorCollaborators 100 wideCorridorMap [] (1 / 20) ⟨0, 0⟩ 1
      [⟨0, 0⟩, ⟨6, 2⟩] 1 1).map
        (fun r => (r.path, r.edges, r.used_arcs, r.reduced_arc_candidates.length)) =
      some ([], [⟨0, 0⟩, ⟨2, 0⟩, ⟨4, 0⟩, ⟨6, 0⟩], [0, 1, 2, 3, 4, 5], 6) ∧
    stageVectorSize 4 1 6 = 1 := by
  refine ⟨by decide!, by decide⟩

theorem arcsOfPair_eq (edges : List Point) (distance_matrix : DistanceMatrix)
    (max_distance : ℚ) (planPath : Point → Point → List Point) (unset : Nat → Nat → ℚ)
    (start end_ : Nat) :
    arcsOfPair edges distance_matrix max_distance planPath unset start end_ =
      if start < end_ ∧ pairAdmitted edges distance_matrix max_distance start end_ then
        [{ start_point := edges.getD start ⟨0, 0⟩
           end_point := edges.getD end_ ⟨0, 0⟩
           weight := distance_matrix.atDouble end_ start
           edge_points := planPath (edges.getD start ⟨0, 0⟩) (edges.getD end_ ⟨0, 0⟩) },
         { start_point := edges.getD end_ ⟨0, 0⟩
           end_point := edges.getD start ⟨0, 0⟩
           weight := unset start end_
           edge_points := (planPath (edges.getD start ⟨0, 0⟩) (edges.getD end_ ⟨0, 0⟩)).reverse }]
      else [] := by
  unfold arcsOfPair pairAdmitted freshArc
  by_cases h1 : start < end_
  · have h2 : start ≠ end_ ∧ end_ > start := ⟨by omega, h1⟩
    rw [if_pos h2]
    simp only [h1, true_and]
  · have h2 : ¬ (start ≠ end_ ∧ end_ > start) := fun h => h1 h.2
    rw [if_neg h2]
    simp only [h1, false_and, if_false]

theorem mem_createArcs (edges : List Point) (distance_matrix : DistanceMatrix)
    (max_distance : ℚ) (planPath : Point → Point → List Point) (unset : Nat → Nat → ℚ)
    (a : arcStruct) :
    a ∈ createArcs edges distance_matrix max_distance planPath unset ↔
      ∃ start end_, start < distance_matrix.rows ∧ end_ < distance_matrix.cols ∧
        a ∈ arcsOfPair edges distance_matrix max_distance planPath unset start end_ := by
  unfold createArcs
  simp only [List.mem_flatMap, List.mem_range]
  constructor
  · rintro ⟨start, hs, end_, he, ha⟩
    exact ⟨start, end_, hs, he, ha⟩
  · rintro ⟨start, end_, hs, he, ha⟩
    exact ⟨start, hs, end_, he, ha⟩

theorem pairedArcs_append : ∀ (l₁ l₂ : List arcStruct),
    PairedArcs l₁ → PairedArcs l₂ → PairedArcs (l₁ ++ l₂)
  | [], _, _, h₂ => h₂
  | [_], _, h₁, _ => absurd h₁ (by simp [PairedArcs])
  | a :: b :: t, l₂, h₁, h₂ => by
    simp only [PairedArcs, List.cons_append] at h₁ ⊢
    exact ⟨h₁.1, h₁.2.1, h₁.2.2.1, pairedArcs_append t l₂ h₁.2.2.2 h₂⟩

theorem pairedArcs_flatMap {α : Type} (f : α → List arcStruct) (xs : List α)
    (h : ∀ x ∈ xs, PairedArcs (f x)) : PairedArcs (xs.flatMap f) := by
  induction xs with
  | nil => simp [PairedArcs]
  | cons x t ih =>
    rw [List.flatMap_cons]
    exact pairedArcs_append _ _ (h x (List.mem_cons_self _ _))
      (ih (fun y hy => h y (List.mem_cons_of_mem _ hy)))

theorem pairedArcs_arcsOfPair (edges : List Point) (distance_matrix : DistanceMatrix)
    (max_distance : ℚ) (planPath : Point → Point → List Point) (unset : Nat → Nat → ℚ)
    (start end_ : Nat) :
    PairedArcs (arcsOfPair edges distance_matrix max_distance planPath unset start end_) := by
  rw [arcsOfPair_eq]
  split
  · simp [PairedArcs]
  · simp [PairedArcs]

theorem pairedArcs_createArcs (edges : List Point) (distance_matrix : DistanceMatrix)
    (max_distance : ℚ) (planPath : Point → Point → List Point) (unset : Nat → Nat → ℚ) :
    PairedArcs (createArcs edges distance_matrix max_distance planPath unset) := by
  unfold createArcs
  apply pairedArcs_flatMap
  intro start _
  apply pairedArcs_flatMap
  intro end_ _
  exact pairedArcs_arcsOfPair ..

theorem pairedArcs_index : ∀ (l : List arcStruct), PairedArcs l →
    l.length % 2 = 0 ∧
    ∀ k, 2 * k + 1 < l.length →
      (l.getD (2 * k + 1) (freshArc 0)).start_point = (l.getD (2 * k) (freshArc 0)).end_point ∧
      (l.getD (2 * k + 1) (freshArc 0)).end_point = (l.getD (2 * k) (freshArc 0)).start_point ∧
      (l.getD (2 * k + 1) (freshArc 0)).edge_points =
        (l.getD (2 * k) (freshArc 0)).edge_points.reverse
  | [], _ => ⟨rfl, fun k hk => absurd hk (by simp)⟩
  | [_], h => absurd h (by simp [PairedArcs])
  | a :: b :: t, h => by
    simp only [PairedArcs] at h
    obtain ⟨ih₁, ih₂⟩ := pairedArcs_index t h.2.2.2
    constructor
    · simp only [List.length_cons]
      omega
    · intro k hk
      cases k with
      | zero => exact ⟨h.1, h.2.1, h.2.2.1⟩
      | succ k =>
        have e₁ : 2 * (k + 1) + 1 = (2 * k + 1) + 1 + 1 := by omega
        have e₂ : 2 * (k + 1) = (2 * k) + 1 + 1 := by omega
        simp only [List.length_cons] at hk
        rw [e₁, e₂]
        simp only [List.getD_cons_succ]
        exact ih₂ k (by omega)

/-- C11 (code defect): nodes (0,0) and (3,4), `max_distance = 10`.  With the symmetric
distances 5 the backward arc carries the value its declaration left in it (1000 here), not
`distance_matrix(1, 0) = 5`.  With `distance_matrix(0, 1) = 5` and
`distance_matrix(1, 0) = 4` the forward arc carries 4, not 5.  The vector `w` copies these
weights. -/
theorem arc_weights_not_as_queried :
    (createArcs [⟨0, 0⟩, ⟨3, 4⟩] ⟨2, 2, [[0, 5], [5, 0]]⟩ 10 (fun p q => [p, q])
      (fun _ _ => 1000)).map arcStruct.weight = [5, 1000] ∧
    (createArcs [⟨0, 0⟩, ⟨3, 4⟩] ⟨2, 2, [[0, 5], [4, 0]]⟩ 10 (fun p q => [p, q])
      (fun _ _ => 1000)).map arcStruct.weight = [4, 1000] ∧
    (⟨2, 2, [[0, 5], [4, 0]]⟩ : DistanceMatrix).atDouble 0 1 = 5 ∧
    (⟨2, 2, [[0, 5], [4, 0]]⟩ : DistanceMatrix).atDouble 1 0 = 4 := by
  refine ⟨by decide!, by decide!, by decide!, by decide!⟩

/-- C12: the arc list has even length and consists of adjacent forward/backward pairs: for
every `k` the arc `2k+1` starts where the arc `2k` ends, ends where it starts, and its path
is the reverse of the path of the arc `2k`, so that reversing it gives that path back. -/
theorem arcs_are_forward_backward_pairs (edges : List Point)
    (distance_matrix : DistanceMatrix) (max_distance : ℚ)
    (planPath : Point → Point → List Point) (unset : Nat → Nat → ℚ) :
    (createArcs edges distance_matrix max_distance planPath unset).length % 2 = 0 ∧
    ∀ k, 2 * k + 1 < (createArcs edges distance_matrix max_distance planPath unset).length →
      ((createArcs edges distance_matrix max_distance planPath unset).getD (2 * k + 1)
          (freshArc 0)).start_point =
        ((createArcs edges distance_matrix max_distance planPath unset).getD (2 * k)
          (freshArc 0)).end_point ∧
      ((createArcs edges distance_matrix max_distance planPath unset).getD (2 * k + 1)
          (freshArc 0)).end_point =
        ((createArcs edges distance_matrix max_distance planPath unset).getD (2 * k)
          (freshArc 0)).start_point ∧
      ((createArcs edges distance_matrix max_distance planPath unset).getD (2 * k + 1)
          (freshArc 0)).edge_points =
        ((createArcs edges distance_matrix max_distance planPath unset).getD (2 * k)
          (freshArc 0)).edge_points.reverse ∧
      ((createArcs edges distance_matrix max_distance planPath unset).getD (2 * k + 1)
          (freshArc 0)).edge_points.reverse =
        ((createArcs edges distance_matrix max_distance planPath unset).getD (2 * k)
          (freshArc 0)).edge_points := by
  obtain ⟨h₁, h₂⟩ := pairedArcs_index _
    (pairedArcs_createArcs edges distance_matrix max_distance planPath unset)
  refine ⟨h₁, fun k hk => ?_⟩
  obtain ⟨h₃, h₄, h₅⟩ := h₂ k hk
  refine ⟨h₃, h₄, h₅, ?_⟩
  rw [h₅, List.reverse_reverse]

/-- Witness for C12: the arc pair between the nodes (0,0) and (3,4). -/
theorem arcs_are_forward_backward_pairs_witness :
    ((createArcs [⟨0, 0⟩, ⟨3, 4⟩] ⟨2, 2, [[0, 5], [5, 0]]⟩ 10 (fun p q => [p, ⟨2, 2⟩, q])
        (fun _ _ => 1000)).getD (2 * 0 + 1) (freshArc 0)).edge_points =
      ((createArcs [⟨0, 0⟩, ⟨3, 4⟩] ⟨2, 2, [[0, 5], [5, 0]]⟩ 10 (fun p q => [p, ⟨2, 2⟩, q])
        (fun _ _ => 1000)).getD (2 * 0) (freshArc 0)).edge_points.reverse :=
  ((arcs_are_forward_backward_pairs [⟨0, 0⟩, ⟨3, 4⟩] ⟨2, 2, [[0, 5], [5, 0]]⟩ 10
    (fun p q => [p, ⟨2, 2⟩, q]) (fun _ _ => 1000)).2 0 (by decide!)).2.2.1

/-- C13 (amended): whether the arcs of a pair are created depends on the weight tests alone,
the result of the planner is not examined; hence every arc of the list has a non-empty path
exactly when the planner returns a non-empty path for every pair that passes the weight
tests. -/
theorem arcs_created_on_weight_tests_alone (edges : List Point)
    (distance_matrix : DistanceMatrix) (max_distance : ℚ)
    (planPath : Point → Point → List Point) (unset : Nat → Nat → ℚ) :
    (∀ start end_,
      (arcsOfPair edges distance_matrix max_distance planPath unset start end_ ≠ [] ↔
        start < end_ ∧ pairAdmitted edges distance_matrix max_distance start end_)) ∧
    ((∀ a ∈ createArcs edges distance_matrix max_distance planPath unset, a.edge_points ≠ []) ↔
      ∀ start end_, start < distance_matrix.rows → end_ < distance_matrix.cols →
        start < end_ → pairAdmitted edges distance_matrix max_distance start end_ →
        planPath (edges.getD start ⟨0, 0⟩) (edges.getD end_ ⟨0, 0⟩) ≠ []) := by
  constructor
  · intro start end_
    rw [arcsOfPair_eq]
    split
    · rename_i h
      simp [h]
    · rename_i h
      simp only [ne_eq, not_true_eq_false, false_iff]
      exact h
  · constructor
    · intro h start end_ hs he hlt hadm
      have hmem : ({ start_point := edges.getD start ⟨0, 0⟩
                     end_point := edges.getD end_ ⟨0, 0⟩
                     weight := distance_matrix.atDouble end_ start
                     edge_points := planPath (edges.getD start ⟨0, 0⟩) (edges.getD end_ ⟨0, 0⟩) } :
          arcStruct) ∈ createArcs edges distance_matrix max_distance planPath unset := by
        rw [mem_createArcs]
        refine ⟨start, end_, hs, he, ?_⟩
        rw [arcsOfPair_eq, if_pos ⟨hlt, hadm⟩]
        exact List.mem_cons_self _ _
      exact h _ hmem
    · intro h a ha
      rw [mem_createArcs] at ha
      obtain ⟨start, end_, hs, he, ha⟩ := ha
      rw [arcsOfPair_eq] at ha
      split at ha
      · rename_i hadm
        have hne := h start end_ hs he hadm.1 hadm.2
        simp only [List.mem_cons, List.mem_singleton, List.not_mem_nil, or_false] at ha
        rcases ha with rfl | rfl
        · exact hne
        · simpa using hne
      · simp at ha

/-- Counterexample for C13 as stated: nodes (0,0) and (3,4) at distance 5 and a planner that
finds no path (it returns the empty path); the pair passes the weight tests, and both arcs
are created with an empty path. -/
theorem arcs_created_without_path :
    (createArcs [⟨0, 0⟩, ⟨3, 4⟩] ⟨2, 2, [[0, 5], [5, 0]]⟩ 10 (fun _ _ => [])
      (fun _ _ => 1000)).map (fun a => (a.start_point, a.end_point, a.edge_points)) =
      [(⟨0, 0⟩, ⟨3, 4⟩, []), (⟨3, 4⟩, ⟨0, 0⟩, [])] := by
  decide!

theorem pointClose_iff (points : List Point) (point : Point) (min_distance : ℚ) :
    pointClose points point min_distance = true ↔
      ∃ q ∈ points, ((q.x : ℚ) - point.x) ^ 2 + ((q.y : ℚ) - point.y) ^ 2 ≤ min_distance ^ 2 := by
  unfold pointClose
  simp only [List.any_eq_true, decide_eq_true_eq]
  constructor
  · rintro ⟨q, hq, h⟩
    refine ⟨q, hq, ?_⟩
    have e1 : ((q.x : ℚ) - point.x) ^ 2 = ((q.x : ℚ) - point.x) * ((q.x : ℚ) - point.x) := by ring
    have e2 : ((q.y : ℚ) - point.y) ^ 2 = ((q.y : ℚ) - point.y) * ((q.y : ℚ) - point.y) := by ring
    have e3 : min_distance ^ 2 = min_distance * min_distance := by ring
    rw [e1, e2, e3]
    exact h
  · rintro ⟨q, hq, h⟩
    refine ⟨q, hq, ?_⟩
    have e1 : ((q.x : ℚ) - point.x) ^ 2 = ((q.x : ℚ) - point.x) * ((q.x : ℚ) - point.x) := by ring
    have e2 : ((q.y : ℚ) - point.y) ^ 2 = ((q.y : ℚ) - point.y) * ((q.y : ℚ) - point.y) := by ring
    have e3 : min_distance ^ 2 = min_distance * min_distance := by ring
    rw [e1, e2, e3] at h
    exact h

theorem visibilityMatrix_at (cell_centers : List Point) (arcs : List arcStruct)
    (coverage_radius : ℚ) (c a : Nat) (hc : c < cell_centers.length) (ha : a < arcs.length) :
    (visibilityMatrix cell_centers arcs coverage_radius).atUchar c a =
      if pointClose (arcs.getD a (freshArc 0)).edge_points (cell_centers.getD c ⟨0, 0⟩)
          ((11 / 10) * coverage_radius) = true then 1 else 0 := by
  unfold visibilityMatrix Mat.atUchar
  simp only [List.getD_eq_getElem?_getD, List.getElem?_map, List.getElem?_eq_getElem hc,
    List.getElem?_eq_getElem ha, Option.map_some', Option.getD_some]

theorem sq_le_sq_iff_sqrt_le (n d : ℚ) (hd : 0 ≤ d) :
    n ≤ d ^ 2 ↔ Real.sqrt (n : ℝ) ≤ (d : ℝ) := by
  have hd' : (0 : ℝ) ≤ (d : ℝ) := by exact_mod_cast hd
  rw [Real.sqrt_le_iff]
  constructor
  · intro h
    refine ⟨hd', ?_⟩
    exact_mod_cast h
  · rintro ⟨_, h⟩
    exact_mod_cast h

/-- C14: for `coverage_radius ≥ 0`, a cell `c` and an arc `a` of the lists, the entry
`V[c][a]` is 1 if some point of the path of the arc lies at Euclidean distance at most
`1.1 * coverage_radius` from the cell, and 0 otherwise, in particular for an empty path;
and `pointClose(points, p, d)` is true exactly when some `q` in `points` has
`(q.x - p.x)² + (q.y - p.y)² ≤ d²`. -/
theorem visibility_entry (cell_centers : List Point) (arcs : List arcStruct)
    (coverage_radius : ℚ) (c a : Nat) (hr : 0 ≤ coverage_radius)
    (hc : c < cell_centers.length) (ha : a < arcs.length) :
    ((∃ q ∈ (arcs.getD a (freshArc 0)).edge_points,
        Real.sqrt ((((q.x : ℚ) - (cell_centers.getD c ⟨0, 0⟩).x) ^ 2 +
          ((q.y : ℚ) - (cell_centers.getD c ⟨0, 0⟩).y) ^ 2 : ℚ) : ℝ) ≤
          (((11 / 10) * coverage_radius : ℚ) : ℝ)) →
      (visibilityMatrix cell_centers arcs coverage_radius).atUchar c a = 1) ∧
    ((¬ ∃ q ∈ (arcs.getD a (freshArc 0)).edge_points,
        Real.sqrt ((((q.x : ℚ) - (cell_centers.getD c ⟨0, 0⟩).x) ^ 2 +
          ((q.y : ℚ) - (cell_centers.getD c ⟨0, 0⟩).y) ^ 2 : ℚ) : ℝ) ≤
          (((11 / 10) * coverage_radius : ℚ) : ℝ)) →
      (visibilityMatrix cell_centers arcs coverage_radius).atUchar c a = 0) ∧
    ((arcs.getD a (freshArc 0)).edge_points = [] →
      (visibilityMatrix cell_centers arcs coverage_radius).atUchar c a = 0) ∧
    (∀ (points : List Point) (p : Point) (d : ℚ),
      pointClose points p d = true ↔
        ∃ q ∈ points, ((q.x : ℚ) - p.x) ^ 2 + ((q.y : ℚ) - p.y) ^ 2 ≤ d ^ 2) := by
  have hd : (0 : ℚ) ≤ (11 / 10) * coverage_radius := by positivity
  have hV := visibilityMatrix_at cell_centers arcs coverage_radius c a hc ha
  have hiff : pointClose (arcs.getD a (freshArc 0)).edge_points (cell_centers.getD c ⟨0, 0⟩)
      ((11 / 10) * coverage_radius) = true ↔
      ∃ q ∈ (arcs.getD a (freshArc 0)).edge_points,
        Real.sqrt ((((q.x : ℚ) - (cell_centers.getD c ⟨0, 0⟩).x) ^ 2 +
          ((q.y : ℚ) - (cell_centers.getD c ⟨0, 0⟩).y) ^ 2 : ℚ) : ℝ) ≤
          (((11 / 10) * coverage_radius : ℚ) : ℝ) := by
    rw [pointClose_iff]
    constructor
    · rintro ⟨q, hq, h⟩
      exact ⟨q, hq, (sq_le_sq_iff_sqrt_le _ _ hd).mp h⟩
    · rintro ⟨q, hq, h⟩
      exact ⟨q, hq, (sq_le_sq_iff_sqrt_le _ _ hd).mpr h⟩
  refine ⟨?_, ?_, ?_, pointClose_iff⟩
  · intro h
    rw [hV, if_pos (hiff.mpr h)]
  · intro h
    rw [hV, if_neg (fun hp => h (hiff.mp hp))]
  · intro hempty
    rw [hV, hempty]
    rfl

/-- Witness for C14: the cell (0,0) and an arc whose path passes through (1,0), with
coverage radius 1: the distance 1 is at most 1.1, and the entry is 1. -/
theorem visibility_entry_witness :
    (visibilityMatrix [⟨0, 0⟩] [⟨⟨1, 0⟩, ⟨5, 0⟩, 4, [⟨1, 0⟩, ⟨5, 0⟩]⟩] 1).atUchar 0 0 = 1 :=
  (visibility_entry [⟨0, 0⟩] [⟨⟨1, 0⟩, ⟨5, 0⟩, 4, [⟨1, 0⟩, ⟨5, 0⟩]⟩] 1 0 0 (by norm_num)
    (by decide) (by decide)).1
    ⟨⟨1, 0⟩, by simp [freshArc], by
      rw [Real.sqrt_le_iff]
      constructor
      · norm_num
      · simp [freshArc]
        rw [abs_of_pos (by norm_num)]
        norm_num⟩

theorem getD_map_of_lt {α β : Type} (f : α → β) (l : List α) (n : Nat) (d : α) (e : β)
    (h : n < l.length) : (l.map f).getD n e = f (l.getD n d) := by
  simp only [List.getD_eq_getElem?_getD, List.getElem?_map, List.getElem?_eq_getElem h,
    Option.map_some', Option.getD_some]

theorem pairwise_lt_filter_range (n : Nat) (p : Nat → Bool) :
    ((List.range n).filter p).Pairwise (· < ·) :=
  (List.pairwise_lt_range n).sublist (List.filter_sublist _)

theorem mem_flowsIntoNodes_getD (edges : List Point) (arcs : List arcStruct) (n a : Nat)
    (hn : n < edges.length) :
    a ∈ (flowsIntoNodes edges arcs).getD n [] ↔
      a < arcs.length ∧ (arcs.getD a (freshArc 0)).start_point = edges.getD n ⟨0, 0⟩ := by
  unfold flowsIntoNodes
  rw [getD_map_of_lt _ edges n ⟨0, 0⟩ [] hn]
  simp only [List.mem_filter, List.mem_range, decide_eq_true_eq]

theorem mem_flowsOutOfNodes_getD (edges : List Point) (arcs : List arcStruct) (n a : Nat)
    (hn : n < edges.length) :
    a ∈ (flowsOutOfNodes edges arcs).getD n [] ↔
      a < arcs.length ∧ (arcs.getD a (freshArc 0)).end_point = edges.getD n ⟨0, 0⟩ ∧
        (arcs.getD a (freshArc 0)).start_point ≠ edges.getD n ⟨0, 0⟩ := by
  unfold flowsOutOfNodes
  rw [getD_map_of_lt _ edges n ⟨0, 0⟩ [] hn]
  simp only [List.mem_filter, List.mem_range, decide_eq_true_eq, ne_eq]
  constructor
  · rintro ⟨h1, h2, h3⟩
    exact ⟨h1, h3, h2⟩
  · rintro ⟨h1, h2, h3⟩
    exact ⟨h1, h3, h2⟩

theorem flowsOutOfNodes_getD_of_ge (edges : List Point) (arcs : List arcStruct) (n : Nat)
    (hn : edges.length ≤ n) : (flowsOutOfNodes edges arcs).getD n [] = [] := by
  unfold flowsOutOfNodes
  rw [List.getD_eq_getElem?_getD, List.getElem?_eq_none (by simpa using hn)]
  rfl

/-- C15 (amended): for every node `n`, `flows_into_nodes[n]` is exactly the ascending list
of the indices of the arcs whose start point is the node, and `flows_out_of_nodes[n]` is
exactly the ascending list of the indices of the arcs whose end point is the node and
whose start point is not. -/
theorem flow_adjacency_lists (edges : List Point) (arcs : List arcStruct) (n : Nat)
    (hn : n < edges.length) :
    ((flowsIntoNodes edges arcs).getD n []).Pairwise (· < ·) ∧
    (∀ a, a ∈ (flowsIntoNodes edges arcs).getD n [] ↔
      a < arcs.length ∧ (arcs.getD a (freshArc 0)).start_point = edges.getD n ⟨0, 0⟩) ∧
    ((flowsOutOfNodes edges arcs).getD n []).Pairwise (· < ·) ∧
    (∀ a, a ∈ (flowsOutOfNodes edges arcs).getD n [] ↔
      a < arcs.length ∧ (arcs.getD a (freshArc 0)).end_point = edges.getD n ⟨0, 0⟩ ∧
        (arcs.getD a (freshArc 0)).start_point ≠ edges.getD n ⟨0, 0⟩) := by
  refine ⟨?_, fun a => mem_flowsIntoNodes_getD edges arcs n a hn, ?_,
    fun a => mem_flowsOutOfNodes_getD edges arcs n a hn⟩
  · unfold flowsIntoNodes
    rw [getD_map_of_lt _ edges n ⟨0, 0⟩ [] hn]
    exact pairwise_lt_filter_range _ _
  · unfold flowsOutOfNodes
    rw [getD_map_of_lt _ edges n ⟨0, 0⟩ [] hn]
    exact pairwise_lt_filter_range _ _

/-- Witness for C15: the two nodes (0,0), (2,0) and the arc pair between them; the list
`flows_into_nodes[0]` holds arc 0, which starts at node 0. -/
theorem flow_adjacency_lists_witness :
    (0 ∈ (flowsIntoNodes [⟨0, 0⟩, ⟨2, 0⟩]
        [⟨⟨0, 0⟩, ⟨2, 0⟩, 2, []⟩, ⟨⟨2, 0⟩, ⟨0, 0⟩, 2, []⟩]).getD 0 [] ↔
      0 < [(⟨⟨0, 0⟩, ⟨2, 0⟩, 2, []⟩ : arcStruct), ⟨⟨2, 0⟩, ⟨0, 0⟩, 2, []⟩].length ∧
        ([(⟨⟨0, 0⟩, ⟨2, 0⟩, 2, []⟩ : arcStruct), ⟨⟨2, 0⟩, ⟨0, 0⟩, 2, []⟩].getD 0
          (freshArc 0)).start_point = [(⟨0, 0⟩ : Point), ⟨2, 0⟩].getD 0 ⟨0, 0⟩) :=
  (flow_adjacency_lists [⟨0, 0⟩, ⟨2, 0⟩]
    [⟨⟨0, 0⟩, ⟨2, 0⟩, 2, []⟩, ⟨⟨2, 0⟩, ⟨0, 0⟩, 2, []⟩] 0 (by decide)).2.1 0

/-- Counterexample for C15 as stated: for the two nodes (0,0), (2,0) and the arc pair between
them, `flows_out_of_nodes[0]` holds arc 1, whose start point is node 1, and
`flows_into_nodes[0]` holds arc 0, whose end point is node 1. -/
theorem flow_adjacency_names_swapped :
    flowsOutOfNodes [⟨0, 0⟩, ⟨2, 0⟩]
      [⟨⟨0, 0⟩, ⟨2, 0⟩, 2, []⟩, ⟨⟨2, 0⟩, ⟨0, 0⟩, 2, []⟩] = [[1], [0]] ∧
    flowsIntoNodes [⟨0, 0⟩, ⟨2, 0⟩]
      [⟨⟨0, 0⟩, ⟨2, 0⟩, 2, []⟩, ⟨⟨2, 0⟩, ⟨0, 0⟩, 2, []⟩] = [[0], [1]] ∧
    ([(⟨⟨0, 0⟩, ⟨2, 0⟩, 2, []⟩ : arcStruct), ⟨⟨2, 0⟩, ⟨0, 0⟩, 2, []⟩].getD 1
      (freshArc 0)).start_point ≠ [(⟨0, 0⟩ : Point), ⟨2, 0⟩].getD 0 ⟨0, 0⟩ ∧
    ([(⟨⟨0, 0⟩, ⟨2, 0⟩, 2, []⟩ : arcStruct), ⟨⟨2, 0⟩, ⟨0, 0⟩, 2, []⟩].getD 0
      (freshArc 0)).end_point ≠ [(⟨0, 0⟩ : Point), ⟨2, 0⟩].getD 0 ⟨0, 0⟩ := by
  refine ⟨by decide!, by decide!, by decide!, by decide!⟩

/-- The local variables of `getExplorationPath` at its return are tied to one another as
the statements of the function compute them. -/
theorem getExplorationPath_locals (ext : Collaborators) (fuel : Nat) (room_map : Mat)
    (path : List Pose2D) (map_resolution : ℚ) (starting_position : Point)
    (cell_size : Int) (room_min_max_coordinates : List Point32) (coverage_radius : ℚ)
    (sparsity_check_range : Int) (r : ExplorationResult)
    (h : getExplorationPath ext fuel room_map path map_resolution starting_position cell_size
      room_min_max_coordinates coverage_radius sparsity_check_range = some r) :
    sampleCellCenters fuel room_map cell_size room_min_max_coordinates = some r.cell_centers ∧
    sweepEdges fuel room_map room_min_max_coordinates coverage_radius = some r.edges ∧
    r.arcs = createArcs r.edges (ext.constructDistanceMatrix room_map r.edges map_resolution)
      (max_distance room_min_max_coordinates) (ext.planPath room_map map_resolution)
      ext.unset ∧
    r.V = visibilityMatrix r.cell_centers r.arcs coverage_radius ∧
    r.flows_into_nodes = flowsIntoNodes r.edges r.arcs ∧
    r.flows_out_of_nodes = flowsOutOfNodes r.edges r.arcs ∧
    r.start_index = findStartIndex r.edges starting_position ∧
    r.used_arcs = usedArcs r.loop.C_small r.flows_out_of_nodes r.start_index r.arcs.length ∧
    r.reduced_arc_candidates =
      r.used_arcs.map (fun candidate => r.arcs.getD candidate (freshArc 0)) ∧
    r.reduced_edges = reducedEdges r.reduced_arc_candidates ∧
    r.reduced_start_index =
      reducedStartIndex r.reduced_edges r.reduced_arc_candidates
        (r.edges.getD r.start_index ⟨0, 0⟩) ∧
    r.V_reduced = reducedVisibilityMatrix r.V r.cell_centers.length r.used_arcs ∧
    stageVectorSize r.edges.length (r.flows_out_of_nodes.getD r.start_index []).length
      r.arcs.length ≤ ext.max_size := by
  unfold getExplorationPath at h
  split at h
  · exact absurd h (by simp)
  · rename_i cell_centers hcells
    split at h
    · exact absurd h (by simp)
    · rename_i edges hedges
      simp only at h
      split at h
      · exact absurd h (by simp)
      · rename_i hsize
        split at h
        · exact absurd h (by simp)
        · simp only [Option.some.injEq] at h
          subst h
          exact ⟨hcells, hedges, rfl, rfl, rfl, rfl, rfl, rfl, rfl, rfl, rfl, rfl,
            Nat.le_of_not_lt hsize⟩

/-- C16 (amended): every arc index `a` of the list `start_arcs` handed to the three stage
solve in the reweighting loop, `flows_out_of_nodes[start_index]`, is the index of an arc
that ends at the chosen start node and does not start there:
`arcs[a].end_point = edges[start_index]`. -/
theorem start_arcs_end_at_start_node (ext : Collaborators) (fuel : Nat) (room_map : Mat)
    (path : List Pose2D) (map_resolution : ℚ) (starting_position : Point)
    (cell_size : Int) (room_min_max_coordinates : List Point32) (coverage_radius : ℚ)
    (sparsity_check_range : Int) (r : ExplorationResult)
    (h : getExplorationPath ext fuel room_map path map_resolution starting_position cell_size
      room_min_max_coordinates coverage_radius sparsity_check_range = some r)
    (a : Nat) (ha : a ∈ r.flows_out_of_nodes.getD r.start_index []) :
    a < r.arcs.length ∧
    (r.arcs.getD a (freshArc 0)).end_point = r.edges.getD r.start_index ⟨0, 0⟩ ∧
    (r.arcs.getD a (freshArc 0)).start_point ≠ r.edges.getD r.start_index ⟨0, 0⟩ := by
  obtain ⟨_, _, _, _, _, hout, _⟩ := getExplorationPath_locals ext fuel room_map path
    map_resolution starting_position cell_size room_min_max_coordinates coverage_radius
    sparsity_check_range r h
  rw [hout] at ha
  by_cases hn : r.start_index < r.edges.length
  · exact (mem_flowsOutOfNodes_getD r.edges r.arcs r.start_index a hn).mp ha
  · rw [flowsOutOfNodes_getD_of_ge r.edges r.arcs r.start_index (by omega)] at ha
    exact absurd ha (by simp)

/-- Witness for C16: on `wideCorridorMap` the start arc 1 ends at the start node. -/
theorem start_arcs_end_at_start_node_witness :
    ∃ r, getExplorationPath wideCorridorCollaborators 100 wideCorridorMap [] (1 / 20) ⟨0, 0⟩ 1
        [⟨0, 0⟩, ⟨6, 2⟩] 1 1 = some r ∧
      (r.arcs.getD 1 (freshArc 0)).end_point = r.edges.getD r.start_index ⟨0, 0⟩ := by
  have hfo : (getExplorationPath wideCorridorCollaborators 100 wideCorridorMap [] (1 / 20)
      ⟨0, 0⟩ 1 [⟨0, 0⟩, ⟨6, 2⟩] 1 1).map
      (fun r => r.flows_out_of_nodes.getD r.start_index []) = some [1] := by decide!
  cases h : getExplorationPath wideCorridorCollaborators 100 wideCorridorMap [] (1 / 20)
      ⟨0, 0⟩ 1 [⟨0, 0⟩, ⟨6, 2⟩] 1 1 with
  | none =>
    rw [h] at hfo
    exact absurd hfo (by simp)
  | some r =>
    rw [h] at hfo
    simp only [Option.map_some', Option.some.injEq] at hfo
    exact ⟨r, rfl, (start_arcs_end_at_start_node wideCorridorCollaborators 100 wideCorridorMap
      [] (1 / 20) ⟨0, 0⟩ 1 [⟨0, 0⟩, ⟨6, 2⟩] 1 1 r h 1 (by rw [hfo]; simp)).2.1⟩

/-- Counterexample for C16 as stated: on `wideCorridorMap` (four nodes, six arcs) the list
`start_arcs` handed to the solver is `[1]`; arc 1 starts at the node (2,0) and ends at the
start node (0,0). -/
theorem start_arc_does_not_leave_start_node :
    (getExplorationPath wideCorridorCollaborators 100 wideCorridorMap [] (1 / 20) ⟨0, 0⟩ 1
      [⟨0, 0⟩, ⟨6, 2⟩] 1 1).map
        (fun r => (r.flows_out_of_nodes.getD r.start_index [],
          (r.arcs.getD 1 (freshArc 0)).start_point, (r.arcs.getD 1 (freshArc 0)).end_point,
          r.edges.getD r.start_index ⟨0, 0⟩)) =
      some ([1], ⟨2, 0⟩, ⟨0, 0⟩, ⟨0, 0⟩) := by
  decide!

/-- C17 (code defect): on `wideCorridorMap` (four nodes, six arcs) the loop converges on the
solution `[1, 0, 0, 0, 0, 1, 1, 1, 0, 0, 0, 0, 0]`, which satisfies every row of the three
stage program: the start variable of arc 1, the coverage variables of the arcs 4 and 5 and
the final variable 7, whose underlying arc is arc 1, are not zero.  The arcs with a non-zero
variable are `{1, 4, 5}`, but `used_arcs` is `{0, ..., 5}`: the final part of the collection
tests the one entry `C_small[0 + start_arcs.size() + flows_out_of_nodes.size()]`, here
`C_small[5]`, for every final arc. -/
theorem used_arcs_final_part_misindexed :
    (getExplorationPath wideCorridorCollaborators 100 wideCorridorMap [] (1 / 20) ⟨0, 0⟩ 1
      [⟨0, 0⟩, ⟨6, 2⟩] 1 1).map
        (fun r => (r.loop.C_small, r.used_arcs,
          (List.range r.arcs.length).filter
            (arcHasNonzeroVariable r.loop.C_small r.flows_out_of_nodes
              (r.flows_out_of_nodes.getD r.start_index []) r.arcs.length))) =
      some ([1, 0, 0, 0, 0, 1, 1, 1, 0, 0, 0, 0, 0], [0, 1, 2, 3, 4, 5], [1, 4, 5]) ∧
    (getExplorationPath wideCorridorCollaborators 100 wideCorridorMap [] (1 / 20) ⟨0, 0⟩ 1
      [⟨0, 0⟩, ⟨6, 2⟩] 1 1).map
        (fun r => (r.loop.sparsity_converged, r.edges.length, r.arcs.length,
          (threeStageProblem r.V (r.arcs.map arcStruct.weight) r.flows_into_nodes
            r.flows_out_of_nodes (r.flows_out_of_nodes.getD r.start_index []) none).rows.all
              (fun row => decide (row.holds (fun k => r.loop.C_small.getD k 0))))) =
      some (true, 4, 6, true) := by
  refine ⟨by decide!, by decide!⟩

theorem pushNew_nodup (acc : List Point) (p : Point) (h : acc.Nodup) :
    (if contains acc p = false then acc ++ [p] else acc).Nodup := by
  unfold contains
  split
  · rename_i hc
    have hp : p ∉ acc := by simpa using hc
    rw [List.nodup_append]
    refine ⟨h, List.nodup_singleton p, ?_⟩
    intro q hq hq'
    rw [List.mem_singleton] at hq'
    exact hp (hq' ▸ hq)
  · exact h

theorem mem_pushNew (acc : List Point) (p q : Point) :
    q ∈ (if contains acc p = false then acc ++ [p] else acc) ↔ q ∈ acc ∨ q = p := by
  unfold contains
  split
  · simp
  · rename_i hc
    have hp : p ∈ acc := by simpa using hc
    constructor
    · intro h; exact Or.inl h
    · rintro (h | rfl)
      · exact h
      · exact hp

theorem reducedEdges_fold (l : List arcStruct) : ∀ (acc : List Point), acc.Nodup →
    (l.foldl
      (fun reduced_edges current_arc =>
        let reduced_edges :=
          if contains reduced_edges current_arc.start_point = false then
            reduced_edges ++ [current_arc.start_point]
          else reduced_edges
        if contains reduced_edges current_arc.end_point = false then
          reduced_edges ++ [current_arc.end_point]
        else reduced_edges) acc).Nodup ∧
    ∀ p, p ∈ l.foldl
      (fun reduced_edges current_arc =>
        let reduced_edges :=
          if contains reduced_edges current_arc.start_point = false then
            reduced_edges ++ [current_arc.start_point]
          else reduced_edges
        if contains reduced_edges current_arc.end_point = false then
          reduced_edges ++ [current_arc.end_point]
        else reduced_edges) acc ↔
      p ∈ acc ∨ ∃ a ∈ l, a.start_point = p ∨ a.end_point = p := by
  induction l with
  | nil =>
    intro acc hacc
    refine ⟨hacc, fun p => ?_⟩
    simp only [List.foldl_nil, List.not_mem_nil, false_and, exists_false, or_false]
  | cons a t ih =>
    intro acc hacc
    simp only [List.foldl_cons]
    have hnd := pushNew_nodup _ a.end_point (pushNew_nodup acc a.start_point hacc)
    obtain ⟨h1, h2⟩ := ih _ hnd
    refine ⟨h1, fun p => ?_⟩
    rw [h2 p, mem_pushNew, mem_pushNew]
    constructor
    · rintro (((h | h) | h) | ⟨b, hb, h⟩)
      · exact Or.inl h
      · exact Or.inr ⟨a, List.mem_cons_self _ _, Or.inl h.symm⟩
      · exact Or.inr ⟨a, List.mem_cons_self _ _, Or.inr h.symm⟩
      · exact Or.inr ⟨b, List.mem_cons_of_mem _ hb, h⟩
    · rintro (h | ⟨b, hb, h⟩)
      · exact Or.inl (Or.inl (Or.inl h))
      · rcases List.mem_cons.mp hb with rfl | hb
        · rcases h with h | h
          · exact Or.inl (Or.inl (Or.inr h.symm))
          · exact Or.inl (Or.inr h.symm)
        · exact Or.inr ⟨b, hb, h⟩

theorem reducedEdges_nodup (l : List arcStruct) : (reducedEdges l).Nodup :=
  (reducedEdges_fold l [] List.nodup_nil).1

theorem mem_reducedEdges (l : List arcStruct) (p : Point) :
    p ∈ reducedEdges l ↔ ∃ a ∈ l, a.start_point = p ∨ a.end_point = p := by
  unfold reducedEdges
  rw [(reducedEdges_fold l [] List.nodup_nil).2 p]
  simp

/-- C18: for every list of surviving arcs, the reduced node list holds no point twice, every
start point and every end point of a surviving arc is in it, and every point in it is the
start point or the end point of a surviving arc. -/
theorem reduced_edges_are_the_end_points (reduced_arc_candidates : List arcStruct) :
    (reducedEdges reduced_arc_candidates).Nodup ∧
    (∀ a ∈ reduced_arc_candidates,
      a.start_point ∈ reducedEdges reduced_arc_candidates ∧
        a.end_point ∈ reducedEdges reduced_arc_candidates) ∧
    (∀ p ∈ reducedEdges reduced_arc_candidates,
      ∃ a ∈ reduced_arc_candidates, a.start_point = p ∨ a.end_point = p) := by
  refine ⟨reducedEdges_nodup _, ?_, ?_⟩
  · intro a ha
    exact ⟨(mem_reducedEdges _ _).mpr ⟨a, ha, Or.inl rfl⟩,
      (mem_reducedEdges _ _).mpr ⟨a, ha, Or.inr rfl⟩⟩
  · intro p hp
    exact (mem_reducedEdges _ _).mp hp

theorem reducedStartIndex_inner (l : List arcStruct) (edge start_edge : Point) (i : Nat) :
    ∀ (acc : Nat),
      l.foldl (fun reduced_start_index arc =>
          if arc.start_point = edge ∧ edge = start_edge then i else reduced_start_index) acc =
        if (∃ a ∈ l, a.start_point = edge) ∧ edge = start_edge then i else acc := by
  induction l with
  | nil => intro acc; simp
  | cons a t ih =>
    intro acc
    rw [List.foldl_cons, ih]
    by_cases he : edge = start_edge
    · by_cases ht : ∃ b ∈ t, b.start_point = edge
      · have : ∃ b ∈ a :: t, b.start_point = edge := by
          obtain ⟨b, hb, h⟩ := ht
          exact ⟨b, List.mem_cons_of_mem _ hb, h⟩
        rw [if_pos ⟨ht, he⟩, if_pos ⟨this, he⟩]
      · rw [if_neg (fun h => ht h.1)]
        by_cases ha : a.start_point = edge
        · rw [if_pos ⟨ha, he⟩, if_pos ⟨⟨a, List.mem_cons_self _ _, ha⟩, he⟩]
        · have : ¬ ∃ b ∈ a :: t, b.start_point = edge := by
            rintro ⟨b, hb, h⟩
            rcases List.mem_cons.mp hb with rfl | hb
            · exact ha h
            · exact ht ⟨b, hb, h⟩
          rw [if_neg (fun h => ha h.1), if_neg (fun h => this h.1)]
    · rw [if_neg (fun h => he h.2), if_neg (fun h => he h.2), if_neg (fun h => he h.2)]

theorem foldl_last_index (Q : Nat → Prop) [DecidablePred Q] (n : Nat) (h : ∃ i, i < n ∧ Q i) :
    Q ((List.range n).foldl (fun acc i => if Q i then i else acc) 0) := by
  induction n with
  | zero =>
    obtain ⟨i, hi, _⟩ := h
    omega
  | succ n ih =>
    rw [List.range_succ, List.foldl_append, List.foldl_cons, List.foldl_nil]
    by_cases hn : Q n
    · rw [if_pos hn]
      exact hn
    · rw [if_neg hn]
      apply ih
      obtain ⟨i, hi, hQ⟩ := h
      refine ⟨i, ?_, hQ⟩
      have hne : i ≠ n := fun e => hn (e ▸ hQ)
      omega

theorem reducedStartIndex_locates (reduced_edges : List Point) (l : List arcStruct)
    (start_edge : Point) (hmem : start_edge ∈ reduced_edges)
    (h : ∃ a ∈ l, a.start_point = start_edge) :
    reduced_edges.getD (reducedStartIndex reduced_edges l start_edge) ⟨0, 0⟩ = start_edge := by
  have hrw : reducedStartIndex reduced_edges l start_edge =
      (List.range reduced_edges.length).foldl
        (fun acc i =>
          if (∃ a ∈ l, a.start_point = reduced_edges.getD i ⟨0, 0⟩) ∧
              reduced_edges.getD i ⟨0, 0⟩ = start_edge then i else acc) 0 := by
    unfold reducedStartIndex
    congr 1
    funext acc i
    exact reducedStartIndex_inner l _ start_edge i acc
  rw [hrw]
  have hex : ∃ i, i < reduced_edges.length ∧
      ((∃ a ∈ l, a.start_point = reduced_edges.getD i ⟨0, 0⟩) ∧
        reduced_edges.getD i ⟨0, 0⟩ = start_edge) := by
    obtain ⟨i, hi, hget⟩ := List.getElem_of_mem hmem
    have hgetD : reduced_edges.getD i ⟨0, 0⟩ = start_edge := by
      rw [List.getD_eq_getElem?_getD, List.getElem?_eq_getElem hi]
      exact hget
    refine ⟨i, hi, ?_, hgetD⟩
    rw [hgetD]
    exact h
  exact (foldl_last_index
    (fun i => (∃ a ∈ l, a.start_point = reduced_edges.getD i ⟨0, 0⟩) ∧
      reduced_edges.getD i ⟨0, 0⟩ = start_edge) reduced_edges.length hex).2

/-- The lookup of lines 906-929 finds the start node when it is the start point of a
surviving arc: then `reduced_edges[reduced_start_index] = edges[start_index]`. -/
theorem reducedStartIndex_of_start_point (ext : Collaborators) (fuel : Nat)
    (room_map : Mat) (path : List Pose2D) (map_resolution : ℚ) (starting_position : Point)
    (cell_size : Int) (room_min_max_coordinates : List Point32) (coverage_radius : ℚ)
    (sparsity_check_range : Int) (r : ExplorationResult)
    (h : getExplorationPath ext fuel room_map path map_resolution starting_position cell_size
      room_min_max_coordinates coverage_radius sparsity_check_range = some r)
    (hstart : ∃ a ∈ r.reduced_arc_candidates,
      a.start_point = r.edges.getD r.start_index ⟨0, 0⟩) :
    r.reduced_edges.getD r.reduced_start_index ⟨0, 0⟩ = r.edges.getD r.start_index ⟨0, 0⟩ := by
  obtain ⟨_, _, _, _, _, _, _, _, _, hred, hidx, _⟩ := getExplorationPath_locals ext fuel
    room_map path map_resolution starting_position cell_size room_min_max_coordinates
    coverage_radius sparsity_check_range r h
  rw [hidx]
  apply reducedStartIndex_locates _ _ _ _ hstart
  rw [hred, mem_reducedEdges]
  obtain ⟨a, ha, hs⟩ := hstart
  exact ⟨a, ha, Or.inl hs⟩

/-- C19 (code defect): on `wideCorridorMap` with the nodes (0,0), (2,0), (4,0), (6,0) and
start node (0,0), the solver's point satisfies every row of the three stage program, and
the surviving arcs are arc 1, from (2,0) to the start node (0,0), and arc 3, from (4,0) to
(2,0).  The start node is an end point of a surviving arc and `reduced_edges` is
`[(2,0), (0,0), (4,0)]`, but `reduced_start_index` keeps its initial value 0, which locates
(2,0): the assignment is nested in the branch `arc->start_point == *edge`. -/
theorem reduced_start_index_misses_end_point :
    (getExplorationPath wideCorridorReturnCollaborators 100 wideCorridorMap [] (1 / 20)
      ⟨0, 0⟩ 1 [⟨0, 0⟩, ⟨6, 2⟩] 1 1).map
        (fun r => (r.used_arcs,
          r.reduced_arc_candidates.map (fun a => (a.start_point, a.end_point)),
          r.reduced_edges, r.reduced_start_index)) =
      some ([1, 3], [(⟨2, 0⟩, ⟨0, 0⟩), (⟨4, 0⟩, ⟨2, 0⟩)], [⟨2, 0⟩, ⟨0, 0⟩, ⟨4, 0⟩], 0) ∧
    (getExplorationPath wideCorridorReturnCollaborators 100 wideCorridorMap [] (1 / 20)
      ⟨0, 0⟩ 1 [⟨0, 0⟩, ⟨6, 2⟩] 1 1).map
        (fun r => (r.reduced_edges.getD r.reduced_start_index ⟨0, 0⟩,
          r.edges.getD r.start_index ⟨0, 0⟩, r.edges.length,
          (threeStageProblem r.V (r.arcs.map arcStruct.weight) r.flows_into_nodes
            r.flows_out_of_nodes (r.flows_out_of_nodes.getD r.start_index []) none).rows.all
              (fun row => decide (row.holds (fun k => r.loop.C_small.getD k 0))))) =
      some (⟨2, 0⟩, ⟨0, 0⟩, 4, true) := by
  refine ⟨by decide!, by decide!⟩

theorem size_t_of_lt (i : Int) (h0 : 0 ≤ i) (h1 : i < 18446744073709551616) :
    size_t i = i.toNat := by
  unfold size_t
  congr 1
  omega

theorem forLoop_invariant {σ : Type} (cond : Nat → Bool) (body : Nat → σ → Option (Nat × σ))
    (incr : Nat → Nat) (measure : Nat → Nat) (Inv : Nat → σ → Prop)
    (hstep : ∀ i s, cond i = true → Inv i s →
      ∃ i' s', body i s = some (i', s') ∧ measure (incr i') < measure i ∧ Inv (incr i') s') :
    ∀ (fuel i : Nat) (s : σ), measure i < fuel → Inv i s →
      ∃ j s', forLoop cond body incr fuel i s = some s' ∧ Inv j s' ∧ cond j = false := by
  intro fuel
  induction fuel with
  | zero => intro i s h; omega
  | succ fuel ih =>
    intro i s hf hinv
    unfold forLoop
    by_cases hc : cond i = true
    · obtain ⟨i', s', hb, hm, hinv'⟩ := hstep i s hc hinv
      rw [if_pos hc, hb]
      exact ih (incr i') s' (by omega) hinv'
    · rw [if_neg hc]
      exact ⟨i, s, rfl, hinv, by simpa using hc⟩

theorem truncate_intCast (z : Int) : truncate (z : ℚ) = z := by
  unfold truncate
  split_ifs <;> simp

theorem sweepStep_fst (room_map : Mat) (coverage_int : Int) (y x : Nat) (edges : List Point) :
    (sweepStep room_map coverage_int y x edges).1 =
      if boundaryObstacle room_map y x then
        size_t (truncate ((x : ℚ) + (2 * (coverage_int : ℚ) - 1)))
      else x := by
  unfold sweepStep boundaryObstacle
  by_cases h : room_map.atUchar y x = 0 ∧
      (room_map.atInt ((y : Int) - 1) x = 255 ∨ room_map.atUchar (y + 1) x = 255)
  · rw [if_pos h, if_pos h]
  · rw [if_neg h, if_neg h]

theorem sweepStep_index (room_map : Mat) (coverage_int : Int) (y x : Nat) (edges : List Point)
    (hc : 1 ≤ coverage_int) (hc' : coverage_int < 2147483648) (hx : x < 2147483648) :
    size_t (((sweepStep room_map coverage_int y x edges).1 : Int) + 1) =
      if boundaryObstacle room_map y x then x + 2 * coverage_int.toNat else x + 1 := by
  rw [sweepStep_fst]
  by_cases h : boundaryObstacle room_map y x
  · rw [if_pos h, if_pos h]
    have hq : (x : ℚ) + (2 * (coverage_int : ℚ) - 1) =
        ((x + (2 * coverage_int - 1) : Int) : ℚ) := by
      push_cast; ring
    rw [hq, truncate_intCast]
    have h2 : (size_t ((x : Int) + (2 * coverage_int - 1)) : Int) =
        (x : Int) + (2 * coverage_int - 1) := by
      rw [size_t_of_lt _ (by omega) (by omega)]
      omega
    rw [h2, size_t_of_lt _ (by omega) (by omega)]
    omega
  · rw [if_neg h, if_neg h, size_t_of_lt _ (by omega) (by omega)]
    omega

theorem sweepStep_snd (room_map : Mat) (coverage_int : Int) (y x : Nat) (edges : List Point) :
    (sweepStep room_map coverage_int y x edges).2 =
      edges ++
        if boundaryObstacle room_map y x then
          if room_map.atInt ((y : Int) - coverage_int) x = 255 then
            [(⟨x, (y : Int) - coverage_int⟩ : Point)]
          else if room_map.atInt ((y : Int) + coverage_int) x = 255 ∧
              size_t ((y : Int) + coverage_int) < room_map.rows then
            [(⟨x, (y : Int) + coverage_int⟩ : Point)]
          else []
        else [] := by
  unfold sweepStep boundaryObstacle
  by_cases h : room_map.atUchar y x = 0 ∧
      (room_map.atInt ((y : Int) - 1) x = 255 ∨ room_map.atUchar (y + 1) x = 255)
  · rw [if_pos h, if_pos h]
    by_cases h1 : room_map.atInt ((y : Int) - coverage_int) x = 255
    · simp only [h1, if_true]
    · by_cases h2 : room_map.atInt ((y : Int) + coverage_int) x = 255 ∧
          size_t ((y : Int) + coverage_int) < room_map.rows
      · simp only [h1, if_false, if_pos h2]
      · simp only [h1, if_false, if_neg h2, List.append_nil]
  · rw [if_neg h, if_neg h, List.append_nil]

/-- One pass of the body of the inner sweep loop appends at most one node, and a node it
appends is a node of the cell. -/
theorem sweepStep_nodes (room_map : Mat) (coverage_int : Int) (y x : Nat) (edges : List Point)
    (hc : 0 ≤ coverage_int) (hc' : coverage_int < 2147483648) (hy : y < 4294967296) :
    ∃ new, (sweepStep room_map coverage_int y x edges).2 = edges ++ new ∧ new.length ≤ 1 ∧
      ∀ p ∈ new, NodeOfCell room_map coverage_int y x p := by
  have hs : size_t ((y : Int) + coverage_int) = ((y : Int) + coverage_int).toNat :=
    size_t_of_lt _ (by omega) (by omega)
  refine ⟨_, sweepStep_snd room_map coverage_int y x edges, ?_, ?_⟩
  · split_ifs <;> simp
  · intro p hp
    by_cases h : boundaryObstacle room_map y x
    · rw [if_pos h] at hp
      by_cases h1 : room_map.atInt ((y : Int) - coverage_int) x = 255
      · rw [if_pos h1, List.mem_singleton] at hp
        subst hp
        exact ⟨h, rfl, h1, Or.inl rfl⟩
      · rw [if_neg h1] at hp
        by_cases h2 : room_map.atInt ((y : Int) + coverage_int) x = 255 ∧
            size_t ((y : Int) + coverage_int) < room_map.rows
        · rw [if_pos h2, List.mem_singleton] at hp
          subst hp
          refine ⟨h, rfl, h2.1, Or.inr ⟨rfl, h1, ?_⟩⟩
          have := h2.2
          rw [hs] at this
          omega
        · rw [if_neg h2] at hp
          simp at hp
    · rw [if_neg h] at hp
      simp at hp

/-- The inner sweep loop of scan line `y` returns, given fuel beyond the number of columns:
it appends nodes of cells of the scan line, in strictly increasing columns. -/
theorem scanLine_nodes (room_map : Mat) (coverage_int : Int) (y fuel : Nat)
    (edges : List Point)
    (hc : 1 ≤ coverage_int) (hc' : coverage_int < 2147483648)
    (hcols : room_map.cols < 2147483648) (hy : y < 4294967296) (hfuel : room_map.cols < fuel) :
    ∃ new,
      forLoop (fun x => decide (x < room_map.cols))
        (fun x edges => some (sweepStep room_map coverage_int y x edges))
        (fun x => size_t ((x : Int) + 1)) fuel 0 edges = some (edges ++ new) ∧
      new.Pairwise (fun p q => p.x < q.x) ∧
      ∀ p ∈ new, ∃ x, x < room_map.cols ∧ NodeOfCell room_map coverage_int y x p := by
  obtain ⟨j, s', hrun, ⟨new, hs, hpw, hnew⟩, _⟩ :=
    forLoop_invariant (fun x => decide (x < room_map.cols))
      (fun x edges => some (sweepStep room_map coverage_int y x edges))
      (fun x => size_t ((x : Int) + 1)) (fun x => room_map.cols - x)
      (fun x s => ∃ new, s = edges ++ new ∧ new.Pairwise (fun p q => p.x < q.x) ∧
        ∀ p ∈ new, p.x < (x : Int) ∧
          ∃ x', x' < room_map.cols ∧ NodeOfCell room_map coverage_int y x' p)
      (by
        intro x s hx hinv
        have hx' : x < room_map.cols := by simpa using hx
        obtain ⟨new, hs, hpw, hnew⟩ := hinv
        obtain ⟨add, hadd, _, hnode⟩ :=
          sweepStep_nodes room_map coverage_int y x s (by omega) hc' hy
        have hidx := sweepStep_index room_map coverage_int y x s hc hc' (by omega)
        have hgt : x < size_t (((sweepStep room_map coverage_int y x s).1 : Int) + 1) := by
          rw [hidx]; split_ifs <;> omega
        refine ⟨(sweepStep room_map coverage_int y x s).1,
          (sweepStep room_map coverage_int y x s).2, rfl, ?_, new ++ add,
          by rw [hadd, hs, List.append_assoc], ?_, ?_⟩
        · show room_map.cols - size_t (((sweepStep room_map coverage_int y x s).1 : Int) + 1) <
            room_map.cols - x
          omega
        · rw [List.pairwise_append]
          refine ⟨hpw, ?_, ?_⟩
          · have hadd1 : ∀ p ∈ add, p.x = (x : Int) := fun p hp => (hnode p hp).2.1
            cases add with
            | nil => exact List.Pairwise.nil
            | cons a t =>
              cases t with
              | nil => exact List.pairwise_singleton _ _
              | cons b t => simp at *
          · intro p hp q hq
            rw [(hnode q hq).2.1]
            exact (hnew p hp).1
        · intro p hp
          have hgt' : (x : Int) <
              (size_t (((sweepStep room_map coverage_int y x s).1 : Int) + 1) : Int) :=
            Int.ofNat_lt.mpr hgt
          rcases List.mem_append.mp hp with hp | hp
          · exact ⟨lt_trans (hnew p hp).1 hgt', (hnew p hp).2⟩
          · exact ⟨by rw [(hnode p hp).2.1]; exact hgt', x, hx', hnode p hp⟩)
      fuel 0 edges (by simpa using hfuel) ⟨[], by simp, List.Pairwise.nil, by simp⟩
  subst hs
  exact ⟨new, hrun, hpw, fun p hp => (hnew p hp).2⟩

theorem size_t_truncate (q : ℚ) (h : -1 < q) (h' : q < 4294967296) :
    0 ≤ truncate q ∧ truncate q < 4294967296 ∧ size_t (truncate q) = (truncate q).toNat := by
  have h0 : 0 ≤ truncate q := by
    unfold truncate
    split_ifs with hq
    · exact Int.floor_nonneg.mpr hq
    · exact Int.le_ceil_iff.mpr (by push_cast; linarith)
  have hle : ((truncate q : ℤ) : ℚ) < 4294967296 := by
    unfold truncate
    split_ifs with hq
    · have := Int.floor_le q
      linarith
    · have := Int.ceil_lt_add_one q
      linarith
  have hlt : truncate q < 4294967296 := by exact_mod_cast hle
  exact ⟨h0, hlt, size_t_of_lt _ h0 (by omega)⟩

/-- The sweep returns, given fuel beyond the number of columns and beyond the last scan line:
the vector `edges` is made of one block per scan line, in the order of the scan lines; the
nodes of a block are nodes of cells of its scan line and have strictly increasing columns. -/
theorem sweepEdges_blocks (fuel : Nat) (room_map : Mat) (pmin pmax : Point32)
    (rest : List Point32) (coverage_radius : ℚ)
    (hr : 1 ≤ coverage_radius) (hr' : coverage_radius < 2147483648)
    (hcols : room_map.cols < 2147483648)
    (hmin : -1 < pmin.y + (⌊coverage_radius⌋ : ℚ))
    (hmin' : pmin.y + (⌊coverage_radius⌋ : ℚ) < 4294967296)
    (hmax : pmax.y < 4294967296)
    (hfx : room_map.cols < fuel) (hfy : ⌊pmax.y⌋.toNat + 1 < fuel) :
    ∃ lines : List (List Point),
      sweepEdges fuel room_map (pmin :: pmax :: rest) coverage_radius = some lines.flatten ∧
      ∀ (k : Nat) (l : List Point), lines[k]? = some l →
        (((truncate (pmin.y + (⌊coverage_radius⌋ : ℚ))).toNat + k : Nat) : ℚ) ≤ pmax.y ∧
        l.Pairwise (fun p q => p.x < q.x) ∧
        ∀ p ∈ l, ∃ x, x < room_map.cols ∧
          NodeOfCell room_map ⌊coverage_radius⌋
            ((truncate (pmin.y + (⌊coverage_radius⌋ : ℚ))).toNat + k) x p := by
  have hc : (1 : Int) ≤ ⌊coverage_radius⌋ := Int.le_floor.mpr (by exact_mod_cast hr)
  have hc' : ⌊coverage_radius⌋ < 2147483648 := Int.floor_lt.mpr (by exact_mod_cast hr')
  obtain ⟨h0, h0', hsz⟩ := size_t_truncate _ hmin hmin'
  have hbound : ∀ y : Nat, (y : ℚ) ≤ pmax.y → y < 4294967296 := by
    intro y hy
    have : (y : ℚ) < 4294967296 := lt_of_le_of_lt hy hmax
    exact_mod_cast this
  have hfloor : ∀ y : Nat, (y : ℚ) ≤ pmax.y → y ≤ ⌊pmax.y⌋.toNat := by
    intro y hy
    have : (y : Int) ≤ ⌊pmax.y⌋ := Int.le_floor.mpr (by exact_mod_cast hy)
    omega
  obtain ⟨j, s', hrun, ⟨lines, hs, _, hlines⟩, _⟩ :=
    forLoop_invariant (fun y => decide ((y : ℚ) ≤ pmax.y))
      (fun y edges =>
        (forLoop (fun x => decide (x < room_map.cols))
          (fun x edges => some (sweepStep room_map ⌊coverage_radius⌋ y x edges))
          (fun x => size_t ((x : Int) + 1)) fuel 0 edges).map fun edges => (y, edges))
      (fun y => size_t ((y : Int) + 1)) (fun y => ⌊pmax.y⌋.toNat + 1 - y)
      (fun y s => ∃ lines : List (List Point), s = lines.flatten ∧
        (truncate (pmin.y + (⌊coverage_radius⌋ : ℚ))).toNat + lines.length = y ∧
        ∀ (k : Nat) (l : List Point), lines[k]? = some l →
          (((truncate (pmin.y + (⌊coverage_radius⌋ : ℚ))).toNat + k : Nat) : ℚ) ≤ pmax.y ∧
          l.Pairwise (fun p q => p.x < q.x) ∧
          ∀ p ∈ l, ∃ x, x < room_map.cols ∧
            NodeOfCell room_map ⌊coverage_radius⌋
              ((truncate (pmin.y + (⌊coverage_radius⌋ : ℚ))).toNat + k) x p)
      (by
        intro y s hy hinv
        have hy' : (y : ℚ) ≤ pmax.y := by simpa using hy
        obtain ⟨lines, hs, hlen, hlines⟩ := hinv
        obtain ⟨new, hnew, hpw, hnodes⟩ :=
          scanLine_nodes room_map ⌊coverage_radius⌋ y fuel s hc hc' hcols (hbound y hy') hfx
        have hincr : size_t ((y : Int) + 1) = y + 1 := by
          have := hbound y hy'
          rw [size_t_of_lt _ (by omega) (by omega)]
          omega
        refine ⟨y, s ++ new, by simp only [hnew, Option.map_some'], ?_, lines ++ [new], ?_, ?_, ?_⟩
        · show ⌊pmax.y⌋.toNat + 1 - size_t ((y : Int) + 1) < ⌊pmax.y⌋.toNat + 1 - y
          have := hfloor y hy'
          omega
        · rw [hs]; simp
        · show _ = size_t ((y : Int) + 1)
          rw [hincr, List.length_append, List.length_singleton]
          omega
        · intro k l hk
          rcases Nat.lt_or_ge k lines.length with hlt | hge
          · rw [List.getElem?_append_left hlt] at hk
            exact hlines k l hk
          · rw [List.getElem?_append_right hge] at hk
            have hk0 : k - lines.length = 0 := by
              by_contra hne
              rw [List.getElem?_eq_none (by simp; omega)] at hk
              exact Option.noConfusion hk
            rw [hk0] at hk
            simp only [List.getElem?_cons_zero, Option.some.injEq] at hk
            have hky : (truncate (pmin.y + (⌊coverage_radius⌋ : ℚ))).toNat + k = y := by omega
            rw [hky, ← hk]
            exact ⟨hy', hpw, hnodes⟩)
      fuel (truncate (pmin.y + (⌊coverage_radius⌋ : ℚ))).toNat []
      (by
        show ⌊pmax.y⌋.toNat + 1 - (truncate (pmin.y + (⌊coverage_radius⌋ : ℚ))).toNat < fuel
        omega)
      ⟨[], by simp, by simp, by simp⟩
  refine ⟨lines, ?_, hlines⟩
  rw [← hs, ← hrun]
  unfold sweepEdges
  simp only [List.getD_cons_zero, List.getD_cons_succ, hsz]

/-- C21, as stated, fails: on the map `gapMap` with rectangle `(0,0)-(0,3)` and coverage
radius 1 the scan lines `y = 1` and `y = 3` both emit the point `(0, 2)`, so the node list
holds it twice. -/
theorem sweep_emits_a_point_twice :
    sweepEdges 10 gapMap [⟨0, 0⟩, ⟨0, 3⟩] 1 = some [⟨0, 2⟩, ⟨0, 2⟩] ∧
    ¬ ∀ edges, sweepEdges 10 gapMap [⟨0, 0⟩, ⟨0, 3⟩] 1 = some edges → edges.Nodup := by
  have h : sweepEdges 10 gapMap [⟨0, 0⟩, ⟨0, 3⟩] 1 = some [⟨0, 2⟩, ⟨0, 2⟩] := by decide!
  refine ⟨h, fun hall => ?_⟩
  have := hall _ h
  simp at this

/-- C21, amended: for a coverage radius of at least 1, a map and a rectangle whose values
fit the index types, the sweep returns (given fuel beyond the number of columns and the last
scan line) a node list made of one block per scan line, in the order of the scan lines; the
nodes of one block are pairwise distinct, and each is a node of a cell of the scan line of
its block.  Nodes of different blocks may coincide. -/
theorem sweep_nodes_distinct_on_scan_line (fuel : Nat) (room_map : Mat) (pmin pmax : Point32)
    (rest : List Point32) (coverage_radius : ℚ)
    (hr : 1 ≤ coverage_radius) (hr' : coverage_radius < 2147483648)
    (hcols : room_map.cols < 2147483648)
    (hmin : -1 < pmin.y + (⌊coverage_radius⌋ : ℚ))
    (hmin' : pmin.y + (⌊coverage_radius⌋ : ℚ) < 4294967296)
    (hmax : pmax.y < 4294967296)
    (hfx : room_map.cols < fuel) (hfy : ⌊pmax.y⌋.toNat + 1 < fuel) :
    ∃ lines : List (List Point),
      sweepEdges fuel room_map (pmin :: pmax :: rest) coverage_radius = some lines.flatten ∧
      ∀ (k : Nat) (l : List Point), lines[k]? = some l →
        l.Nodup ∧
        ∀ p ∈ l, ∃ x, x < room_map.cols ∧
          NodeOfCell room_map ⌊coverage_radius⌋
            ((truncate (pmin.y + (⌊coverage_radius⌋ : ℚ))).toNat + k) x p := by
  obtain ⟨lines, hrun, hlines⟩ := sweepEdges_blocks fuel room_map pmin pmax rest
    coverage_radius hr hr' hcols hmin hmin' hmax hfx hfy
  refine ⟨lines, hrun, fun k l hk => ⟨?_, (hlines k l hk).2.2⟩⟩
  refine List.Pairwise.imp ?_ (hlines k l hk).2.1
  intro p q hpq hne
  rw [hne] at hpq
  exact lt_irrefl _ hpq

theorem sweep_nodes_distinct_on_scan_line_witness :
    ∃ lines : List (List Point),
      sweepEdges 10 gapMap [⟨0, 0⟩, ⟨0, 3⟩] 1 = some lines.flatten ∧
      lines.flatten = [⟨0, 2⟩, ⟨0, 2⟩] ∧
      ∀ (k : Nat) (l : List Point), lines[k]? = some l → l.Nodup := by
  obtain ⟨lines, hrun, hlines⟩ := sweep_nodes_distinct_on_scan_line 10 gapMap ⟨0, 0⟩ ⟨0, 3⟩ [] 1
    (by norm_num) (by norm_num) (by decide) (by decide!) (by decide!) (by decide!)
    (by decide) (by decide!)
  have h : sweepEdges 10 gapMap [⟨0, 0⟩, ⟨0, 3⟩] 1 = some [⟨0, 2⟩, ⟨0, 2⟩] := by decide!
  rw [hrun] at h
  exact ⟨lines, hrun, Option.some.inj h, fun k l hk => (hlines k l hk).1⟩

/-- C22, as stated, fails: on the map `gapMap` the cell at column 0 of scan line 1 is a
boundary obstacle and the node emitted for it with coverage radius 1 is `(0, 2)`: it lies in
the column of the cell, one row below it, not on the scan line one column to a side. -/
theorem sweep_node_not_on_scan_line :
    boundaryObstacle gapMap 1 0 ∧
    (sweepStep gapMap 1 1 0 []).2 = [⟨0, 2⟩] ∧
    ¬ ∀ p ∈ (sweepStep gapMap 1 1 0 []).2, AlongScanLine 1 1 0 p := by
  decide

/-- C22, amended: a node emitted by the sweep for the boundary obstacle cell at column `x` of
scan line `y` lies in the same column `x`, `floor(coverage_radius)` rows above or below the
cell, and is a free cell of the map.  One pass emits at most one node: the upper cell when it
is free; otherwise the lower cell when it is free and its row is inside the map; otherwise
none.  Every node of the sweep result is such a node of a cell of one of the scan lines. -/
theorem sweep_node_in_column_of_cell (fuel : Nat) (room_map : Mat) (pmin pmax : Point32)
    (rest : List Point32) (coverage_radius : ℚ)
    (hr : 1 ≤ coverage_radius) (hr' : coverage_radius < 2147483648)
    (hcols : room_map.cols < 2147483648)
    (hmin : -1 < pmin.y + (⌊coverage_radius⌋ : ℚ))
    (hmin' : pmin.y + (⌊coverage_radius⌋ : ℚ) < 4294967296)
    (hmax : pmax.y < 4294967296)
    (hfx : room_map.cols < fuel) (hfy : ⌊pmax.y⌋.toNat + 1 < fuel) :
    (∃ edges, sweepEdges fuel room_map (pmin :: pmax :: rest) coverage_radius = some edges ∧
      ∀ p ∈ edges, ∃ y x : Nat,
        (truncate (pmin.y + (⌊coverage_radius⌋ : ℚ))).toNat ≤ y ∧ (y : ℚ) ≤ pmax.y ∧
        x < room_map.cols ∧ boundaryObstacle room_map y x ∧
        p.x = x ∧ (p.y = (y : Int) - ⌊coverage_radius⌋ ∨ p.y = (y : Int) + ⌊coverage_radius⌋) ∧
        room_map.atInt p.y p.x = 255) ∧
    (∀ (y x : Nat) (edges : List Point), y < 4294967296 →
      (boundaryObstacle room_map y x →
        room_map.atInt ((y : Int) - ⌊coverage_radius⌋) x = 255 →
        (sweepStep room_map ⌊coverage_radius⌋ y x edges).2 =
          edges ++ [⟨x, (y : Int) - ⌊coverage_radius⌋⟩]) ∧
      (boundaryObstacle room_map y x →
        room_map.atInt ((y : Int) - ⌊coverage_radius⌋) x ≠ 255 →
        room_map.atInt ((y : Int) + ⌊coverage_radius⌋) x = 255 →
        (y : Int) + ⌊coverage_radius⌋ < room_map.rows →
        (sweepStep room_map ⌊coverage_radius⌋ y x edges).2 =
          edges ++ [⟨x, (y : Int) + ⌊coverage_radius⌋⟩]) ∧
      (boundaryObstacle room_map y x →
        room_map.atInt ((y : Int) - ⌊coverage_radius⌋) x ≠ 255 →
        ¬ (room_map.atInt ((y : Int) + ⌊coverage_radius⌋) x = 255 ∧
          (y : Int) + ⌊coverage_radius⌋ < room_map.rows) →
        (sweepStep room_map ⌊coverage_radius⌋ y x edges).2 = edges) ∧
      (¬ boundaryObstacle room_map y x →
        (sweepStep room_map ⌊coverage_radius⌋ y x edges).2 = edges)) := by
  have hc : (1 : Int) ≤ ⌊coverage_radius⌋ := Int.le_floor.mpr (by exact_mod_cast hr)
  have hc' : ⌊coverage_radius⌋ < 2147483648 := Int.floor_lt.mpr (by exact_mod_cast hr')
  constructor
  · obtain ⟨lines, hrun, hlines⟩ := sweepEdges_blocks fuel room_map pmin pmax rest
      coverage_radius hr hr' hcols hmin hmin' hmax hfx hfy
    refine ⟨_, hrun, fun p hp => ?_⟩
    obtain ⟨l, hl, hpl⟩ := List.mem_flatten.mp hp
    obtain ⟨k, hk, hkl⟩ := List.getElem_of_mem hl
    obtain ⟨hy, _, hnodes⟩ := hlines k l (by rw [List.getElem?_eq_getElem hk, hkl])
    obtain ⟨x, hx, hb, hpx, hfree, hrow⟩ := hnodes p hpl
    refine ⟨_, x, Nat.le_add_right _ k, hy, hx, hb, hpx, ?_, hfree⟩
    rcases hrow with h | h
    · exact Or.inl h
    · exact Or.inr h.1
  · intro y x edges hy
    have hs : size_t ((y : Int) + ⌊coverage_radius⌋) = ((y : Int) + ⌊coverage_radius⌋).toNat :=
      size_t_of_lt _ (by omega) (by omega)
    have hiff : size_t ((y : Int) + ⌊coverage_radius⌋) < room_map.rows ↔
        (y : Int) + ⌊coverage_radius⌋ < room_map.rows := by
      rw [hs]; omega
    rw [sweepStep_snd]
    refine ⟨fun hb h1 => ?_, fun hb h1 h2 h3 => ?_, fun hb h1 h2 => ?_, fun hb => ?_⟩
    · rw [if_pos hb, if_pos h1]
    · rw [if_pos hb, if_neg h1, if_pos ⟨h2, hiff.mpr h3⟩]
    · rw [if_pos hb, if_neg h1, if_neg (fun h => h2 ⟨h.1, hiff.mp h.2⟩), List.append_nil]
    · rw [if_neg hb, List.append_nil]

theorem sweep_node_in_column_of_cell_witness :
    ∃ edges, sweepEdges 10 gapMap [⟨0, 0⟩, ⟨0, 3⟩] 1 = some edges ∧
      (⟨0, 2⟩ : Point) ∈ edges ∧
      ∀ p ∈ edges, ∃ y x : Nat, x < gapMap.cols ∧ boundaryObstacle gapMap y x ∧
        p.x = x ∧ (p.y = (y : Int) - 1 ∨ p.y = (y : Int) + 1) ∧ gapMap.atInt p.y p.x = 255 := by
  obtain ⟨⟨edges, hrun, hnodes⟩, _⟩ := sweep_node_in_column_of_cell 10 gapMap ⟨0, 0⟩ ⟨0, 3⟩ [] 1
    (by norm_num) (by norm_num) (by decide) (by decide!) (by decide!) (by decide!)
    (by decide) (by decide!)
  have h : sweepEdges 10 gapMap [⟨0, 0⟩, ⟨0, 3⟩] 1 = some [⟨0, 2⟩, ⟨0, 2⟩] := by decide!
  have he : edges = [⟨0, 2⟩, ⟨0, 2⟩] := by
    rw [hrun] at h
    exact Option.some.inj h
  refine ⟨edges, hrun, by rw [he]; simp, fun p hp => ?_⟩
  obtain ⟨y, x, _, _, hx, hb, hpx, hpy, hfree⟩ := hnodes p hp
  have hf : ⌊(1 : ℚ)⌋ = 1 := by decide!
  rw [hf] at hpy
  exact ⟨y, x, hx, hb, hpx, hpy, hfree⟩

/-- The search for a first minimum below a bound `B`, as the loop of lines 758-767 makes it:
the value found is at most every value seen; either no value was below `B` and the state is
the initial one, or the index found is the first one with the least value. -/
theorem foldl_first_min (d : Nat → ℚ) (B : ℚ) (n : Nat) :
    (∀ j, j < n →
      ((List.range n).foldl
        (fun (state : ℚ × Nat) edge => if d edge < state.1 then (d edge, edge) else state)
        (B, 0)).1 ≤ d j) ∧
    (((List.range n).foldl
        (fun (state : ℚ × Nat) edge => if d edge < state.1 then (d edge, edge) else state)
        (B, 0) = (B, 0) ∧ ∀ j, j < n → B ≤ d j) ∨
      (((List.range n).foldl
        (fun (state : ℚ × Nat) edge => if d edge < state.1 then (d edge, edge) else state)
        (B, 0)).2 < n ∧
      ((List.range n).foldl
        (fun (state : ℚ × Nat) edge => if d edge < state.1 then (d edge, edge) else state)
        (B, 0)).1 = d ((List.range n).foldl
        (fun (state : ℚ × Nat) edge => if d edge < state.1 then (d edge, edge) else state)
        (B, 0)).2 ∧
      ((List.range n).foldl
        (fun (state : ℚ × Nat) edge => if d edge < state.1 then (d edge, edge) else state)
        (B, 0)).1 < B ∧
      ∀ j, j < ((List.range n).foldl
        (fun (state : ℚ × Nat) edge => if d edge < state.1 then (d edge, edge) else state)
        (B, 0)).2 →
        ((List.range n).foldl
        (fun (state : ℚ × Nat) edge => if d edge < state.1 then (d edge, edge) else state)
        (B, 0)).1 < d j)) := by
  induction n with
  | zero =>
    refine ⟨fun j hj => absurd hj (Nat.not_lt_zero j), Or.inl ⟨rfl, fun j hj => ?_⟩⟩
    exact absurd hj (Nat.not_lt_zero j)
  | succ n ih =>
    rw [List.range_succ, List.foldl_append, List.foldl_cons, List.foldl_nil]
    generalize (List.range n).foldl
      (fun (state : ℚ × Nat) edge => if d edge < state.1 then (d edge, edge) else state)
      (B, 0) = st at ih
    obtain ⟨hle, hcase⟩ := ih
    have hB : st.1 ≤ B := by
      rcases hcase with ⟨h, _⟩ | ⟨_, _, h, _⟩
      · rw [h]
      · exact le_of_lt h
    by_cases hlt : d n < st.1
    · rw [if_pos hlt]
      refine ⟨fun j hj => ?_, Or.inr ⟨Nat.lt_succ_self n, rfl, lt_of_lt_of_le hlt hB,
        fun j hj => lt_of_lt_of_le hlt (hle j hj)⟩⟩
      rcases Nat.lt_succ_iff_lt_or_eq.mp hj with h | h
      · exact le_of_lt (lt_of_lt_of_le hlt (hle j h))
      · rw [h]
    · rw [if_neg hlt]
      have hge : st.1 ≤ d n := not_lt.mp hlt
      refine ⟨fun j hj => ?_, ?_⟩
      · rcases Nat.lt_succ_iff_lt_or_eq.mp hj with h | h
        · exact hle j h
        · rw [h]; exact hge
      · rcases hcase with ⟨h, hall⟩ | ⟨h1, h2, h3, h4⟩
        · refine Or.inl ⟨h, fun j hj => ?_⟩
          rcases Nat.lt_succ_iff_lt_or_eq.mp hj with h' | h'
          · exact hall j h'
          · rw [h', ← show st.1 = B from by rw [h]]; exact hge
        · exact Or.inr ⟨Nat.lt_succ_of_lt h1, h2, h3, h4⟩

theorem sqrt_normSq_lt_iff (p : Point) :
    Real.sqrt ((p.normSq : ℤ) : ℝ) < 100000 ↔ ((p.normSq : ℤ) : ℚ) < 100000 * 100000 := by
  rw [Real.sqrt_lt' (by norm_num)]
  constructor
  · intro h
    have h' : ((p.normSq : ℤ) : ℝ) < ((100000 * 100000 : ℤ) : ℝ) := by
      push_cast; linarith
    have h'' : p.normSq < 100000 * 100000 := by exact_mod_cast h'
    exact_mod_cast h''
  · intro h
    have h'' : p.normSq < 100000 * 100000 := by exact_mod_cast h
    have h' : ((p.normSq : ℤ) : ℝ) < ((100000 * 100000 : ℤ) : ℝ) := by exact_mod_cast h''
    push_cast at h'
    linarith

theorem normSq_nonneg (p : Point) : 0 ≤ p.normSq := by
  unfold Point.normSq
  nlinarith [mul_self_nonneg p.x, mul_self_nonneg p.y]

theorem sqrt_normSq_le_iff (p q : Point) :
    Real.sqrt ((p.normSq : ℤ) : ℝ) ≤ Real.sqrt ((q.normSq : ℤ) : ℝ) ↔
      ((p.normSq : ℤ) : ℚ) ≤ ((q.normSq : ℤ) : ℚ) := by
  rw [Real.sqrt_le_sqrt_iff (by exact_mod_cast normSq_nonneg q)]
  constructor
  · intro h
    have h' : p.normSq ≤ q.normSq := by exact_mod_cast h
    exact_mod_cast h'
  · intro h
    have h' : p.normSq ≤ q.normSq := by exact_mod_cast h
    exact_mod_cast h'

theorem sqrt_normSq_lt_sqrt_iff (p q : Point) :
    Real.sqrt ((p.normSq : ℤ) : ℝ) < Real.sqrt ((q.normSq : ℤ) : ℝ) ↔
      ((p.normSq : ℤ) : ℚ) < ((q.normSq : ℤ) : ℚ) := by
  rw [Real.sqrt_lt_sqrt_iff (by exact_mod_cast normSq_nonneg p)]
  constructor
  · intro h
    have h' : p.normSq < q.normSq := by exact_mod_cast h
    exact_mod_cast h'
  · intro h
    have h' : p.normSq < q.normSq := by exact_mod_cast h
    exact_mod_cast h'

/-- C24: with `dist j` the Euclidean distance of node `j` to `starting_position`: when some
node of the list is closer than `1e5`, `start_index` is an index of the list, its node has
the least distance, and every node before it is strictly farther (ties go to the first
node); when no node is closer than `1e5`, `start_index` is 0. -/
theorem start_index_is_first_closest (edges : List Point) (starting_position : Point)
    (dist : Nat → ℝ)
    (hdist : ∀ j, dist j =
      Real.sqrt ((((edges.getD j ⟨0, 0⟩).sub starting_position).normSq : ℤ) : ℝ)) :
    ((∃ i, i < edges.length ∧ dist i < 100000) →
      findStartIndex edges starting_position < edges.length ∧
      (∀ j, j < edges.length → dist (findStartIndex edges starting_position) ≤ dist j) ∧
      (∀ j, j < findStartIndex edges starting_position →
        dist (findStartIndex edges starting_position) < dist j)) ∧
    ((¬ ∃ i, i < edges.length ∧ dist i < 100000) →
      findStartIndex edges starting_position = 0) := by
  obtain ⟨hle, hcase⟩ := foldl_first_min
    (fun edge => ((((edges.getD edge ⟨0, 0⟩).sub starting_position).normSq : ℤ) : ℚ))
    (100000 * 100000) edges.length
  have hfold : findStartIndex edges starting_position =
      ((List.range edges.length).foldl
        (fun (state : ℚ × Nat) edge =>
          if (fun edge => ((((edges.getD edge ⟨0, 0⟩).sub starting_position).normSq : ℤ) : ℚ))
              edge < state.1 then
            ((fun edge =>
              ((((edges.getD edge ⟨0, 0⟩).sub starting_position).normSq : ℤ) : ℚ)) edge, edge)
          else state)
        (100000 * 100000, 0)).2 := rfl
  rw [← hfold] at hcase
  constructor
  · rintro ⟨i, hi, hclose⟩
    rw [hdist, sqrt_normSq_lt_iff] at hclose
    rcases hcase with ⟨_, hall⟩ | ⟨h1, h2, _, h4⟩
    · exact absurd hclose (not_lt.mpr (hall i hi))
    · refine ⟨h1, fun j hj => ?_, fun j hj => ?_⟩
      · rw [hdist, hdist, sqrt_normSq_le_iff]
        have := hle j hj
        rw [h2] at this
        exact this
      · rw [hdist, hdist, sqrt_normSq_lt_sqrt_iff]
        have := h4 j hj
        rw [h2] at this
        exact this
  · intro hnone
    rcases hcase with ⟨h, _⟩ | ⟨h1, h2, h3, _⟩
    · rw [hfold, h]
    · exfalso
      apply hnone
      refine ⟨_, h1, ?_⟩
      rw [hdist, sqrt_normSq_lt_iff]
      rw [h2] at h3
      exact h3

theorem start_index_is_first_closest_witness :
    findStartIndex [⟨3, 4⟩, ⟨0, 2⟩, ⟨2, 0⟩, ⟨1, 0⟩, ⟨0, 1⟩] ⟨0, 0⟩ = 3 ∧
    ∀ j, j < 3 →
      Real.sqrt (((([⟨3, 4⟩, ⟨0, 2⟩, ⟨2, 0⟩, ⟨1, 0⟩, ⟨0, 1⟩] : List Point).getD 3 ⟨0, 0⟩).sub
          ⟨0, 0⟩).normSq : ℤ) <
        Real.sqrt (((([⟨3, 4⟩, ⟨0, 2⟩, ⟨2, 0⟩, ⟨1, 0⟩, ⟨0, 1⟩] : List Point).getD j ⟨0, 0⟩).sub
          ⟨0, 0⟩).normSq : ℤ) := by
  have h3 : findStartIndex [⟨3, 4⟩, ⟨0, 2⟩, ⟨2, 0⟩, ⟨1, 0⟩, ⟨0, 1⟩] ⟨0, 0⟩ = 3 := by decide!
  have h := (start_index_is_first_closest [⟨3, 4⟩, ⟨0, 2⟩, ⟨2, 0⟩, ⟨1, 0⟩, ⟨0, 1⟩] ⟨0, 0⟩
    (fun j => Real.sqrt (((([⟨3, 4⟩, ⟨0, 2⟩, ⟨2, 0⟩, ⟨1, 0⟩, ⟨0, 1⟩] : List Point).getD j
      ⟨0, 0⟩).sub ⟨0, 0⟩).normSq : ℤ)) (fun _ => rfl)).1
    ⟨0, by decide, by
      show Real.sqrt (((25 : ℤ) : ℝ)) < 100000
      rw [Real.sqrt_lt' (by norm_num)]
      norm_num⟩
  rw [h3] at h
  exact ⟨h3, h.2.2⟩

theorem threeStageColumns_length (cols : Nat) (weights : List ℚ)
    (flows_out_of_nodes : List (List Nat)) (start_arcs : List Nat) (W : Option (List ℚ)) :
    (threeStageColumns cols weights flows_out_of_nodes start_arcs W).length =
      start_arcs.length + cols + (flows_out_of_nodes.map List.length).sum := by
  unfold threeStageColumns finalArcs
  simp only [List.length_append, List.length_map, List.length_range, List.enum_length,
    List.length_flatten]

/-- C25: the three stage program has `S + A + F` variables, where `S = |start_arcs|`,
`A` is the number of columns of `V` and `F` the total length of the lists of
`flows_out_of_nodes`; each has the bounds 0 and 1; the underlying arc of variable `k` is
`start_arcs[k]` for `k < S`, the arc `k - S` for `S ≤ k < S + A`, and the entry `k - S - A`
of the concatenation of the lists of `flows_out_of_nodes` otherwise; its objective
coefficient is `weights[arc] * W[k]` when a relaxation vector is given and `weights[arc]`
otherwise. -/
theorem threeStage_variable_layout (V : Mat) (weights : List ℚ)
    (flows_into_nodes flows_out_of_nodes : List (List Nat)) (start_arcs : List Nat)
    (W : Option (List ℚ)) :
    (threeStageProblem V weights flows_into_nodes flows_out_of_nodes start_arcs W).columns.length =
      start_arcs.length + V.cols + (flows_out_of_nodes.map List.length).sum ∧
    ∀ k, k < start_arcs.length + V.cols + (flows_out_of_nodes.map List.length).sum →
      ∃ c, (threeStageProblem V weights flows_into_nodes flows_out_of_nodes start_arcs
          W).columns[k]? = some c ∧
        c.lower = 0 ∧ c.upper = 1 ∧
        c.arc =
          (if k < start_arcs.length then start_arcs.getD k 0
          else if k < start_arcs.length + V.cols then k - start_arcs.length
          else flows_out_of_nodes.flatten.getD (k - start_arcs.length - V.cols) 0) ∧
        c.obj =
          match W with
          | some w => weights.getD c.arc 0 * w.getD k 0
          | none => weights.getD c.arc 0 := by
  refine ⟨threeStageColumns_length _ _ _ _ _, fun k hk => ?_⟩
  show ∃ c, (threeStageColumns V.cols weights flows_out_of_nodes start_arcs W)[k]? = some c ∧ _
  have hobj : ∀ arc stage,
      (newColumn W weights k arc stage).obj =
        match W with
        | some w => weights.getD arc 0 * w.getD k 0
        | none => weights.getD arc 0 := by
    intro arc stage
    unfold newColumn
    cases W with
    | none => rfl
    | some w => exact mul_comm _ _
  by_cases h1 : k < start_arcs.length
  · refine ⟨newColumn W weights k (start_arcs.getD k 0) 0,
      (threeStageColumns_getElem?_iff _ _ _ _ _ _ _).mpr (Or.inl ⟨h1, rfl⟩), rfl, rfl, ?_, ?_⟩
    · rw [if_pos h1]; rfl
    · exact hobj _ _
  · by_cases h2 : k < start_arcs.length + V.cols
    · refine ⟨newColumn W weights k (k - start_arcs.length) 1,
        (threeStageColumns_getElem?_iff _ _ _ _ _ _ _).mpr
          (Or.inr (Or.inl ⟨k - start_arcs.length, by omega, by omega, rfl⟩)), rfl, rfl, ?_, ?_⟩
      · rw [if_neg h1, if_pos h2]; rfl
      · exact hobj _ _
    · have hF : k - start_arcs.length - V.cols < (finalArcs flows_out_of_nodes).length := by
        unfold finalArcs
        rw [List.length_flatten]
        omega
      refine ⟨newColumn W weights k
          ((finalArcs flows_out_of_nodes).getD (k - start_arcs.length - V.cols) 0) 2,
        (threeStageColumns_getElem?_iff _ _ _ _ _ _ _).mpr
          (Or.inr (Or.inr ⟨k - start_arcs.length - V.cols, _, ?_, by omega, rfl⟩)),
        rfl, rfl, ?_, ?_⟩
      · rw [List.getD_eq_getElem?_getD, List.getElem?_eq_getElem hF]
        rfl
      · rw [if_neg h1, if_neg h2]; rfl
      · exact hobj _ _

theorem threeStage_variable_layout_witness :
    (threeStageProblem ⟨1, 2, [[1, 1]]⟩ [3, 5] [[0], [1]] [[1], [0]] [1]
      (some [1, 1, 1, 1, 1])).columns.length = 5 ∧
    ∃ c, (threeStageProblem ⟨1, 2, [[1, 1]]⟩ [3, 5] [[0], [1]] [[1], [0]] [1]
        (some [1, 1, 1, 1, 1])).columns[4]? = some c ∧
      c.lower = 0 ∧ c.upper = 1 ∧ c.arc = 0 := by
  obtain ⟨hlen, hcol⟩ := threeStage_variable_layout ⟨1, 2, [[1, 1]]⟩ [3, 5] [[0], [1]]
    [[1], [0]] [1] (some [1, 1, 1, 1, 1])
  obtain ⟨c, h1, h2, h3, h4, _⟩ := hcol 4 (by decide)
  exact ⟨hlen, c, h1, h2, h3, by rw [h4]; decide⟩

/-- C26: the sweep reads rows outside the map although the rectangle lies inside it.  On
`wallMap` (2 rows), rectangle `(0,0)-(0,1)`, coverage radius 1, the boundary test of scan
line 1 reads row 2.  On `pillarMap` (3 rows), rectangle `(0,0)-(0,2)`, coverage radius 2,
the look-ahead of scan line 2 reads row 4 before the test `y+coverage_int<room_map.rows`. -/
theorem sweep_reads_rows_outside_map :
    (wallMap.rows = 2 ∧ sweepRows 10 wallMap [⟨0, 0⟩, ⟨0, 1⟩] 1 = some [1, 0, 2] ∧
      sweepStepRows wallMap 1 1 0 = [1, 0, 2]) ∧
    (pillarMap.rows = 3 ∧ sweepRows 10 pillarMap [⟨0, 0⟩, ⟨0, 2⟩] 2 = some [2, 1, 0, 4] ∧
      sweepStepRows pillarMap 2 2 0 = [2, 1, 0, 4]) ∧
    ¬ ∀ rows, sweepRows 10 wallMap [⟨0, 0⟩, ⟨0, 1⟩] 1 = some rows →
      ∀ row ∈ rows, 0 ≤ row ∧ row < wallMap.rows := by
  have h1 : sweepRows 10 wallMap [⟨0, 0⟩, ⟨0, 1⟩] 1 = some [1, 0, 2] := by decide!
  have h2 : sweepRows 10 pillarMap [⟨0, 0⟩, ⟨0, 2⟩] 2 = some [2, 1, 0, 4] := by decide!
  refine ⟨⟨rfl, h1, by decide⟩, ⟨rfl, h2, by decide⟩, fun hall => ?_⟩
  have := (hall _ h1 2 (by simp)).2
  exact absurd this (by decide)

theorem filter_range_getD_length {α : Type} (l : List α) (d : α) (P : α → Bool) :
    ((List.range l.length).filter fun i => P (l.getD i d)).length = l.countP P := by
  have h : l = (List.range l.length).map fun i => l.getD i d := by
    apply List.ext_getElem
    · simp
    · intro n h1 h2
      simp [List.getElem?_eq_getElem h1]
  conv_rhs => rw [h]
  rw [List.countP_map, List.countP_eq_length_filter]
  rfl

theorem flowsIntoNodes_lengths (edges : List Point) (arcs : List arcStruct) :
    (flowsIntoNodes edges arcs).map List.length =
      edges.map fun edge => arcs.countP fun a => decide (a.start_point = edge) := by
  unfold flowsIntoNodes
  rw [List.map_map]
  apply List.map_congr_left
  intro edge _
  exact filter_range_getD_length arcs (freshArc 0) fun a => decide (a.start_point = edge)

theorem flowsOutOfNodes_lengths (edges : List Point) (arcs : List arcStruct) :
    (flowsOutOfNodes edges arcs).map List.length =
      edges.map fun edge =>
        arcs.countP fun a => decide (¬ a.start_point = edge ∧ a.end_point = edge) := by
  unfold flowsOutOfNodes
  rw [List.map_map]
  apply List.map_congr_left
  intro edge _
  exact filter_range_getD_length arcs (freshArc 0)
    fun a => decide (¬ a.start_point = edge ∧ a.end_point = edge)

/-- In a list of forward/backward pairs, at most as many arcs end at a point without
starting there as arcs start at it; the two numbers agree when no arc joins a point to
itself. -/
theorem pairedArcs_count : ∀ (l : List arcStruct), PairedArcs l → ∀ edge : Point,
    (l.countP fun a => decide (¬ a.start_point = edge ∧ a.end_point = edge)) ≤
      (l.countP fun a => decide (a.start_point = edge)) ∧
    ((∀ a ∈ l, a.start_point ≠ a.end_point) →
      (l.countP fun a => decide (¬ a.start_point = edge ∧ a.end_point = edge)) =
        l.countP fun a => decide (a.start_point = edge))
  | [], _, _ => ⟨Nat.le_refl _, fun _ => rfl⟩
  | [_], h, _ => absurd h (by simp [PairedArcs])
  | a :: b :: t, h, edge => by
    simp only [PairedArcs] at h
    obtain ⟨ih₁, ih₂⟩ := pairedArcs_count t h.2.2.2 edge
    simp only [List.countP_cons, h.1, h.2.1, decide_eq_true_eq]
    constructor
    · by_cases hs : a.start_point = edge <;> by_cases he : a.end_point = edge <;>
        simp only [hs, he, not_true_eq_false, not_false_eq_true, and_self, and_true, and_false,
          false_and, if_true, if_false] <;> omega
    · intro hne
      have hab : a.start_point ≠ a.end_point := hne a (by simp)
      have ih := ih₂ fun c hc => hne c (by simp [hc])
      by_cases hs : a.start_point = edge <;> by_cases he : a.end_point = edge <;>
        simp only [hs, he, not_true_eq_false, not_false_eq_true, and_self, and_true, and_false,
          false_and, if_true, if_false] <;> first | omega | (exact absurd (hs.trans he.symm) hab)

theorem createArcs_start_ne_end (edges : List Point) (distance_matrix : DistanceMatrix)
    (max_distance : ℚ) (planPath : Point → Point → List Point) (unset : Nat → Nat → ℚ)
    (hnodup : edges.Nodup) (hrows : distance_matrix.rows ≤ edges.length)
    (hcols : distance_matrix.cols ≤ edges.length) :
    ∀ a ∈ createArcs edges distance_matrix max_distance planPath unset,
      a.start_point ≠ a.end_point ∧ a.start_point ∈ edges ∧ a.end_point ∈ edges := by
  intro a ha
  obtain ⟨start, end_, hs, he, hmem⟩ := (mem_createArcs _ _ _ _ _ a).mp ha
  rw [arcsOfPair_eq] at hmem
  split_ifs at hmem with hadm
  · have hs' : start < edges.length := by omega
    have he' : end_ < edges.length := by omega
    have hne : edges.getD start ⟨0, 0⟩ ≠ edges.getD end_ ⟨0, 0⟩ := by
      rw [List.getD_eq_getElem _ _ hs', List.getD_eq_getElem _ _ he']
      intro heq
      have := (hnodup.getElem_inj_iff).mp heq
      omega
    have hms : edges.getD start ⟨0, 0⟩ ∈ edges := by
      rw [List.getD_eq_getElem _ _ hs']; exact List.getElem_mem _
    have hme : edges.getD end_ ⟨0, 0⟩ ∈ edges := by
      rw [List.getD_eq_getElem _ _ he']; exact List.getElem_mem _
    simp only [List.mem_cons, List.mem_singleton, List.not_mem_nil, or_false] at hmem
    rcases hmem with rfl | rfl
    · exact ⟨hne, hms, hme⟩
    · exact ⟨hne.symm, hme, hms⟩
  · simp at hmem

theorem retrieveSolution_length (C result : List ℚ) (number_of_variables : Nat) :
    (retrieveSolution C result number_of_variables).length = C.length := by
  unfold retrieveSolution
  rw [List.length_map, List.length_range]

theorem sum_map_le_sum_map {α : Type} (l : List α) (f g : α → Nat)
    (h : ∀ a ∈ l, f a ≤ g a) : (l.map f).sum ≤ (l.map g).sum := by
  induction l with
  | nil => exact Nat.le_refl _
  | cons a t ih =>
    simp only [List.map_cons, List.sum_cons]
    have h1 := h a (List.mem_cons_self a t)
    have h2 := ih fun b hb => h b (List.mem_cons_of_mem a hb)
    omega

/-- C27: for a list of forward/backward arc pairs and any node list, duplicates included,
the total length of the lists of `flows_out_of_nodes` is at most `number_of_outflows`, the
total length of the lists of `flows_into_nodes`.  The two agree when no arc joins a point to
itself, which is so for the arcs created over pairwise distinct node points.  Hence
`C_small`, of length `|start_arcs| + |arcs| + number_of_outflows`, has at least as many
entries as the three stage program has variables, and the copy of the solver result leaves
its length unchanged. -/
theorem outflow_count_bounds_variables (edges : List Point) (arcs : List arcStruct)
    (hp : PairedArcs arcs) :
    ((flowsOutOfNodes edges arcs).map List.length).sum ≤ numberOfOutflows edges arcs ∧
    ((∀ a ∈ arcs, a.start_point ≠ a.end_point) →
      ((flowsOutOfNodes edges arcs).map List.length).sum = numberOfOutflows edges arcs) ∧
    (∀ (distance_matrix : DistanceMatrix) (max_distance : ℚ)
        (planPath : Point → Point → List Point) (unset : Nat → Nat → ℚ),
      arcs = createArcs edges distance_matrix max_distance planPath unset →
      edges.Nodup → distance_matrix.rows ≤ edges.length →
      distance_matrix.cols ≤ edges.length →
      ((flowsOutOfNodes edges arcs).map List.length).sum = numberOfOutflows edges arcs) ∧
    (∀ (cell_centers : List Point) (coverage_radius : ℚ) (weights : List ℚ)
        (start_index : Nat) (W : Option (List ℚ)) (solver : Problem → List ℚ),
      (threeStageProblem (visibilityMatrix cell_centers arcs coverage_radius) weights
          (flowsIntoNodes edges arcs) (flowsOutOfNodes edges arcs)
          ((flowsOutOfNodes edges arcs).getD start_index []) W).columns.length ≤
        (initialLoopState (((flowsOutOfNodes edges arcs).getD start_index []).length +
          arcs.length + numberOfOutflows edges arcs)).C_small.length ∧
      (solveThreeStageOptimizationProblem solver
          (initialLoopState (((flowsOutOfNodes edges arcs).getD start_index []).length +
            arcs.length + numberOfOutflows edges arcs)).C_small
          (visibilityMatrix cell_centers arcs coverage_radius) weights
          (flowsIntoNodes edges arcs) (flowsOutOfNodes edges arcs)
          ((flowsOutOfNodes edges arcs).getD start_index []) W).length =
        (initialLoopState (((flowsOutOfNodes edges arcs).getD start_index []).length +
          arcs.length + numberOfOutflows edges arcs)).C_small.length) := by
  have hle : ((flowsOutOfNodes edges arcs).map List.length).sum ≤
      numberOfOutflows edges arcs := by
    unfold numberOfOutflows
    rw [flowsOutOfNodes_lengths, flowsIntoNodes_lengths]
    exact sum_map_le_sum_map _ _ _ fun edge _ => (pairedArcs_count arcs hp edge).1
  have heq : (∀ a ∈ arcs, a.start_point ≠ a.end_point) →
      ((flowsOutOfNodes edges arcs).map List.length).sum = numberOfOutflows edges arcs := by
    intro hne
    unfold numberOfOutflows
    rw [flowsOutOfNodes_lengths, flowsIntoNodes_lengths]
    congr 1
    apply List.map_congr_left
    intro edge _
    exact (pairedArcs_count arcs hp edge).2 hne
  refine ⟨hle, heq, ?_, ?_⟩
  · intro distance_matrix max_distance planPath unset harcs hnodup hrows hcols
    apply heq
    intro a ha
    rw [harcs] at ha
    exact (createArcs_start_ne_end edges distance_matrix max_distance planPath unset hnodup
      hrows hcols a ha).1
  · intro cell_centers coverage_radius weights start_index W solver
    constructor
    · show (threeStageColumns _ _ _ _ _).length ≤ _
      rw [threeStageColumns_length]
      simp only [initialLoopState, List.length_replicate]
      have hV : (visibilityMatrix cell_centers arcs coverage_radius).cols = arcs.length := rfl
      rw [hV]
      omega
    · unfold solveThreeStageOptimizationProblem
      exact retrieveSolution_length _ _ _

theorem outflow_count_bounds_variables_witness :
    ((flowsOutOfNodes [⟨0, 2⟩, ⟨0, 2⟩]
        (createArcs [⟨0, 2⟩, ⟨0, 2⟩] ⟨2, 2, [[0, 0], [0, 0]]⟩ 3 (fun p q => [p, q])
          fun _ _ => 0)).map List.length).sum ≤
      numberOfOutflows [⟨0, 2⟩, ⟨0, 2⟩]
        (createArcs [⟨0, 2⟩, ⟨0, 2⟩] ⟨2, 2, [[0, 0], [0, 0]]⟩ 3 (fun p q => [p, q])
          fun _ _ => 0) ∧
    ((flowsOutOfNodes [⟨0, 2⟩, ⟨0, 2⟩]
        (createArcs [⟨0, 2⟩, ⟨0, 2⟩] ⟨2, 2, [[0, 0], [0, 0]]⟩ 3 (fun p q => [p, q])
          fun _ _ => 0)).map List.length).sum = 0 ∧
    numberOfOutflows [⟨0, 2⟩, ⟨0, 2⟩]
        (createArcs [⟨0, 2⟩, ⟨0, 2⟩] ⟨2, 2, [[0, 0], [0, 0]]⟩ 3 (fun p q => [p, q])
          fun _ _ => 0) = 4 :=
  ⟨(outflow_count_bounds_variables [⟨0, 2⟩, ⟨0, 2⟩]
      (createArcs [⟨0, 2⟩, ⟨0, 2⟩] ⟨2, 2, [[0, 0], [0, 0]]⟩ 3 (fun p q => [p, q])
        fun _ _ => 0)
      (pairedArcs_createArcs _ _ _ _ _)).1, by decide!, by decide!⟩

theorem sum_indicator_of_nodup {α : Type} [DecidableEq α] (l : List α) (p : α)
    (hnodup : l.Nodup) (hp : p ∈ l) :
    (l.map fun e => if p = e then 1 else 0).sum = 1 := by
  induction l with
  | nil => simp at hp
  | cons a t ih =>
    rw [List.nodup_cons] at hnodup
    simp only [List.map_cons, List.sum_cons]
    by_cases hpa : p = a
    · have hzero : (t.map fun e => if p = e then 1 else 0).sum = 0 := by
        apply List.sum_eq_zero
        intro x hx
        obtain ⟨e, he, rfl⟩ := List.mem_map.mp hx
        rw [if_neg]
        intro hpe
        exact hnodup.1 (by rw [← hpa, hpe]; exact he)
      rw [if_pos hpa, hzero]
    · rw [if_neg hpa, Nat.zero_add]
      exact ih hnodup.2 (by
        rcases List.mem_cons.mp hp with h | h
        · exact absurd h hpa
        · exact h)

/-- Over pairwise distinct node points every arc that joins two different points and ends
at a node is in exactly one list of `flows_out_of_nodes`: the lists hold as many entries as
there are arcs. -/
theorem total_outflows_eq_arcs (edges : List Point) (arcs : List arcStruct)
    (hnodup : edges.Nodup)
    (h : ∀ a ∈ arcs, a.end_point ∈ edges ∧ a.start_point ≠ a.end_point) :
    ((flowsOutOfNodes edges arcs).map List.length).sum = arcs.length := by
  rw [flowsOutOfNodes_lengths]
  induction arcs with
  | nil =>
    apply List.sum_eq_zero
    intro x hx
    obtain ⟨e, _, rfl⟩ := List.mem_map.mp hx
    rfl
  | cons a t ih =>
    have ha := h a (List.mem_cons_self a t)
    have ht := ih fun b hb => h b (List.mem_cons_of_mem a hb)
    simp only [List.countP_cons, decide_eq_true_eq]
    have hmap : (edges.map fun e => if ¬ a.start_point = e ∧ a.end_point = e then 1 else 0) =
        edges.map fun e => if a.end_point = e then 1 else 0 := by
      apply List.map_congr_left
      intro e _
      by_cases he : a.end_point = e
      · rw [if_pos he, if_pos ⟨fun hs => ha.2 (hs.trans he.symm), he⟩]
      · rw [if_neg he, if_neg fun hc => he hc.2]
    rw [List.sum_map_add, ht, List.length_cons, hmap,
      sum_indicator_of_nodup edges a.end_point hnodup ha.1]

theorem mem_flowsIntoNodes_lt (edges : List Point) (arcs : List arcStruct) (n a : Nat)
    (ha : a ∈ (flowsIntoNodes edges arcs).getD n []) : a < arcs.length := by
  unfold flowsIntoNodes at ha
  rw [List.getD_eq_getElem?_getD, List.getElem?_map] at ha
  cases hn : edges[n]? with
  | none => rw [hn] at ha; simp at ha
  | some e =>
    rw [hn] at ha
    simp only [Option.map_some', Option.getD_some, List.mem_filter, List.mem_range] at ha
    exact ha.1

theorem mem_flowsOutOfNodes_lt (edges : List Point) (arcs : List arcStruct) (n a : Nat)
    (ha : a ∈ (flowsOutOfNodes edges arcs).getD n []) : a < arcs.length := by
  unfold flowsOutOfNodes at ha
  rw [List.getD_eq_getElem?_getD, List.getElem?_map] at ha
  cases hn : edges[n]? with
  | none => rw [hn] at ha; simp at ha
  | some e =>
    rw [hn] at ha
    simp only [Option.map_some', Option.getD_some, List.mem_filter, List.mem_range] at ha
    exact ha.1

/-- C28: when the node points are pairwise distinct, every arc joins two different node
points, the adjacency lists are built from these nodes and arcs, and `V` has one column per
arc, every variable index of every row of the three stage program (coverage, start, flow
and final rows) is below the number of variables `S + A + F`.  This holds for any
`start_arcs`, in particular for a list of `flows_out_of_nodes`. -/
theorem threeStage_row_indices_in_range (edges : List Point) (arcs : List arcStruct)
    (V : Mat) (weights : List ℚ) (start_arcs : List Nat) (W : Option (List ℚ))
    (hnodup : edges.Nodup)
    (hover : ∀ a ∈ arcs,
      a.start_point ∈ edges ∧ a.end_point ∈ edges ∧ a.start_point ≠ a.end_point)
    (hV : V.cols = arcs.length) :
    (threeStageProblem V weights (flowsIntoNodes edges arcs) (flowsOutOfNodes edges arcs)
        start_arcs W).columns.length =
      start_arcs.length + V.cols + ((flowsOutOfNodes edges arcs).map List.length).sum ∧
    ∀ row ∈ (threeStageProblem V weights (flowsIntoNodes edges arcs)
        (flowsOutOfNodes edges arcs) start_arcs W).rows,
      ∀ t ∈ row.terms,
        t.1 < (threeStageProblem V weights (flowsIntoNodes edges arcs)
          (flowsOutOfNodes edges arcs) start_arcs W).columns.length := by
  have hF : ((flowsOutOfNodes edges arcs).map List.length).sum = arcs.length :=
    total_outflows_eq_arcs edges arcs hnodup fun a ha => ⟨(hover a ha).2.1, (hover a ha).2.2⟩
  have hlen : (threeStageProblem V weights (flowsIntoNodes edges arcs)
      (flowsOutOfNodes edges arcs) start_arcs W).columns.length =
      start_arcs.length + V.cols + ((flowsOutOfNodes edges arcs).map List.length).sum :=
    threeStageColumns_length _ _ _ _ _
  have hfinal : (finalArcs (flowsOutOfNodes edges arcs)).length = arcs.length := by
    unfold finalArcs
    rw [List.length_flatten, hF]
  refine ⟨hlen, fun row hrow t ht => ?_⟩
  rw [hlen, hF, hV]
  unfold threeStageProblem at hrow
  simp only [List.mem_append, List.mem_filterMap, List.mem_singleton, List.mem_map,
    List.mem_range] at hrow
  rcases hrow with ((⟨r, _, hr⟩ | rfl) | ⟨node, _, rfl⟩) | rfl
  · unfold threeStageCoverageRow coverageRow at hr
    split_ifs at hr
    simp only [Option.some.injEq] at hr
    subst hr
    obtain ⟨k, hk, rfl⟩ := List.mem_map.mp ht
    rcases (mem_threeStageCoverageIndices _ _ _ _ _).mp hk with h | ⟨v, hv, rfl, _⟩ |
      ⟨j, a, hj, rfl, _⟩
    · exact Nat.lt_of_lt_of_le h.1 (by omega)
    · show v + start_arcs.length < _
      omega
    · have hj' : j < (finalArcs (flowsOutOfNodes edges arcs)).length := by
        rcases Nat.lt_or_ge j (finalArcs (flowsOutOfNodes edges arcs)).length with h | h
        · exact h
        · rw [List.getElem?_eq_none h] at hj
          exact Option.noConfusion hj
      show j + start_arcs.length + V.cols < _
      omega
  · unfold threeStageStartRow cardinalityRow at ht
    obtain ⟨k, hk, rfl⟩ := List.mem_map.mp ht
    have := List.mem_range.mp hk
    show k < _
    omega
  · unfold threeStageFlowRow at ht
    simp only [List.mem_append, List.mem_flatMap, List.mem_cons, List.mem_singleton,
      List.not_mem_nil, or_false] at ht
    rcases ht with ⟨inflow, hin, h | h⟩ | ⟨outflow, hout, h | h⟩
    · split_ifs at h with hc
      · simp only [List.mem_singleton] at h
        subst h
        have hmem : inflow ∈ start_arcs := by
          unfold contains at hc
          simpa using hc
        have := List.indexOf_lt_length.mpr hmem
        show start_arcs.indexOf inflow < _
        omega
      · simp at h
    · subst h
      have := mem_flowsIntoNodes_lt edges arcs node inflow hin
      show inflow + start_arcs.length < _
      omega
    · subst h
      have := mem_flowsOutOfNodes_lt edges arcs node outflow hout
      show outflow + start_arcs.length < _
      omega
    · subst h
      have := mem_flowsOutOfNodes_lt edges arcs node outflow hout
      show outflow + start_arcs.length + V.cols < _
      omega
  · unfold threeStageFinalRow cardinalityRow at ht
    simp only [List.mem_map, List.mem_range] at ht
    obtain ⟨k, ⟨j, hj, rfl⟩, rfl⟩ := ht
    show j + start_arcs.length + V.cols < _
    omega

theorem threeStage_row_indices_in_range_witness :
    (threeStageProblem ⟨1, 2, [[1, 1]]⟩ [2, 2]
        (flowsIntoNodes [⟨0, 0⟩, ⟨2, 0⟩] [⟨⟨0, 0⟩, ⟨2, 0⟩, 2, []⟩, ⟨⟨2, 0⟩, ⟨0, 0⟩, 2, []⟩])
        (flowsOutOfNodes [⟨0, 0⟩, ⟨2, 0⟩] [⟨⟨0, 0⟩, ⟨2, 0⟩, 2, []⟩, ⟨⟨2, 0⟩, ⟨0, 0⟩, 2, []⟩])
        [1] none).columns.length = 5 ∧
    ∀ row ∈ (threeStageProblem ⟨1, 2, [[1, 1]]⟩ [2, 2]
        (flowsIntoNodes [⟨0, 0⟩, ⟨2, 0⟩] [⟨⟨0, 0⟩, ⟨2, 0⟩, 2, []⟩, ⟨⟨2, 0⟩, ⟨0, 0⟩, 2, []⟩])
        (flowsOutOfNodes [⟨0, 0⟩, ⟨2, 0⟩] [⟨⟨0, 0⟩, ⟨2, 0⟩, 2, []⟩, ⟨⟨2, 0⟩, ⟨0, 0⟩, 2, []⟩])
        [1] none).rows,
      ∀ t ∈ row.terms, t.1 < 5 := by
  obtain ⟨hlen, hrows⟩ := threeStage_row_indices_in_range [⟨0, 0⟩, ⟨2, 0⟩]
    [⟨⟨0, 0⟩, ⟨2, 0⟩, 2, []⟩, ⟨⟨2, 0⟩, ⟨0, 0⟩, 2, []⟩] ⟨1, 2, [[1, 1]]⟩ [2, 2] [1] none
    (by decide) (by decide) rfl
  have h5 : (threeStageProblem ⟨1, 2, [[1, 1]]⟩ [2, 2]
      (flowsIntoNodes [⟨0, 0⟩, ⟨2, 0⟩] [⟨⟨0, 0⟩, ⟨2, 0⟩, 2, []⟩, ⟨⟨2, 0⟩, ⟨0, 0⟩, 2, []⟩])
      (flowsOutOfNodes [⟨0, 0⟩, ⟨2, 0⟩] [⟨⟨0, 0⟩, ⟨2, 0⟩, 2, []⟩, ⟨⟨2, 0⟩, ⟨0, 0⟩, 2, []⟩])
      [1] none).columns.length = 5 := by
    rw [hlen]; decide
  refine ⟨h5, fun row hrow t ht => ?_⟩
  have := hrows row hrow t ht
  rw [h5] at this
  exact this

theorem terminalCondition_true (sparsity_measures : List Nat) (sparsity_check_range : Int)
    (sparsity_converged : Bool)
    (h : terminalCondition sparsity_measures sparsity_check_range sparsity_converged = true) :
    sparsity_converged = true ∨ size_t sparsity_check_range ≤ sparsity_measures.length := by
  unfold terminalCondition at h
  by_cases hs : size_t sparsity_check_range ≤ sparsity_measures.length
  · exact Or.inr hs
  · rw [if_neg hs] at h
    exact Or.inl h

/-- The loop keeps one sparsity measure per pass, and it declares convergence only when at
least `sparsity_check_range` measures are recorded; it ends converged or after pass 51. -/
theorem reweightingLoop_invariant (solve : Nat → List ℚ → List ℚ → List ℚ)
    (euler_constant : ℚ) (sparsity_check_range : Int)
    (h1 : 1 ≤ sparsity_check_range) (h2 : sparsity_check_range < 2147483648) :
    ∀ (fuel : Nat) (s s' : LoopState),
      s.sparsity_measures.length = s.number_of_iterations →
      (s.sparsity_converged = true → sparsity_check_range ≤ s.number_of_iterations) →
      reweightingLoop solve euler_constant sparsity_check_range fuel s = some s' →
      s'.sparsity_measures.length = s'.number_of_iterations ∧
      (s'.sparsity_converged = true → sparsity_check_range ≤ s'.number_of_iterations) ∧
      (s'.sparsity_converged = true ∨ 50 < s'.number_of_iterations) := by
  intro fuel
  induction fuel with
  | zero => intro s s' _ _ h; simp [reweightingLoop] at h
  | succ fuel ih =>
    intro s s' hlen hconv h
    have hlen' : (loopBody solve euler_constant sparsity_check_range s).sparsity_measures.length =
        (loopBody solve euler_constant sparsity_check_range s).number_of_iterations := by
      simp only [loopBody, List.length_append, List.length_singleton, hlen]
    have hconv' : (loopBody solve euler_constant sparsity_check_range s).sparsity_converged =
        true → sparsity_check_range ≤
          (loopBody solve euler_constant sparsity_check_range s).number_of_iterations := by
      intro hc
      have hit : (loopBody solve euler_constant sparsity_check_range s).number_of_iterations =
          s.number_of_iterations + 1 := rfl
      rcases terminalCondition_true _ _ _ hc with hprev | hsize
      · have := hconv hprev
        rw [hit]; push_cast; omega
      · rw [size_t_of_nonneg _ (by omega) h2] at hsize
        have hl : (s.sparsity_measures ++
            [sparsityMeasure (solve (s.number_of_iterations + 1) s.C_small s.W_small)]).length =
            s.number_of_iterations + 1 := by
          rw [List.length_append, List.length_singleton, hlen]
        rw [hl] at hsize
        rw [hit]; push_cast; omega
    unfold reweightingLoop at h
    dsimp only at h
    by_cases hgo : (loopBody solve euler_constant sparsity_check_range s).sparsity_converged =
        false ∧ (loopBody solve euler_constant sparsity_check_range s).number_of_iterations ≤ 50
    · rw [if_pos hgo] at h
      exact ih _ s' hlen' hconv' h
    · rw [if_neg hgo] at h
      have hs' : s' = loopBody solve euler_constant sparsity_check_range s :=
        (Option.some.inj h).symm
      subst hs'
      refine ⟨hlen', hconv', ?_⟩
      by_cases hc : (loopBody solve euler_constant sparsity_check_range s).sparsity_converged =
          true
      · exact Or.inl hc
      · right
        have hf : (loopBody solve euler_constant sparsity_check_range s).sparsity_converged =
            false := by simpa using hc
        by_contra hle
        exact hgo ⟨hf, by omega⟩

/-- C29: for `1 ≤ sparsity_check_range` (an `int`) and any solver results the loop returns,
given fuel for 51 passes; it records one sparsity measure per solve; convergence is declared
only when at least `sparsity_check_range` measures are recorded, so the number of solves is
at least `min(sparsity_check_range, 51)`; and for `sparsity_check_range = 1` the loop stops,
converged, after exactly one solve. -/
theorem reweighting_iterations_lower_bound (solve : Nat → List ℚ → List ℚ → List ℚ)
    (euler_constant : ℚ) (sparsity_check_range : Int) (fuel number_of_variables : Nat)
    (h1 : 1 ≤ sparsity_check_range) (h2 : sparsity_check_range < 2147483648)
    (hfuel : 51 ≤ fuel) :
    ∃ s', reweightingLoop solve euler_constant sparsity_check_range fuel
        (initialLoopState number_of_variables) = some s' ∧
      s'.sparsity_measures.length = s'.number_of_iterations ∧
      (s'.sparsity_converged = true → sparsity_check_range ≤ s'.number_of_iterations) ∧
      min sparsity_check_range 51 ≤ (s'.number_of_iterations : Int) ∧
      (sparsity_check_range = 1 →
        s'.number_of_iterations = 1 ∧ s'.sparsity_converged = true) := by
  obtain ⟨s', hs', _, _⟩ := reweightingLoop_returns solve euler_constant sparsity_check_range
    fuel (initialLoopState number_of_variables) (by simp only [initialLoopState]; omega)
    (by simp only [initialLoopState]; omega)
  obtain ⟨hlen, hconv, hend⟩ := reweightingLoop_invariant solve euler_constant
    sparsity_check_range h1 h2 fuel (initialLoopState number_of_variables) s' rfl
    (fun h => absurd h (by simp [initialLoopState])) hs'
  refine ⟨s', hs', hlen, hconv, ?_, ?_⟩
  · rcases hend with h | h
    · exact le_trans (min_le_left _ _) (hconv h)
    · exact le_trans (min_le_right _ _) (by omega)
  · intro hr
    subst hr
    obtain ⟨fuel', rfl⟩ : ∃ k, fuel = k + 1 := ⟨fuel - 1, by omega⟩
    have hfirst : (loopBody solve euler_constant 1
        (initialLoopState number_of_variables)).sparsity_converged = true := by
      simp only [loopBody, initialLoopState, List.nil_append]
      rw [terminalCondition_iff _ _ h1 h2]
      simp
    unfold reweightingLoop at hs'
    dsimp only at hs'
    rw [if_neg (by rw [hfirst]; simp)] at hs'
    have hs : s' = loopBody solve euler_constant 1 (initialLoopState number_of_variables) :=
      (Option.some.inj hs').symm
    subst hs
    exact ⟨rfl, hfirst⟩

theorem reweighting_iterations_lower_bound_witness :
    ∃ s', reweightingLoop eversparserSolve (2718281828 / 1000000000) 60 100
        (initialLoopState 60) = some s' ∧
      s'.sparsity_measures.length = s'.number_of_iterations ∧
      min (60 : Int) 51 ≤ (s'.number_of_iterations : Int) := by
  obtain ⟨s', hs', hlen, _, hmin, _⟩ := reweighting_iterations_lower_bound eversparserSolve
    (2718281828 / 1000000000) 60 100 60 (by decide) (by decide) (by decide)
  exact ⟨s', hs', hlen, hmin⟩

/-- A loop does not return from an index at which the body always returns and leaves the
loop variable, after the increment, where it was. -/
theorem forLoop_stuck {σ : Type} (cond : Nat → Bool) (body : Nat → σ → Option (Nat × σ))
    (incr : Nat → Nat) (b : Nat) (hcond : cond b = true)
    (hbody : ∀ s, body b s = none ∨ ∃ i' s', body b s = some (i', s') ∧ incr i' = b) :
    ∀ (fuel : Nat) (s : σ), forLoop cond body incr fuel b s = none := by
  intro fuel
  induction fuel with
  | zero => intro s; rfl
  | succ fuel ih =>
    intro s
    unfold forLoop
    rw [if_pos hcond]
    rcases hbody s with h | ⟨i', s', h, hi⟩
    · rw [h]
    · rw [h]
      show forLoop cond body incr fuel (incr i') s' = none
      rw [hi]
      exact ih s'

/-- A loop does not return when it cannot get past an index `b` from which it does not
return: up to `b` the condition holds and every pass moves the loop variable by one or not
at all, or does not return itself. -/
theorem forLoop_diverges {σ : Type} (cond : Nat → Bool) (body : Nat → σ → Option (Nat × σ))
    (incr : Nat → Nat) (b : Nat)
    (hb : ∀ (fuel : Nat) (s : σ), forLoop cond body incr fuel b s = none) :
    ∀ (d a : Nat), a + d = b →
      (∀ i, a ≤ i → i < b → cond i = true ∧
        ∀ s, body i s = none ∨
          ∃ i' s', body i s = some (i', s') ∧ (incr i' = i + 1 ∨ incr i' = i)) →
      ∀ (fuel : Nat) (s : σ), forLoop cond body incr fuel a s = none := by
  intro d
  induction d with
  | zero =>
    intro a ha _ fuel s
    have : a = b := by omega
    rw [this]
    exact hb fuel s
  | succ d ihd =>
    intro a ha hstep fuel
    induction fuel with
    | zero => intro s; rfl
    | succ fuel ihf =>
      intro s
      obtain ⟨hcond, hbody⟩ := hstep a (Nat.le_refl a) (by omega)
      unfold forLoop
      rw [if_pos hcond]
      rcases hbody s with h | ⟨i', s', h, hi | hi⟩
      · rw [h]
      · rw [h]
        show forLoop cond body incr fuel (incr i') s' = none
        rw [hi]
        exact ihd (a + 1) (by omega) (fun i h1 h2 => hstep i (by omega) h2) fuel s'
      · rw [h]
        show forLoop cond body incr fuel (incr i') s' = none
        rw [hi]
        exact ihf s'

theorem sweepStep_index_zero (room_map : Mat) (y x : Nat) (edges : List Point)
    (hx : x < 2147483648) :
    size_t (((sweepStep room_map 0 y x edges).1 : Int) + 1) =
      if boundaryObstacle room_map y x then x else x + 1 := by
  rw [sweepStep_fst]
  by_cases h : boundaryObstacle room_map y x
  · rw [if_pos h, if_pos h]
    have hq : (x : ℚ) + (2 * ((0 : Int) : ℚ) - 1) = (((x : Int) - 1 : Int) : ℚ) := by
      push_cast; ring
    rw [hq, truncate_intCast]
    rcases Nat.eq_zero_or_pos x with h0 | hpos
    · subst h0
      decide
    · have h2 : (size_t ((x : Int) - 1) : Int) = (x : Int) - 1 := by
        rw [size_t_of_lt _ (by omega) (by omega)]
        omega
      rw [h2, size_t_of_lt _ (by omega) (by omega)]
      omega
  · rw [if_neg h, if_neg h, size_t_of_lt _ (by omega) (by omega)]
    omega

/-- With `floor(coverage_radius) = 0` the inner sweep loop does not return on a scan line
that holds a boundary obstacle cell. -/
theorem scanLine_diverges (room_map : Mat) (y x : Nat) (hcols : room_map.cols < 2147483648)
    (hx : x < room_map.cols) (hb : boundaryObstacle room_map y x) :
    ∀ (fuel : Nat) (edges : List Point),
      forLoop (fun x => decide (x < room_map.cols))
        (fun x edges => some (sweepStep room_map 0 y x edges))
        (fun x => size_t ((x : Int) + 1)) fuel 0 edges = none := by
  refine forLoop_diverges _ _ _ x ?_ x 0 (Nat.zero_add x) ?_
  · refine forLoop_stuck _ _ _ x (by simpa using hx) fun s => Or.inr ⟨_, _, rfl, ?_⟩
    show size_t (((sweepStep room_map 0 y x s).1 : Int) + 1) = x
    rw [sweepStep_index_zero room_map y x s (by omega), if_pos hb]
  · intro i _ hi
    refine ⟨by simp; omega, fun s => Or.inr ⟨_, _, rfl, ?_⟩⟩
    show size_t (((sweepStep room_map 0 y i s).1 : Int) + 1) = i + 1 ∨
      size_t (((sweepStep room_map 0 y i s).1 : Int) + 1) = i
    rw [sweepStep_index_zero room_map y i s (by omega)]
    by_cases h : boundaryObstacle room_map y i
    · rw [if_pos h]; exact Or.inr rfl
    · rw [if_neg h]; exact Or.inl rfl

/-- C30: for a map and a rectangle whose values fit the index types: when
`floor(coverage_radius) ≥ 1` the sweep returns, given fuel beyond the number of columns and
the last scan line, and one pass of the inner loop moves the column by
`2*floor(coverage_radius)` at a boundary obstacle cell (whether or not a node is emitted)
and by 1 otherwise.  When `floor(coverage_radius) = 0` a pass at a boundary obstacle cell
leaves the column where it was, and the sweep does not return, whatever the fuel, once a
scan line holds a boundary obstacle cell. -/
theorem sweep_termination (room_map : Mat) (pmin pmax : Point32) (rest : List Point32)
    (coverage_radius : ℚ) (hcols : room_map.cols < 2147483648)
    (hmin : -1 < pmin.y + (⌊coverage_radius⌋ : ℚ))
    (hmin' : pmin.y + (⌊coverage_radius⌋ : ℚ) < 4294967296)
    (hmax : pmax.y < 4294967296) :
    (1 ≤ coverage_radius → coverage_radius < 2147483648 →
      (∀ fuel, room_map.cols < fuel → ⌊pmax.y⌋.toNat + 1 < fuel →
        ∃ edges, sweepEdges fuel room_map (pmin :: pmax :: rest) coverage_radius =
          some edges) ∧
      (∀ (y x : Nat) (edges : List Point), x < room_map.cols →
        size_t (((sweepStep room_map ⌊coverage_radius⌋ y x edges).1 : Int) + 1) =
          if boundaryObstacle room_map y x then x + 2 * ⌊coverage_radius⌋.toNat
          else x + 1)) ∧
    (0 ≤ coverage_radius → coverage_radius < 1 →
      (∀ (y x : Nat) (edges : List Point), x < room_map.cols →
        boundaryObstacle room_map y x →
        size_t (((sweepStep room_map ⌊coverage_radius⌋ y x edges).1 : Int) + 1) = x) ∧
      (∀ (y x : Nat), (truncate (pmin.y + (⌊coverage_radius⌋ : ℚ))).toNat ≤ y →
        (y : ℚ) ≤ pmax.y → x < room_map.cols → boundaryObstacle room_map y x →
        ∀ fuel, sweepEdges fuel room_map (pmin :: pmax :: rest) coverage_radius = none)) := by
  constructor
  · intro hr hr'
    have hc : (1 : Int) ≤ ⌊coverage_radius⌋ := Int.le_floor.mpr (by exact_mod_cast hr)
    have hc' : ⌊coverage_radius⌋ < 2147483648 := Int.floor_lt.mpr (by exact_mod_cast hr')
    refine ⟨fun fuel hfx hfy => ?_, fun y x edges hx => ?_⟩
    · obtain ⟨lines, hrun, _⟩ := sweepEdges_blocks fuel room_map pmin pmax rest
        coverage_radius hr hr' hcols hmin hmin' hmax hfx hfy
      exact ⟨_, hrun⟩
    · exact sweepStep_index room_map ⌊coverage_radius⌋ y x edges hc hc' (by omega)
  · intro hr hr'
    have hc0 : ⌊coverage_radius⌋ = 0 :=
      Int.floor_eq_zero_iff.mpr ⟨hr, hr'⟩
    obtain ⟨h0, h0', hsz⟩ := size_t_truncate _ hmin hmin'
    rw [hc0] at hsz h0 h0' ⊢
    refine ⟨fun y x edges hx hb => ?_, fun y x hy0 hy hx hb fuel => ?_⟩
    · rw [sweepStep_index_zero room_map y x edges (by omega), if_pos hb]
    · have hbound : ∀ i : Nat, (i : ℚ) ≤ pmax.y → i < 4294967296 := by
        intro i hi
        have : (i : ℚ) < 4294967296 := lt_of_le_of_lt hi hmax
        exact_mod_cast this
      unfold sweepEdges
      simp only [List.getD_cons_zero, List.getD_cons_succ, hc0, hsz]
      refine forLoop_diverges _ _ _ y ?_ (y - (truncate (pmin.y + ((0 : Int) : ℚ))).toNat) _
        (by omega) ?_ fuel []
      · refine forLoop_stuck _ _ _ y (by simpa using hy) fun s => Or.inl ?_
        show Option.map _ (forLoop _ _ _ fuel 0 s) = none
        rw [scanLine_diverges room_map y x hcols hx hb fuel s]
        rfl
      · intro i _ hi
        have hiy : (i : ℚ) ≤ pmax.y := by
          have : (i : ℚ) ≤ (y : ℚ) := by exact_mod_cast Nat.le_of_lt hi
          exact le_trans this hy
        refine ⟨by simpa using hiy, fun s => ?_⟩
        cases hinner : forLoop (fun x => decide (x < room_map.cols))
            (fun x edges => some (sweepStep room_map 0 i x edges))
            (fun x => size_t ((x : Int) + 1)) fuel 0 s with
        | none =>
          left
          rfl
        | some e =>
          right
          refine ⟨i, e, rfl, Or.inl ?_⟩
          · have := hbound i hiy
            show size_t ((i : Int) + 1) = i + 1
            rw [size_t_of_lt _ (by omega) (by omega)]
            omega

theorem sweep_termination_witness :
    (∃ edges, sweepEdges 10 gapMap [⟨0, 0⟩, ⟨0, 3⟩] 1 = some edges) ∧
    ∀ fuel, sweepEdges fuel gapMap [⟨0, 0⟩, ⟨0, 3⟩] (1 / 2) = none :=
  ⟨((sweep_termination gapMap ⟨0, 0⟩ ⟨0, 3⟩ [] 1 (by decide) (by decide!) (by decide!)
      (by decide!)).1 (by norm_num) (by norm_num)).1 10 (by decide) (by decide!),
    ((sweep_termination gapMap ⟨0, 0⟩ ⟨0, 3⟩ [] (1 / 2) (by decide) (by decide!) (by decide!)
      (by decide!)).2 (by norm_num) (by norm_num)).2 1 0 (by decide!) (by decide!) (by decide)
      (by decide)⟩

theorem mem_setInsert (a b : Nat) : ∀ l : List Nat, b ∈ setInsert a l ↔ b = a ∨ b ∈ l
  | [] => by simp [setInsert]
  | c :: t => by
    unfold setInsert
    by_cases h1 : a < c
    · rw [if_pos h1]
      simp
    · rw [if_neg h1]
      by_cases h2 : a = c
      · rw [if_pos h2]
        simp only [List.mem_cons]
        constructor
        · exact Or.inr
        · rintro (h | h)
          · exact Or.inl (by rw [h, h2])
          · exact h
      · rw [if_neg h2]
        simp only [List.mem_cons, mem_setInsert a b t]
        constructor
        · rintro (h | h | h)
          · exact Or.inr (Or.inl h)
          · exact Or.inl h
          · exact Or.inr (Or.inr h)
        · rintro (h | h | h)
          · exact Or.inr (Or.inl h)
          · exact Or.inl h
          · exact Or.inr (Or.inr h)

/-- Insertion into the ordered set keeps the entries strictly ascending. -/
theorem setInsert_pairwise (a : Nat) : ∀ l : List Nat, l.Pairwise (· < ·) →
    (setInsert a l).Pairwise (· < ·)
  | [], _ => by simp [setInsert]
  | c :: t, h => by
    rw [List.pairwise_cons] at h
    unfold setInsert
    by_cases h1 : a < c
    · rw [if_pos h1]
      refine List.Pairwise.cons ?_ (List.Pairwise.cons h.1 h.2)
      intro b hb
      rcases List.mem_cons.mp hb with hb | hb
      · rw [hb]; exact h1
      · exact Nat.lt_trans h1 (h.1 b hb)
    · rw [if_neg h1]
      by_cases h2 : a = c
      · rw [if_pos h2]
        exact List.Pairwise.cons h.1 h.2
      · rw [if_neg h2]
        refine List.Pairwise.cons ?_ (setInsert_pairwise a t h.2)
        intro b hb
        rcases (mem_setInsert a b t).mp hb with hb | hb
        · rw [hb]; omega
        · exact h.1 b hb

theorem foldl_setInsert_pairwise {α : Type} (f : List Nat → α → List Nat)
    (hf : ∀ acc x, acc.Pairwise (· < ·) → (f acc x).Pairwise (· < ·)) :
    ∀ (l : List α) (acc : List Nat), acc.Pairwise (· < ·) →
      (l.foldl f acc).Pairwise (· < ·)
  | [], _, h => h
  | x :: t, acc, h => foldl_setInsert_pairwise f hf t (f acc x) (hf acc x h)

/-- The set `used_arcs` is read in strictly ascending order. -/
theorem usedArcs_pairwise (C_small : List ℚ) (flows_out_of_nodes : List (List Nat))
    (start_index number_of_arcs : Nat) :
    (usedArcs C_small flows_out_of_nodes start_index number_of_arcs).Pairwise (· < ·) := by
  unfold usedArcs
  dsimp only
  refine foldl_setInsert_pairwise _ ?_ _ _
    (foldl_setInsert_pairwise _ ?_ _ _
      (foldl_setInsert_pairwise _ ?_ _ _ List.Pairwise.nil))
  all_goals
    intro acc x hacc
    dsimp only
    split_ifs
    · exact setInsert_pairwise _ _ hacc
    · exact hacc

/-- In a strictly ascending list exactly `k` entries are below the entry at place `k`. -/
theorem countP_lt_of_pairwise : ∀ (l : List Nat), l.Pairwise (· < ·) →
    ∀ k, k < l.length → (l.countP fun a => decide (a < l.getD k 0)) = k
  | [], _, k, hk => absurd hk (Nat.not_lt_zero k)
  | a :: t, h, k, hk => by
    rw [List.pairwise_cons] at h
    cases k with
    | zero =>
      simp only [List.getD_cons_zero]
      rw [List.countP_eq_zero]
      intro b hb
      rcases List.mem_cons.mp hb with hb | hb
      · rw [hb]; simp
      · have := h.1 b hb
        simp only [decide_eq_true_eq]
        omega
    | succ k =>
      simp only [List.length_cons] at hk
      have hk' : k < t.length := by omega
      simp only [List.getD_cons_succ, List.countP_cons]
      have hmem : t.getD k 0 ∈ t := by
        rw [List.getD_eq_getElem _ _ hk']
        exact List.getElem_mem _
      have hlt : a < t.getD k 0 := h.1 _ hmem
      rw [countP_lt_of_pairwise t h.2 k hk', if_pos (decide_eq_true hlt)]

theorem foldl_hconcat_col (V : Mat) (n : Nat) (hV : V.rows = n) :
    ∀ (used_arcs : List Nat) (c : Nat) (f : Nat → List Nat),
      used_arcs.foldl (fun (V_reduced : Mat) var => V_reduced.hconcat (V.col var))
          ({ rows := n, cols := c, data := (List.range n).map f } : Mat) =
        (Mat.mk n (c + used_arcs.length)
          ((List.range n).map fun row =>
            f row ++ used_arcs.map fun var => V.atUchar row var))
  | [], c, f => by
    simp only [List.foldl_nil, List.length_nil, Nat.add_zero, List.map_nil, List.append_nil]
  | var :: t, c, f => by
    have hstep : ({ rows := n, cols := c, data := (List.range n).map f } : Mat).hconcat
        (V.col var) =
        Mat.mk n (c + 1) ((List.range n).map fun row => f row ++ [V.atUchar row var]) := by
      unfold Mat.hconcat Mat.col
      simp only [Mat.mk.injEq, true_and]
      apply List.map_congr_left
      intro row hrow
      have hr : row < n := List.mem_range.mp hrow
      rw [List.getD_eq_getElem?_getD, List.getD_eq_getElem?_getD, List.getElem?_map,
        List.getElem?_map, List.getElem?_range hr, hV, List.getElem?_range hr]
      rfl
    rw [List.foldl_cons, hstep, foldl_hconcat_col V n hV t (c + 1)]
    simp only [Mat.mk.injEq, true_and, List.length_cons]
    refine ⟨by omega, ?_⟩
    apply List.map_congr_left
    intro row _
    rw [List.append_assoc, List.singleton_append, List.map_cons]

/-- The matrix `V_reduced`: one row per cell, and in each row the entries of `V` at the
used arcs, in the order of the set. -/
theorem reducedVisibilityMatrix_eq (V : Mat) (number_of_cells : Nat) (used_arcs : List Nat)
    (hV : V.rows = number_of_cells) :
    reducedVisibilityMatrix V number_of_cells used_arcs =
      Mat.mk number_of_cells used_arcs.length
        ((List.range number_of_cells).map fun row =>
          used_arcs.map fun var => V.atUchar row var) := by
  unfold reducedVisibilityMatrix
  have hinit : (List.replicate number_of_cells [0] : List (List Nat)) =
      (List.range number_of_cells).map fun _ => [0] := by
    apply List.ext_getElem
    · simp
    · intro k h1 h2
      simp
  dsimp only
  rw [hinit, foldl_hconcat_col V number_of_cells hV used_arcs 1 fun _ => [0]]
  unfold Mat.colRange
  simp only [Mat.mk.injEq, true_and, List.map_map]
  refine ⟨by omega, ?_⟩
  apply List.map_congr_left
  intro row _
  simp only [Function.comp]
  rw [List.take_of_length_le (by simp; omega)]
  rfl

/-- C31: for the ordered set `used_arcs` (read in strictly ascending order, as `usedArcs`
yields it) and a matrix `V` with one row per cell: `V_reduced` has the rows of `V` and
`|used_arcs|` columns, `reduced_arc_candidates` has `|used_arcs|` entries, and for every `k`
the entry at place `k` of the set is the `k`-th smallest used arc index, the arc stored at
`reduced_arc_candidates[k]` is the arc with that index, and column `k` of `V_reduced` is the
column of `V` with that index.  Both are empty when the set is empty. -/
theorem reduced_columns_aligned (V : Mat) (arcs : List arcStruct) (number_of_cells : Nat)
    (used_arcs : List Nat) (hV : V.rows = number_of_cells)
    (hsorted : used_arcs.Pairwise (· < ·)) :
    (reducedVisibilityMatrix V number_of_cells used_arcs).rows = V.rows ∧
    (reducedVisibilityMatrix V number_of_cells used_arcs).cols = used_arcs.length ∧
    (reducedVisibilityMatrix V number_of_cells used_arcs).data.length = V.rows ∧
    (∀ row ∈ (reducedVisibilityMatrix V number_of_cells used_arcs).data,
      row.length = used_arcs.length) ∧
    (used_arcs.map fun candidate => arcs.getD candidate (freshArc 0)).length =
      used_arcs.length ∧
    (∀ k, k < used_arcs.length →
      (used_arcs.countP fun a => decide (a < used_arcs.getD k 0)) = k ∧
      (used_arcs.map fun candidate => arcs.getD candidate (freshArc 0)).getD k (freshArc 0) =
        arcs.getD (used_arcs.getD k 0) (freshArc 0) ∧
      ∀ row, row < V.rows →
        (reducedVisibilityMatrix V number_of_cells used_arcs).atUchar row k =
          V.atUchar row (used_arcs.getD k 0)) ∧
    (used_arcs = [] →
      (reducedVisibilityMatrix V number_of_cells used_arcs).cols = 0 ∧
      (used_arcs.map fun candidate => arcs.getD candidate (freshArc 0)) = []) ∧
    ∀ (C_small : List ℚ) (flows_out_of_nodes : List (List Nat))
      (start_index number_of_arcs : Nat),
      (usedArcs C_small flows_out_of_nodes start_index number_of_arcs).Pairwise (· < ·) := by
  rw [reducedVisibilityMatrix_eq V number_of_cells used_arcs hV]
  refine ⟨hV.symm, rfl, ?_, ?_, ?_, ?_, ?_, usedArcs_pairwise⟩
  · show ((List.range number_of_cells).map _).length = V.rows
    rw [List.length_map, List.length_range, hV]
  · intro row hrow
    obtain ⟨r, _, rfl⟩ := List.mem_map.mp hrow
    exact List.length_map _ _
  · exact List.length_map _ _
  · intro k hk
    refine ⟨countP_lt_of_pairwise used_arcs hsorted k hk, ?_, fun row hrow => ?_⟩
    · rw [List.getD_eq_getElem?_getD, List.getElem?_map, List.getElem?_eq_getElem hk,
        List.getD_eq_getElem _ _ hk]
      rfl
    · have hr : row < number_of_cells := by omega
      have hdata : ((List.range number_of_cells).map fun row =>
          used_arcs.map fun var => V.atUchar row var).getD row [] =
          used_arcs.map fun var => V.atUchar row var := by
        rw [List.getD_eq_getElem?_getD, List.getElem?_map, List.getElem?_range hr]
        rfl
      have hentry : (used_arcs.map fun var => V.atUchar row var).getD k 0 =
          V.atUchar row (used_arcs.getD k 0) := by
        rw [List.getD_eq_getElem?_getD, List.getElem?_map, List.getElem?_eq_getElem hk,
          List.getD_eq_getElem _ _ hk]
        rfl
      show (((List.range number_of_cells).map fun row =>
          used_arcs.map fun var => V.atUchar row var).getD row []).getD k 0 =
        V.atUchar row (used_arcs.getD k 0)
      rw [hdata, hentry]
  · intro hnil
    subst hnil
    exact ⟨rfl, rfl⟩

theorem reduced_columns_aligned_witness :
    (reducedVisibilityMatrix ⟨2, 3, [[1, 0, 1], [0, 1, 1]]⟩ 2 [0, 2]) =
      ⟨2, 2, [[1, 1], [0, 1]]⟩ ∧
    (reducedVisibilityMatrix ⟨2, 3, [[1, 0, 1], [0, 1, 1]]⟩ 2 [0, 2]).rows = 2 ∧
    (reducedVisibilityMatrix ⟨2, 3, [[1, 0, 1], [0, 1, 1]]⟩ 2 [0, 2]).cols = 2 := by
  obtain ⟨h1, h2, _⟩ := reduced_columns_aligned ⟨2, 3, [[1, 0, 1], [0, 1, 1]]⟩
    [freshArc 1, freshArc 2, freshArc 3] 2 [0, 2] rfl (by decide)
  exact ⟨by decide, h1, h2⟩

/-- The size asked for the vector `C` of line 777 wraps around below four nodes as soon as
there is an arc (`number_of_stages - 1` is then `-1`), and is small from four nodes on. -/
theorem stageVectorSize_examples :
    stageVectorSize 2 1 2 = 18446744073709551615 ∧
    stageVectorSize 3 1 4 = 18446744073709551613 ∧
    stageVectorSize 4 1 6 = 1 ∧ stageVectorSize 0 0 0 = 0 := by
  decide

end flowNetworkExplorator
